import Mathlib

/-!
# gamegui: the input-routing core of `gui::System` (src/guilib/src/system.cpp)

A shallow embedding of the event dispatcher, the hit resolver, the focus
manager, the drag gesture machine and the tick subscription registry of
`system.cpp`, followed by theorems about them.

Conventions of the embedding

* A `base_window*` is a widget identity `Wid`; a null pointer is `none`.
* The widget tree hanging from `m_rootWindow` is the inductive `base_window`
  (identity and ordered child list, back of the list = topmost).
* Everything the dispatcher calls on a widget and that `system.cpp` does not
  define (virtual handlers, capability flags, parent links) is a field of
  `Env`.  Handlers are oracles: they return a result and do not call back
  into the dispatcher, except `onTick`, which may use the tick registry.
* Every call made on a widget or on a system widget is appended to the ghost
  field `System.log`, so that "who was called, in which order" is a statement
  about a list.
* A finite `float` value is the rational it denotes, and every `float`
  operation (`+`, `+=`, `-`, `*`, `sqrt`, the cast from `int`) is the exact operation
  followed by rounding to IEEE 754 binary32, round to nearest, ties to even
  (`round32`, `fsqrt`); no operation is carried out in a wider format.  The
  exponent range is bounded below (subnormals) but not above: where binary32
  overflows to an infinity the model keeps the rounded finite value, and the
  theorems that depend on `float` values restrict their inputs so that an
  overflow cannot change the outcome.
* `base_window::rise()`, which `system.cpp` calls and does not define, moves
  the widget to the back of its parent's child list (topmost), as the
  specification of the widget tree has it (`base_window.rise`).
* A result `none` stands for undefined behaviour of the C++ code (a null
  dereference, a write past the end of a vector) or for exhausted loop fuel.
-/

namespace gui

/-- Identity of a widget: the model of a non-null `base_window*`. -/
abbrev Wid := Nat

/-- Rounding of a rational to the nearest integer, ties to the even one. -/
def roundHalfEven (q : ℚ) : ℤ :=
  if q - ⌊q⌋ < 1 / 2 then ⌊q⌋
  else if 1 / 2 < q - ⌊q⌋ then ⌊q⌋ + 1
  else if ⌊q⌋ % 2 = 0 then ⌊q⌋ else ⌊q⌋ + 1

/-- The distance between neighbouring `float` (binary32) values at `q`:
`2^(e-23)` for `2^e ≤ |q| < 2^(e+1)`, and `2^(-149)` in the subnormal range
below `2^(-126)`. -/
def ulp32 (q : ℚ) : ℚ := (2 : ℚ) ^ (max (Int.log 2 |q|) (-126) - 23)

/-- Rounding of an exact value to `float`: the nearest multiple of the spacing
at that value, ties to the even one (24 bits of significand). -/
def round32 (q : ℚ) : ℚ := ulp32 q * roundHalfEven (q / ulp32 q)

/-- The cast `(float)x` of an `int`. -/
def castFloat (x : Int) : ℚ := round32 x

/-- The `float` sum `a + b`. -/
def fadd (a b : ℚ) : ℚ := round32 (a + b)

/-- The `float` difference `a - b`. -/
def fsub (a b : ℚ) : ℚ := round32 (a - b)

/-- The `float` product `a * b`. -/
def fmul (a b : ℚ) : ℚ := round32 (a * b)

/-- The `float` square root `sqrt(v)`, correctly rounded: with `u` the spacing of
the `float` values at the root and `m` the integer part of `sqrt(v) / u`, the
result is `u * m` or `u * (m + 1)`, whichever is nearer to the root (the even
one on a tie); the root is compared with the midpoint by its square.  The
argument is never negative where system.cpp calls `sqrt`; zero is returned
for it. -/
def fsqrt (v : ℚ) : ℚ :=
  if v ≤ 0 then 0
  else
    let u : ℚ := (2 : ℚ) ^ (Int.log 2 v / 2 - 23)
    let w : ℚ := v / (u * u)
    let m : ℕ := Nat.sqrt ⌊w⌋₊
    if w < (m : ℚ) * m + m + 1 / 4 then u * m
    else if (m : ℚ) * m + m + 1 / 4 < w then u * (m + 1)
    else if m % 2 = 0 then u * m else u * (m + 1)

/-- The class `point`: two `float` coordinates. -/
structure point where
  x : ℚ
  y : ℚ
deriving DecidableEq, Repr

/-- The difference `operator-` of two points, a `float` subtraction in each
coordinate. -/
def point.sub (a b : point) : point := ⟨fsub a.x b.x, fsub a.y b.y⟩

/-- The enum `EventArgs::MouseButtons`. -/
inductive MouseButtons where
  | Left
  | Middle
  | Right
deriving DecidableEq, Repr

/-- The enum `EventArgs::ButtonState`. -/
inductive ButtonState where
  | Down
  | Up
deriving DecidableEq, Repr

/-- The enum `EventArgs::Keys`: the keys `proceedSystemKey` names, and the rest. -/
inductive Keys where
  | K_TAB
  | K_SHIFT
  | K_LSHIFT
  | K_RSHIFT
  | K_CONTROL
  | K_LCONTROL
  | K_RCONTROL
  | K_MENU
  | K_LMENU
  | K_RMENU
  | K_ESCAPE
  | K_RETURN
  | K_OTHER (code : Nat)
deriving DecidableEq, Repr

/-- A node of the widget tree: its identity and its child list
(`base_window::children_list`, in list order; `rbegin()` is the last element). -/
inductive base_window where
  | mk (id : Wid) (children : List base_window)

/-- The identity of a tree node. -/
def base_window.id : base_window → Wid
  | .mk i _ => i

/-- The method `getChildren()`. -/
def base_window.getChildren : base_window → List base_window
  | .mk _ c => c

mutual
/-- Number of nodes of a tree. -/
def base_window.nodes : base_window → Nat
  | .mk _ c => base_window.nodesList c + 1
/-- Number of nodes of a forest. -/
def base_window.nodesList : List base_window → Nat
  | [] => 0
  | w :: rest => base_window.nodes w + base_window.nodesList rest
end

mutual
/-- Modelled from the spec: `base_window::rise()`, which is not in system.cpp,
moves the widget to the front of its parent's z-order without changing parent
or children.  Here: in the tree below a node, the widget `w` is moved to the
back of the child list it is in (the back is the topmost child, the one
`rbegin()` yields); a tree that does not hold `w` as a child is unchanged. -/
def base_window.rise (w : Wid) : base_window → base_window
  | .mk i c =>
    if c.any (fun p => p.id == w) then
      .mk i (c.filter (fun p => p.id != w) ++ c.filter (fun p => p.id == w))
    else .mk i (base_window.riseList w c)
/-- The trees of a list after `rise()` of `w` below each of them. -/
def base_window.riseList (w : Wid) : List base_window → List base_window
  | [] => []
  | p :: rest => base_window.rise w p :: base_window.riseList w rest
end

/-- The tree after `rise()` of each widget of `ws`, in order. -/
def base_window.riseAll (ws : List Wid) (r : base_window) : base_window :=
  ws.foldl (fun t w => base_window.rise w t) r

mutual
/-- The free function `GetTargetWindow(pt, list)` of system.cpp.  The result is
the `window_ptr` returned, paired with the widgets whose `hitTest` was called,
in call order. -/
def GetTargetWindow (hitTest : Wid → point → Bool) (pt : point)
    (list : List base_window) : Option base_window × List Wid :=
  GetTargetWindow.loop hitTest pt list.reverse
termination_by (base_window.nodesList list, 1)
decreasing_by
  have happ : ∀ a b : List base_window,
      base_window.nodesList (a ++ b) = base_window.nodesList a + base_window.nodesList b := by
    intro a b
    induction a with
    | nil => simp [base_window.nodesList]
    | cons w rest ih => simp [base_window.nodesList, ih, Nat.add_assoc]
  have hrev : ∀ a : List base_window,
      base_window.nodesList a.reverse = base_window.nodesList a := by
    intro a
    induction a with
    | nil => rfl
    | cons w rest ih => simp [happ, base_window.nodesList, ih, Nat.add_comm]
  rw [hrev]
  exact Prod.Lex.right _ (by decide)
/-- The `while(i != end)` loop of `GetTargetWindow`; the argument is the range
from the reverse iterator `i` to `rend()`. -/
def GetTargetWindow.loop (hitTest : Wid → point → Bool) (pt : point) :
    List base_window → Option base_window × List Wid
  | [] => (none, [])
  | p :: rest =>
    if hitTest p.id pt then
      let r := GetTargetWindow hitTest pt p.getChildren
      match r.1 with
      | none => (some p, p.id :: r.2)
      | some d => (some d, p.id :: r.2)
    else
      let r := GetTargetWindow.loop hitTest pt rest
      (r.1, p.id :: r.2)
termination_by l => (base_window.nodesList l, 0)
decreasing_by
  · apply Prod.Lex.left
    cases w with
    | mk i c =>
      simp only [base_window.getChildren, base_window.nodesList, base_window.nodes]
      omega
  · apply Prod.Lex.left
    cases w with
    | mk i c =>
      simp only [base_window.nodesList, base_window.nodes]
      omega
end

/-- A call made by the dispatcher on a widget, or on one of the system widgets
(drag container, tooltip, menu).  The first argument is the receiver. -/
inductive Call where
  | hitTest (w : Wid) (pt : point)
  | onMouseMove (w : Wid)
  | onMouseWheel (w : Wid) (diff : Int)
  | onMouseButton (w : Wid) (btn : MouseButtons) (state : ButtonState)
  | onMouseDouble (w : Wid) (btn : MouseButtons)
  | onKeyboardButton (w : Wid) (key : Keys) (state : ButtonState)
  | onChar (w : Wid) (code : Nat)
  | onMouseEnter (w : Wid)
  | onMouseLeave (w : Wid)
  | resetInputFocus (w : Wid)
  | onFocusLost (w : Wid) (newFocus : Option Wid)
  | setInputFocus (w : Wid) (query : Bool)
  | onFocusGained (w : Wid)
  | invalidate (w : Wid)
  | onCaptureLost (w : Wid)
  | onCaptureGained (w : Wid)
  | onTooltipShow (w : Wid)
  | onTooltipHide (w : Wid)
  | onTick (w : Wid) (delta : ℚ) (inTick : Bool)
  | rise (w : Wid)
  | tooltipShow (tooltip : Wid)
  | tooltipReset (tooltip : Wid)
  | menuReset (menu : Wid)
  | dragStart (dc : Wid) (wnd : Wid) (offset : point)
  | dragSetPosition (dc : Wid) (pt : point)
  | dragUpdate (dc : Wid) (target : Option Wid) (pt : point)
  | dragStop (dc : Wid)
deriving DecidableEq

/-- The widget a call is made on. -/
def Call.receiver : Call → Wid
  | .hitTest w _ => w
  | .onMouseMove w => w
  | .onMouseWheel w _ => w
  | .onMouseButton w _ _ => w
  | .onMouseDouble w _ => w
  | .onKeyboardButton w _ _ => w
  | .onChar w _ => w
  | .onMouseEnter w => w
  | .onMouseLeave w => w
  | .resetInputFocus w => w
  | .onFocusLost w _ => w
  | .setInputFocus w _ => w
  | .onFocusGained w => w
  | .invalidate w => w
  | .onCaptureLost w => w
  | .onCaptureGained w => w
  | .onTooltipShow w => w
  | .onTooltipHide w => w
  | .onTick w _ _ => w
  | .rise w => w
  | .tooltipShow w => w
  | .tooltipReset w => w
  | .menuReset w => w
  | .dragStart w _ _ => w
  | .dragSetPosition w _ => w
  | .dragUpdate w _ _ => w
  | .dragStop w => w

/-- Whether a call is a `hitTest`. -/
def Call.isHitTest : Call → Bool
  | .hitTest _ _ => true
  | _ => false

/-- Whether a call is an `onTick`. -/
def Call.isOnTick : Call → Bool
  | .onTick _ _ _ => true
  | _ => false

/-- The members of `gui::System` the dispatcher reads and writes, the two bits
of widget state it reads back (`isUnsubscribePending()` of every widget,
`getVisible()` of the tooltip widget), and the ghost call log. -/
structure System where
  m_focusWindow : Option Wid
  m_exclusiveInputWindow : Option Wid
  m_captureWindow : Option Wid
  m_rootWindow : Option base_window
  m_containsMouse : Option Wid
  m_dragContainer : Wid
  m_tooltipWindow : Wid
  m_menuWindow : Wid
  /-- The position held by `m_cursor`. -/
  m_cursor : point
  m_sytemkeys : Nat
  m_dragging : Bool
  m_dragfired : Bool
  m_dragfreeze : Bool
  m_dragWindow : Option Wid
  m_dragOffset : point
  m_dragThreshold : ℚ
  m_inTick : Bool
  m_tickClear : Bool
  m_activateTooltip : Bool
  m_ttdelay : ℚ
  m_ttlifetime : ℚ
  m_tttime : ℚ
  m_tickedWnd : List (Option Wid)
  m_subscribeTickWnd : List Wid
  /-- The flag `isUnsubscribePending()` of each widget. -/
  unsubscribePending : Wid → Bool
  /-- The flag `m_tooltipWindow->getVisible()`. -/
  tooltipVisible : Bool
  /-- Ghost: every call made so far, oldest first. -/
  log : List Call

/-- What an `onTick` callback may do to the tick registry. -/
inductive TickAct where
  | subscribeTick (wnd : Option Wid)
  | unsubscribeTick (wnd : Option Wid)
  | markUnsubscribePending (w : Wid)
deriving DecidableEq

/-- The widgets as the dispatcher sees them: the virtual methods and capability
flags of `base_window`, the results of `DragContainer::startDrag/stopDrag`, and
the modifier bits `SHIFT`, `CONTROL`, `MENU` of system.h. -/
structure Env where
  hitTest : Wid → point → Bool
  isTabStop : Wid → Bool
  isDragable : Wid → Bool
  hasTooltip : Wid → Bool
  getEnabled : Wid → Bool
  getParent : Wid → Option Wid
  prevSibling : Wid → Option Wid
  nextSibling : Wid → Option Wid
  transformToWndCoord : Wid → point → point
  getPosition : Wid → point
  onMouseMove : Wid → Bool
  onMouseWheel : Wid → Int → Bool
  onMouseButton : Wid → MouseButtons → ButtonState → Bool
  onMouseDouble : Wid → MouseButtons → Bool
  onKeyboardButton : Wid → Keys → ButtonState → Bool
  onChar : Wid → Nat → Bool
  onTick : Wid → ℚ → System → List TickAct
  dragStartDrag : Wid → point → Bool
  dragStopDrag : Bool
  SHIFT : Nat
  CONTROL : Nat
  MENU : Nat

/-- Record one call in the log. -/
def System.call (s : System) (c : Call) : System :=
  { s with log := s.log ++ [c] }

/-- The call `w->rise()`: logged, and the widget tree reordered. -/
def System.rise (s : System) (w : Wid) : System :=
  { s with m_rootWindow := s.m_rootWindow.map (base_window.rise w),
           log := s.log ++ [Call.rise w] }

/-- Record several calls in the log. -/
def System.calls (s : System) (cs : List Call) : System :=
  { s with log := s.log ++ cs }

/-- `System::queryInputFocus(wnd)`. -/
def queryInputFocus (wnd : Option Wid) (s : System) : Bool × System :=
  let s := match s.m_focusWindow with
    | some f => s.calls [.resetInputFocus f, .onFocusLost f wnd, .invalidate f]
    | none => s
  let s := { s with m_focusWindow := wnd }
  let s := match s.m_focusWindow with
    | some w => s.calls [.setInputFocus w false, .onFocusGained w, .invalidate w]
    | none => s
  (true, s)

/-- `System::queryCaptureInput(wnd)`. -/
def queryCaptureInput (wnd : Option Wid) (s : System) : System :=
  let s := match s.m_captureWindow with
    | some c => s.call (.onCaptureLost c)
    | none => s
  let s := { s with m_captureWindow := wnd }
  match wnd with
  | some w => s.call (.onCaptureGained w)
  | none => s

/-- `System::EnterExclusiveInputMode(wnd)`. -/
def EnterExclusiveInputMode (wnd : Option Wid) (s : System) : System :=
  match wnd with
  | some w => { s with m_exclusiveInputWindow := some w }
  | none => s

/-- `System::LeaveExclusiveInputMode()`. -/
def LeaveExclusiveInputMode (s : System) : System :=
  { s with m_exclusiveInputWindow := none }

/-- `System::handleFocusLost()`. -/
def handleFocusLost (s : System) : System :=
  (queryInputFocus none (queryCaptureInput none s)).2

/-- Modelled from the spec: `Tooltip::show()`, which is not in system.cpp, makes
the tooltip widget visible.  `System::showTooltip(wnd)`. -/
def showTooltip (env : Env) (wnd : Option Wid) (s : System) : System :=
  let s := match wnd with
    | some w => if env.hasTooltip w then s.call (.onTooltipShow w) else s
    | none => s
  { s.call (.tooltipShow s.m_tooltipWindow) with tooltipVisible := true }

/-- Modelled from the spec: `Tooltip::reset()`, which is not in system.cpp, hides
the tooltip widget.  `System::hideTooltip(wnd)`. -/
def hideTooltip (env : Env) (wnd : Option Wid) (s : System) : System :=
  let s := match wnd with
    | some w => if env.hasTooltip w then s.call (.onTooltipHide w) else s
    | none => s
  { s.call (.tooltipReset s.m_tooltipWindow) with tooltipVisible := false }

/-- `System::getTargetWindow(pt)`: the raw pointer of the hit widget; the hit
tests made are logged.  A null `m_rootWindow` is dereferenced: `none`. -/
def getTargetWindow (env : Env) (pt : point) (s : System) : Option (Option Wid × System) :=
  match s.m_rootWindow with
  | none => none
  | some root =>
    let r := GetTargetWindow env.hitTest pt root.getChildren
    some (r.1.map base_window.id, s.calls (r.2.map (fun w => Call.hitTest w pt)))

/-- `System::startDrag(wnd, offset)`. -/
def startDrag (env : Env) (wnd : Option Wid) (offset : point) (s : System) :
    Option (Bool × System) :=
  match wnd with
  | none => some (false, s)
  | some w =>
    let s := s.rise s.m_dragContainer
    if env.isDragable w then
      let s := s.call (.dragStart s.m_dragContainer w offset)
      if env.dragStartDrag w offset then
        let pt := s.m_cursor.sub offset
        let s := s.call (.dragSetPosition s.m_dragContainer pt)
        let s := { s with m_dragfired := true }
        match getTargetWindow env s.m_cursor s with
        | none => none
        | some (mouseWnd, s) => some (true, s.call (.dragUpdate s.m_dragContainer mouseWnd pt))
      else some (false, s)
    else some (false, s)

/-- `System::stopDrag()`. -/
def stopDrag (env : Env) (s : System) : Bool × System :=
  if s.m_dragfreeze then (false, s)
  else
    let s := if s.m_dragfired then
        { s.call (.dragStop s.m_dragContainer) with m_dragfired := !env.dragStopDrag }
      else s
    let s := if !s.m_dragfired then
        { s with m_dragfreeze := false, m_dragWindow := none, m_dragging := false }
      else s
    (!s.m_dragfired, s)

/-- The `float` expression `t.x*t.x + t.y*t.y`. -/
def squaredLength (t : point) : ℚ := fadd (fmul t.x t.x) (fmul t.y t.y)

/-- The comparison `sqrt(v) > thr` of `System::handleMouseMove`, with the `float`
square root. -/
def sqrtExceeds (v thr : ℚ) : Bool :=
  decide (thr < fsqrt v)

/-- The delivery loop shared by the four mouse handlers,
`while(target) { if(target->handler(...)) return true; target = target->getParent(); }`
followed by `return false`.  One unit of fuel per widget offered the event. -/
def bubble (getParent : Wid → Option Wid) (handler : Wid → Bool) (mk : Wid → Call) :
    Nat → Option Wid → System → Option (Bool × System)
  | _, none, s => some (false, s)
  | 0, some _, _ => none
  | fuel + 1, some w, s =>
    let s := s.call (mk w)
    if handler w then some (true, s)
    else bubble getParent handler mk fuel (getParent w) s

/-- The choice of the first widget offered a mouse event: the capture holder,
else the widget containing the mouse, else the root. -/
def mouseTarget (s : System) (root : base_window) : Wid :=
  let target := s.m_containsMouse
  let target := match s.m_captureWindow with
    | some c => some c
    | none => target
  match target with
  | some t => t
  | none => root.id

/-- The offset `off` handed to `startDrag` by `System::handleMouseMove`:
`m_dragWindow->transformToWndCoord(m_dragOffset) - m_dragWindow->getPosition()`.
It is computed only where `m_dragWindow` is not null. -/
def dragStartOffset (env : Env) (s : System) : point :=
  match s.m_dragWindow with
  | some dw => (env.transformToWndCoord dw s.m_dragOffset).sub (env.getPosition dw)
  | none => s.m_dragOffset

/-- The drag section of `System::handleMouseMove` (the block guarded by
`m_dragging && m_dragWindow != 0`). -/
def moveDragStep (env : Env) (s : System) : Option System :=
  if s.m_dragging = true ∧ s.m_dragWindow ≠ none then
    let s := { s with m_captureWindow := none }
    if !s.m_dragfired then
      let t := s.m_cursor.sub s.m_dragOffset
      if sqrtExceeds (squaredLength t) s.m_dragThreshold then
        match startDrag env s.m_dragWindow (dragStartOffset env s) s with
        | none => none
        | some (started, s) =>
          if !started then some { s with m_dragging := false, m_dragWindow := none }
          else some s
      else some s
    else some s
  else some s

/-- The containment section of `System::handleMouseMove` (the block guarded by
`(mouseWnd != m_containsMouse) && !m_captureWindow`). -/
def moveContainStep (env : Env) (mouseWnd : Option Wid) (s : System) : System :=
  if mouseWnd ≠ s.m_containsMouse ∧ s.m_captureWindow = none then
    let s := { s with m_activateTooltip := false }
    let s := match s.m_containsMouse with
      | some c => (hideTooltip env (some c) s).call (.onMouseLeave c)
      | none => s
    let s := { s with m_containsMouse := mouseWnd }
    match s.m_containsMouse with
    | some c =>
      let s := if env.hasTooltip c then { s with m_activateTooltip := true, m_tttime := 0 } else s
      s.call (.onMouseEnter c)
    | none => s
  else s

/-- The part of `System::handleMouseMove` that follows the drag section:
hit test, drag-ghost update, containment section, delivery. -/
def moveDeliver (env : Env) (fuel : Nat) (root : base_window) (s : System) :
    Option (Bool × System) :=
  match getTargetWindow env s.m_cursor s with
  | none => none
  | some (mouseWnd, s) =>
    let s := if s.m_dragfired then
        s.call (.dragUpdate s.m_dragContainer mouseWnd s.m_cursor)
      else s
    let s := moveContainStep env mouseWnd s
    bubble env.getParent env.onMouseMove Call.onMouseMove fuel
      (some (mouseTarget s root)) s

/-- `System::handleMouseMove(x, y)`. -/
def handleMouseMove (env : Env) (fuel : Nat) (x y : Int) (s : System) :
    Option (Bool × System) :=
  match s.m_exclusiveInputWindow with
  | some e => some (env.onMouseMove e, s.call (.onMouseMove e))
  | none =>
    let pt : point := ⟨castFloat x, castFloat y⟩
    let s := { s with m_cursor := pt }
    match s.m_rootWindow with
    | none => some (false, s)
    | some root =>
      match moveDragStep env s with
      | none => none
      | some s => moveDeliver env fuel root s

/-- `System::handleMouseWheel(diff)`. -/
def handleMouseWheel (env : Env) (fuel : Nat) (diff : Int) (s : System) :
    Option (Bool × System) :=
  match s.m_exclusiveInputWindow with
  | some e => some (env.onMouseWheel e diff, s.call (.onMouseWheel e diff))
  | none =>
    let s := { s with m_activateTooltip := false }
    let s := hideTooltip env s.m_containsMouse s
    match s.m_rootWindow with
    | none => some (false, s)
    | some root =>
      bubble env.getParent (fun w => env.onMouseWheel w diff)
        (fun w => Call.onMouseWheel w diff) fuel (some (mouseTarget s root)) s

/-- The focus section of `System::handleMouseButton`. -/
def buttonFocusStep (env : Env) (target : Wid) (s : System) : System :=
  if s.m_focusWindow ≠ some target then
    if env.isTabStop target then (queryInputFocus (some target) s).2
    else (queryInputFocus none s).2
  else s

/-- The drag-and-drop section of `System::handleMouseButton`. -/
def buttonDragStep (env : Env) (root : base_window) (target : Wid)
    (btn : MouseButtons) (state : ButtonState) (s : System) : System :=
  if btn = MouseButtons.Left then
    let s :=
      if !s.m_dragfired then
        if target ≠ root.id ∧ some target ≠ s.m_captureWindow then
          if env.isDragable target then
            if state = ButtonState.Down then
              { s with m_dragfired := false, m_dragOffset := s.m_cursor,
                       m_dragWindow := some target, m_dragging := true }
            else s
          else s
        else s
      else s
    if state = ButtonState.Up ∧ s.m_dragging = true then
      if !s.m_dragfired then { s with m_dragging := false } else s
    else s
  else s

/-- `System::handleMouseButton(btn, state)`. -/
def handleMouseButton (env : Env) (fuel : Nat) (btn : MouseButtons) (state : ButtonState)
    (s : System) : Option (Bool × System) :=
  match s.m_exclusiveInputWindow with
  | some e => some (env.onMouseButton e btn state, s.call (.onMouseButton e btn state))
  | none =>
    let s := { s with m_activateTooltip := false }
    let s := hideTooltip env s.m_containsMouse s
    match s.m_rootWindow with
    | none => some (false, s)
    | some root =>
      let target := mouseTarget s root
      let s := buttonFocusStep env target s
      let s := buttonDragStep env root target btn state s
      let s := s.rise target
      let s := if target ≠ s.m_menuWindow then s.call (.menuReset s.m_menuWindow) else s
      bubble env.getParent (fun w => env.onMouseButton w btn state)
        (fun w => Call.onMouseButton w btn state) fuel (some target) s

/-- `System::handleMouseDouble(btn)`. -/
def handleMouseDouble (env : Env) (fuel : Nat) (btn : MouseButtons) (s : System) :
    Option (Bool × System) :=
  match s.m_exclusiveInputWindow with
  | some e => some (env.onMouseDouble e btn, s.call (.onMouseDouble e btn))
  | none =>
    let s := { s with m_activateTooltip := false }
    let s := hideTooltip env s.m_containsMouse s
    match s.m_rootWindow with
    | none => some (false, s)
    | some root =>
      let target := mouseTarget s root
      let s := s.rise target
      bubble env.getParent (fun w => env.onMouseDouble w btn)
        (fun w => Call.onMouseDouble w btn) fuel (some target) s

/-- The sibling search of `System::proceedSystemKey`,
`while(!sibling->isTabStop()) { if(sibling == m_focusWindow) break; sibling = step(sibling); }`,
with `step` one of `prevSibling`, `nextSibling`.  A null sibling is
dereferenced: `none`.  One unit of fuel per evaluation of the loop condition. -/
def tabSearch (step : Wid → Option Wid) (isTabStop : Wid → Bool) (focus : Wid) :
    Nat → Option Wid → Option Wid
  | 0, _ => none
  | _ + 1, none => none
  | fuel + 1, some sibling =>
    if !isTabStop sibling then
      if sibling = focus then some sibling
      else tabSearch step isTabStop focus fuel (step sibling)
    else some sibling

/-- The statement `m &= ~bit` on the modifier mask. -/
def clearBits (m bit : Nat) : Nat := m ^^^ (m &&& bit)

/-- `System::proceedSystemKey(key, state)`. -/
def proceedSystemKey (env : Env) (fuel : Nat) (key : Keys) (state : ButtonState)
    (s : System) : Option (Bool × System) :=
  match key with
  | .K_TAB =>
    match s.m_focusWindow with
    | some f =>
      if state = ButtonState.Down then
        if s.m_sytemkeys &&& env.SHIFT ≠ 0 then
          match tabSearch env.prevSibling env.isTabStop f fuel (env.prevSibling f) with
          | none => none
          | some sibling => some (true, (queryInputFocus (some sibling) s).2)
        else
          match tabSearch env.nextSibling env.isTabStop f fuel (env.nextSibling f) with
          | none => none
          | some sibling => some (true, (queryInputFocus (some sibling) s).2)
      else some (true, s)
    | none => some (true, s)
  | .K_SHIFT | .K_LSHIFT | .K_RSHIFT =>
    let keys := if state = ButtonState.Down then s.m_sytemkeys ||| env.SHIFT
      else clearBits s.m_sytemkeys env.SHIFT
    some (true, { s with m_sytemkeys := keys })
  | .K_CONTROL | .K_LCONTROL | .K_RCONTROL =>
    let keys := if state = ButtonState.Down then s.m_sytemkeys ||| env.CONTROL
      else clearBits s.m_sytemkeys env.CONTROL
    some (true, { s with m_sytemkeys := keys })
  | .K_MENU | .K_LMENU | .K_RMENU =>
    let keys := if state = ButtonState.Down then s.m_sytemkeys ||| env.MENU
      else clearBits s.m_sytemkeys env.MENU
    some (true, { s with m_sytemkeys := keys })
  | .K_ESCAPE => some (false, s)
  | .K_RETURN => some (false, s)
  | .K_OTHER _ => some (false, s)

/-- `System::handleKeyboard(key, state)`.  The root is dereferenced unchecked. -/
def handleKeyboard (env : Env) (fuel : Nat) (key : Keys) (state : ButtonState)
    (s : System) : Option (Bool × System) :=
  match proceedSystemKey env fuel key state s with
  | none => none
  | some (_, s) =>
    match s.m_exclusiveInputWindow with
    | some e => some (env.onKeyboardButton e key state, s.call (.onKeyboardButton e key state))
    | none =>
      let toRoot : Option (Bool × System) :=
        match s.m_rootWindow with
        | none => none
        | some root =>
          some (env.onKeyboardButton root.id key state,
                s.call (.onKeyboardButton root.id key state))
      match s.m_focusWindow with
      | some f =>
        if env.getEnabled f then
          some (env.onKeyboardButton f key state, s.call (.onKeyboardButton f key state))
        else toRoot
      | none => toRoot

/-- `System::handleChar(code)`. -/
def handleChar (env : Env) (code : Nat) (s : System) : Bool × System :=
  match s.m_exclusiveInputWindow with
  | some e => (env.onChar e code, s.call (.onChar e code))
  | none =>
    match s.m_focusWindow with
    | none => (false, s)
    | some f =>
      if code ≤ 31 then (true, s)
      else (env.onChar f code, s.call (.onChar f code))

/-- `System::subscribeTick(wnd)`. -/
def subscribeTick (wnd : Option Wid) (s : System) : System :=
  match wnd with
  | none => s
  | some w =>
    if some w ∈ s.m_tickedWnd then s
    else if s.m_inTick then
      if w ∈ s.m_subscribeTickWnd then s
      else { s with m_subscribeTickWnd := s.m_subscribeTickWnd ++ [w] }
    else { s with m_tickedWnd := s.m_tickedWnd ++ [some w] }

/-- `System::unsubscribeTick(wnd)`. -/
def unsubscribeTick (wnd : Option Wid) (s : System) : System :=
  if s.m_inTick then s
  else
    match wnd with
    | none => s
    | some w => { s with m_tickedWnd := s.m_tickedWnd.erase (some w) }

/-- Modelled from the spec: the deferred removal protocol, which is not in
system.cpp (nothing there sets `m_tickClear` or a widget's pending flag): a
widget is marked pending-unsubscribe by setting its per-widget flag and raising
the registry's sweep flag `m_tickClear`. -/
def markUnsubscribePending (w : Wid) (s : System) : System :=
  { s with unsubscribePending := fun v => if v = w then true else s.unsubscribePending v,
           m_tickClear := true }

/-- Run one registry operation requested by an `onTick` callback. -/
def runTickAct (s : System) : TickAct → System
  | .subscribeTick wnd => subscribeTick wnd s
  | .unsubscribeTick wnd => unsubscribeTick wnd s
  | .markUnsubscribePending w => markUnsubscribePending w s

/-- The call `wnd->onTick(delta)`: the call is logged together with the value
`m_inTick` has when the callback is entered, then the callback's registry
operations run in order. -/
def callOnTick (env : Env) (delta : ℚ) (w : Wid) (s : System) : System :=
  (env.onTick w delta s).foldl runTickAct (s.call (.onTick w delta s.m_inTick))

/-- The `while(i != end)` loop of `System::tick` over the range `[i, end)` of
`m_tickedWnd`. -/
def tickLoop (env : Env) (delta : ℚ) : List (Option Wid) → System → System
  | [], s => s
  | none :: rest, s => tickLoop env delta rest s
  | some w :: rest, s => tickLoop env delta rest (callOnTick env delta w s)

/-- The functor `tickClear` of system.cpp, `obj->isUnsubscribePending()`, over
the pending flags of the widgets.  (A null `obj` is dereferenced in C++; the
sweep below does not get that far.) -/
def tickClear (pending : Wid → Bool) (obj : Option Wid) : Bool :=
  match obj with
  | some w => pending w
  | none => false

/-- The sweep of `System::tick`, `erase(remove_if(begin, end, tickClear()), end)`
under `if(m_tickClear)`.  The predicate dereferences every entry, so a null
entry is undefined behaviour: `none`. -/
def tickSweep (s : System) : Option System :=
  if s.m_tickClear then
    if s.m_tickedWnd.all Option.isSome then
      some { s with
        m_tickedWnd := s.m_tickedWnd.filter (fun e => !tickClear s.unsubscribePending e),
        m_tickClear := false }
    else none
  else some s

/-- The append of `System::tick` under `if(subscribeTickWndSize)`: `resize` by
the size the pending buffer had when `tick` was entered, `std::copy` of the
whole buffer to the new slots, `clear`.  A buffer longer than the new slots is
written past the end of the vector: `none`. -/
def tickAppend (subscribeTickWndSize : Nat) (s : System) : Option System :=
  if subscribeTickWndSize ≠ 0 then
    if s.m_subscribeTickWnd.length ≤ subscribeTickWndSize then
      some { s with
        m_tickedWnd := s.m_tickedWnd ++ (s.m_subscribeTickWnd.map some ++
          List.replicate (subscribeTickWndSize - s.m_subscribeTickWnd.length) none),
        m_subscribeTickWnd := [] }
    else none
  else some s

/-- The first tooltip block of `System::tick`, under `if(m_activateTooltip)`. -/
def tickTooltipShow (env : Env) (delta : ℚ) (s : System) : System :=
  if s.m_activateTooltip then
    let s := { s with m_tttime := fadd s.m_tttime delta }
    if s.m_tttime ≥ s.m_ttdelay then
      showTooltip env s.m_containsMouse { s with m_tttime := 0, m_activateTooltip := false }
    else s
  else s

/-- The second tooltip block of `System::tick`, under
`if(m_tooltipWindow->getVisible() && m_ttlifetime > 1.f)`. -/
def tickTooltipExpire (env : Env) (delta : ℚ) (s : System) : System :=
  if s.tooltipVisible = true ∧ s.m_ttlifetime > 1 then
    let s := { s with m_tttime := fadd s.m_tttime delta }
    if s.m_tttime ≥ s.m_ttlifetime then hideTooltip env s.m_containsMouse s
    else s
  else s

/-- The tooltip section of `System::tick`: the two blocks in sequence. -/
def tickTooltip (env : Env) (delta : ℚ) (s : System) : System :=
  tickTooltipExpire env delta (tickTooltipShow env delta s)

/-- `System::tick(delta)`. -/
def tick (env : Env) (delta : ℚ) (s : System) : Option System :=
  let s := { s with m_inTick := true }
  let subscribeTickWndSize := s.m_subscribeTickWnd.length
  let s := tickLoop env delta s.m_tickedWnd s
  match tickSweep s with
  | none => none
  | some s =>
    match tickAppend subscribeTickWndSize s with
    | none => none
    | some s =>
      let s := tickTooltip env delta s
      some { s with m_inTick := false }

/-- `System::isMouseInGui()`. -/
def isMouseInGui (s : System) : Bool :=
  match s.m_rootWindow, s.m_containsMouse with
  | some root, some c => if c ≠ root.id then true else false
  | _, _ => false

/-- `System::isMouseInGui(x, y)`. -/
def isMouseInGuiAt (env : Env) (x y : ℚ) (s : System) : Bool :=
  match s.m_exclusiveInputWindow with
  | some _ => true
  | none =>
    match s.m_rootWindow with
    | some root =>
      let mouseWnd := (GetTargetWindow env.hitTest ⟨x, y⟩ root.getChildren).1.map base_window.id
      if mouseWnd ≠ some root.id then true else false
    | none => false

/-- The reference search of the specification (`resolveTarget`): scan the
children topmost first, that is the child list in reverse; when no child
contains the point the result is null; otherwise take the first child that
contains it and search its children the same way, the child itself being the
result when nothing deeper matches. -/
def resolveTarget (hitTest : Wid → point → Bool) (pt : point)
    (children : List base_window) : Option base_window :=
  match h : children.reverse.find? (fun c => hitTest c.id pt) with
  | none => none
  | some c =>
    match resolveTarget hitTest pt c.getChildren with
    | some d => some d
    | none => some c
termination_by base_window.nodesList children
decreasing_by
  have hmem : c ∈ children := by
    have := List.mem_of_find?_eq_some h
    simpa using this
  have key : ∀ l : List base_window, c ∈ l →
      base_window.nodesList c.getChildren < base_window.nodesList l := by
    intro l
    induction l with
    | nil => intro hc; cases hc
    | cons w rest ih =>
      intro hc
      rcases List.mem_cons.mp hc with rfl | hc
      · cases c with
        | mk i ch =>
          simp only [base_window.getChildren, base_window.nodesList, base_window.nodes]
          omega
      · have := ih hc
        simp only [base_window.nodesList]
        omega
  exact key children hmem

/-- The widgets the reference search examines, in order: at each level the
children from the topmost down to and including the first one that contains
the point (all of them when none does), then the same inside that child.
Siblings below the first match are not examined. -/
def resolveExamined (hitTest : Wid → point → Bool) (pt : point)
    (children : List base_window) : List Wid :=
  match h : children.reverse.find? (fun c => hitTest c.id pt) with
  | none => children.reverse.map base_window.id
  | some c =>
    (children.reverse.takeWhile (fun c => !hitTest c.id pt)).map base_window.id
      ++ c.id :: resolveExamined hitTest pt c.getChildren
termination_by base_window.nodesList children
decreasing_by
  have hmem : c ∈ children := by
    have := List.mem_of_find?_eq_some h
    simpa using this
  have key : ∀ l : List base_window, c ∈ l →
      base_window.nodesList c.getChildren < base_window.nodesList l := by
    intro l
    induction l with
    | nil => intro hc; cases hc
    | cons w rest ih =>
      intro hc
      rcases List.mem_cons.mp hc with rfl | hc
      · cases c with
        | mk i ch =>
          simp only [base_window.getChildren, base_window.nodesList, base_window.nodes]
          omega
      · have := ih hc
        simp only [base_window.nodesList]
        omega
  exact key children hmem

/-- The state `System::reset()` builds: the root (widget 0) with the drag
container (1), the tooltip (2) and the menu (3) added in that order, every
slot empty, the constructor's threshold and tooltip delay.  Neither the
constructor nor `reset()` writes `m_activateTooltip`, so its value after
`reset()` is indeterminate; it is taken to be false here (the value every wheel,
button and double-click event and every containment change to a widget
without tooltip gives it), and the states used for the tooltip timer set it
explicitly. -/
def System.afterReset : System where
  m_focusWindow := none
  m_exclusiveInputWindow := none
  m_captureWindow := none
  m_rootWindow := some (.mk 0 [.mk 1 [], .mk 2 [], .mk 3 []])
  m_containsMouse := none
  m_dragContainer := 1
  m_tooltipWindow := 2
  m_menuWindow := 3
  m_cursor := ⟨0, 0⟩
  m_sytemkeys := 0
  m_dragging := false
  m_dragfired := false
  m_dragfreeze := false
  m_dragWindow := none
  m_dragOffset := ⟨0, 0⟩
  m_dragThreshold := 8
  m_inTick := false
  m_tickClear := false
  m_activateTooltip := false
  m_ttdelay := 2
  m_ttlifetime := 0
  m_tttime := 0
  m_tickedWnd := []
  m_subscribeTickWnd := []
  unsubscribePending := fun _ => false
  tooltipVisible := false
  log := []

/-- Widgets that do nothing: no capability flag set, every handler reports
"not handled", `onTick` leaves the registry alone, no parent and no sibling,
the drag container refuses every drag. -/
def Env.quiet : Env where
  hitTest := fun _ _ => false
  isTabStop := fun _ => false
  isDragable := fun _ => false
  hasTooltip := fun _ => false
  getEnabled := fun _ => true
  getParent := fun _ => none
  prevSibling := fun _ => none
  nextSibling := fun _ => none
  transformToWndCoord := fun _ p => p
  getPosition := fun _ => ⟨0, 0⟩
  onMouseMove := fun _ => false
  onMouseWheel := fun _ _ => false
  onMouseButton := fun _ _ _ => false
  onMouseDouble := fun _ _ => false
  onKeyboardButton := fun _ _ _ => false
  onChar := fun _ _ => false
  onTick := fun _ _ _ => []
  dragStartDrag := fun _ _ => false
  dragStopDrag := true
  SHIFT := 1
  CONTROL := 2
  MENU := 4

/-- Exclusive-input widget 7, focus holder 5, whose next sibling 6 is a tab
stop: the state of the keyboard scenario. -/
def System.exclusiveWithFocus : System :=
  { System.afterReset with m_exclusiveInputWindow := some 7, m_focusWindow := some 5 }

/-- The widgets of the keyboard scenario: 6 follows 5 among the siblings and is
a tab stop. -/
def Env.tabRing : Env :=
  { Env.quiet with
    nextSibling := fun w => if w = 5 then some 6 else some 5,
    prevSibling := fun w => if w = 5 then some 6 else some 5,
    isTabStop := fun w => decide (w = 6) }

/-- What the registry operations of the `onTick` callbacks can do between two
moments of one `tick`: the pending buffer is extended, pending flags and the
sweep flag are raised, and nothing else changes but the log. -/
def RegistryOnly (s s' : System) : Prop :=
  s'.m_inTick = s.m_inTick ∧ s'.m_tickedWnd = s.m_tickedWnd ∧
  (∃ ext, s'.m_subscribeTickWnd = s.m_subscribeTickWnd ++ ext) ∧
  (∀ v, s.unsubscribePending v = true → s'.unsubscribePending v = true) ∧
  (s.m_tickClear = true → s'.m_tickClear = true) ∧
  s' = { s with m_subscribeTickWnd := s'.m_subscribeTickWnd,
                unsubscribePending := s'.unsubscribePending,
                m_tickClear := s'.m_tickClear,
                log := s'.log }

/-- The `onTick` calls `tick(delta)` makes for the entries of an active list:
one per non-null entry, in list order, each entered with `m_inTick` set. -/
def tickCalls (delta : ℚ) (l : List (Option Wid)) : List Call :=
  l.filterMap (fun e => e.map (fun w => Call.onTick w delta true))

/-- The tick registry is the same in two states, and the second state's log
extends the first's by calls none of which is an `onTick`. -/
def SameRegistry (s s' : System) : Prop :=
  s'.m_tickedWnd = s.m_tickedWnd ∧ s'.m_subscribeTickWnd = s.m_subscribeTickWnd ∧
  s'.m_inTick = s.m_inTick ∧ s'.unsubscribePending = s.unsubscribePending ∧
  s'.m_tickClear = s.m_tickClear ∧
  ∃ extra, s'.log = s.log ++ extra ∧ ∀ c ∈ extra, Call.isOnTick c = false

/-- Widget 1 subscribes widget 9 from its `onTick`; nothing else happens. -/
def Env.subscriber : Env :=
  { Env.quiet with
    onTick := fun w _ _ => if w = 1 then [TickAct.subscribeTick (some 9)] else [] }

/-- Widget 1 marks itself pending-unsubscribe from its `onTick`. -/
def Env.leaver : Env :=
  { Env.quiet with
    onTick := fun w _ _ => if w = 1 then [TickAct.markUnsubscribePending 1] else [] }

/-- The state after `reset()` and `subscribeTick(1)`. -/
def System.oneTicked : System := subscribeTick (some 1) System.afterReset

/-- The state after `reset()`, `subscribeTick(1)`, `subscribeTick(4)` and
`subscribeTick(5)`. -/
def System.threeTicked : System :=
  subscribeTick (some 5) (subscribeTick (some 4) (subscribeTick (some 1) System.afterReset))

/-- The registry and the new log entries of a state, for reading off results. -/
def System.registryView (s : System) : List (Option Wid) × List Wid × List Call :=
  (s.m_tickedWnd, s.m_subscribeTickWnd, s.log)

/-- The chain of widgets that starts at a widget and follows the parent links up
to a widget without parent; the chain of a null pointer is empty. -/
def parentChain (getParent : Wid → Option Wid) : Option Wid → List Wid → Prop
  | none, l => l = []
  | some _, [] => False
  | some w, c :: rest => c = w ∧ parentChain getParent (getParent w) rest

/-- The widgets of a chain that are offered an event: those up to and including
the first one whose handler reports "handled". -/
def offered (handler : Wid → Bool) : List Wid → List Wid
  | [] => []
  | w :: rest => if handler w then [w] else w :: offered handler rest

/-- Whether a call is one of the event handlers `onMouseMove`, `onMouseWheel`,
`onMouseButton`, `onMouseDouble`, `onKeyboardButton`, `onChar`. -/
def Call.isEventHandler : Call → Bool
  | .onMouseMove _ => true
  | .onMouseWheel _ _ => true
  | .onMouseButton _ _ _ => true
  | .onMouseDouble _ _ => true
  | .onKeyboardButton _ _ _ => true
  | .onChar _ _ => true
  | _ => false

/-- The widget a call raises, if the call is `rise()`. -/
def Call.risen : Call → Option Wid
  | .rise w => some w
  | _ => none

/-- The state `s0` is reached from `s` by steps that leave the root pointer, the
exclusive slot and the system widgets alone and that only make calls
satisfying `P`; the tree below the root is that of `s` after the calls of
`rise()` among them, in the order they were made (without such a call, the
tree of `s`). -/
def Prelude (P : Call → Prop) (s s0 : System) : Prop :=
  s0.m_rootWindow = s.m_rootWindow.map
    (base_window.riseAll ((s0.log.drop s.log.length).filterMap Call.risen)) ∧
  s0.m_exclusiveInputWindow = s.m_exclusiveInputWindow ∧
  s0.m_dragContainer = s.m_dragContainer ∧
  s0.m_menuWindow = s.m_menuWindow ∧
  ∃ extra, s0.log = s.log ++ extra ∧ ∀ c ∈ extra, P c

/-- The three members of the drag machine that record its state are the same in
two states. -/
def DragSame (s s0 : System) : Prop :=
  s0.m_dragging = s.m_dragging ∧ s0.m_dragfired = s.m_dragfired ∧
  s0.m_dragWindow = s.m_dragWindow

/-- Capture holder and contained-mouse widget are the same in two states. -/
def SameTarget (s s0 : System) : Prop :=
  s0.m_captureWindow = s.m_captureWindow ∧ s0.m_containsMouse = s.m_containsMouse

/-- Whether a call belongs to an attempt to start a drag: raising a widget (in
`handleMouseMove` only `startDrag` raises one, the drag container) or
`DragContainer::startDrag`. -/
def Call.isDragAttempt : Call → Bool
  | .rise _ => true
  | .dragStart _ _ _ => true
  | _ => false

/-- Bubbled delivery: from the state `s0` in which delivery starts, whenever the
parent links from the first target (capture holder, else contained-mouse
widget, else root) form the chain `chain` and the fuel covers it, the run
offers the event to the widgets of the chain up to the first one that
handles it, makes no other call, and returns whether one handled it. -/
def Bubbled (env : Env) (root : base_window) (s0 : System) (handler : Wid → Bool)
    (mk : Wid → Call) (run : Nat → Option (Bool × System)) : Prop :=
  ∀ (chain : List Wid) (fuel : Nat),
    parentChain env.getParent (some (mouseTarget s0 root)) chain → chain.length ≤ fuel →
    run fuel = some (chain.any handler, s0.calls ((offered handler chain).map mk))

/-- The argument of `sqrt` in `System::handleMouseMove(x, y)`: the `float` sum of
squares of the difference between the cursor position, set from `(float)x` and
`(float)y`, and the recorded grab point `m_dragOffset`. -/
def grabDistanceSq (s : System) (x y : Int) : ℚ :=
  squaredLength ((⟨castFloat x, castFloat y⟩ : point).sub s.m_dragOffset)

/-- A drag armed on widget 5 at grab point (0, 0), threshold 8, nothing else. -/
def System.armed : System :=
  { System.afterReset with
    m_dragging := true, m_dragWindow := some 5, m_dragOffset := ⟨0, 0⟩ }

/-- Widget 5 is draggable and the drag container accepts every drag. -/
def Env.draggable : Env :=
  { Env.quiet with
    isDragable := fun w => decide (w = 5),
    dragStartDrag := fun _ _ => true }

/-- A drag armed on widget 5 at grab point (16777208, 0), threshold 8, nothing
else. -/
def System.armedFar : System :=
  { System.afterReset with
    m_dragging := true, m_dragWindow := some 5, m_dragOffset := ⟨16777208, 0⟩ }

/-- The mouse is over widget 5, whose parent is widget 4, a child of the root. -/
def System.hovering : System :=
  { System.afterReset with m_containsMouse := some 5 }

/-- Widget 5 is a child of widget 4, widget 4 a child of the root 0; widget 4
handles the mouse wheel. -/
def Env.nested : Env :=
  { Env.quiet with
    getParent := fun w => if w = 5 then some 4 else if w = 4 then some 0 else none,
    onMouseWheel := fun w _ => decide (w = 4) }

/-- Widget 5 holds the keyboard focus; nothing else is set. -/
def System.focused : System :=
  { System.afterReset with m_focusWindow := some 5 }

/-- Widget 1 subscribes widget 9 from its `onTick` the first time it is ticked
(no call has been made yet) and never again. -/
def Env.onceSubscriber : Env :=
  { Env.quiet with
    onTick := fun w _ s =>
      if w = 1 ∧ s.log = [] then [TickAct.subscribeTick (some 9)] else [] }

/-- A run of `tick` calls with the given deltas, nothing happening in between. -/
def ticksAfter (env : Env) : List ℚ → System → Option System
  | [], s => some s
  | d :: rest, s =>
    match tick env d s with
    | none => none
    | some s1 => ticksAfter env rest s1

/-- Whether a call is `Tooltip::show()`, the call `System::showTooltip` always
makes. -/
def Call.isTooltipShow : Call → Bool
  | .tooltipShow _ => true
  | _ => false

/-- Whether a call is `Tooltip::reset()`, the call `System::hideTooltip` always
makes. -/
def Call.isTooltipReset : Call → Bool
  | .tooltipReset _ => true
  | _ => false

/-- The mouse is over widget 5 and the tooltip has just been armed; hover delay
2, lifetime cap 3. -/
def System.tooltipArmed : System :=
  { System.afterReset with
    m_containsMouse := some 5, m_activateTooltip := true, m_tttime := 0, m_ttlifetime := 3 }

/-- Widget 5 declares a tooltip. -/
def Env.tooltipped : Env :=
  { Env.quiet with hasTooltip := fun w => decide (w = 5) }

/-- The tooltip has just been armed over widget 5 while the tooltip widget is
visible; hover delay 4, lifetime cap 100. -/
def System.tooltipArmedVisible : System :=
  { System.tooltipArmed with tooltipVisible := true, m_ttdelay := 4, m_ttlifetime := 100 }

/-- Tick deltas `2 - 2^-23, 2^-25, 2^-25, 2^-25, 2^-25`, of exact sum 2. -/
def stallDeltas : List ℚ :=
  [16777215 / 8388608, 1 / 33554432, 1 / 33554432, 1 / 33554432, 1 / 33554432]

/-- The members the tooltip section of `tick` reads are the same in two states. -/
def TooltipSame (s s0 : System) : Prop :=
  s0.m_activateTooltip = s.m_activateTooltip ∧ s0.m_tttime = s.m_tttime ∧
  s0.m_ttdelay = s.m_ttdelay ∧ s0.m_ttlifetime = s.m_ttlifetime ∧
  s0.tooltipVisible = s.tooltipVisible ∧ s0.m_containsMouse = s.m_containsMouse ∧
  s0.m_tooltipWindow = s.m_tooltipWindow

/-- The calls `System::showTooltip(wnd)` makes: `wnd->onTooltipShow()` when `wnd`
is not null and has a tooltip, then `Tooltip::show()`. -/
def showCalls (env : Env) (wnd : Option Wid) (tooltip : Wid) : List Call :=
  (match wnd with
    | some w => if env.hasTooltip w then [Call.onTooltipShow w] else []
    | none => []) ++ [Call.tooltipShow tooltip]

/-- The calls `System::hideTooltip(wnd)` makes: `wnd->onTooltipHide()` when `wnd`
is not null and has a tooltip, then `Tooltip::reset()`. -/
def hideCalls (env : Env) (wnd : Option Wid) (tooltip : Wid) : List Call :=
  (match wnd with
    | some w => if env.hasTooltip w then [Call.onTooltipHide w] else []
    | none => []) ++ [Call.tooltipReset tooltip]

/-- Whether a call is one of those `System::queryInputFocus` makes on the old and
the new focus holder. -/
def Call.isFocusCall : Call → Bool
  | .resetInputFocus _ => true
  | .onFocusLost _ _ => true
  | .setInputFocus _ _ => true
  | .onFocusGained _ => true
  | .invalidate _ => true
  | _ => false

/-- The calls `System::queryInputFocus(wnd)` makes when the focus holder is
`old`: three on the old holder if there is one, three on `wnd` if not null. -/
def focusCalls (old wnd : Option Wid) : List Call :=
  (match old with
    | some f => [Call.resetInputFocus f, Call.onFocusLost f wnd, Call.invalidate f]
    | none => []) ++
  (match wnd with
    | some w => [Call.setInputFocus w false, Call.onFocusGained w, Call.invalidate w]
    | none => [])

/-- Widget 5 holds the focus and the mouse is over widget 6. -/
def System.focusedHover : System :=
  { System.afterReset with m_focusWindow := some 5, m_containsMouse := some 6 }

/-- Whether a call is `onMouseEnter` or `onMouseLeave`. -/
def Call.isEnterLeave : Call → Bool
  | .onMouseEnter _ => true
  | .onMouseLeave _ => true
  | _ => false

/-- The calls of the containment section of `System::handleMouseMove` when the
contained-mouse widget changes from `old` to `mouseWnd`: `hideTooltip(old)` and
`old->onMouseLeave()` if `old` is not null, then `mouseWnd->onMouseEnter()` if
`mouseWnd` is not null. -/
def containCalls (env : Env) (old mouseWnd : Option Wid) (tooltip : Wid) : List Call :=
  (match old with
    | some c => hideCalls env (some c) tooltip ++ [Call.onMouseLeave c]
    | none => []) ++
  (match mouseWnd with
    | some c => [Call.onMouseEnter c]
    | none => [])

/-- Whether the drag section of `handleMouseMove(x, y)` calls `startDrag`: a drag
is armed on a widget, not fired, and the threshold test on the new cursor
position passes. -/
def dragAttempted (s : System) (x y : Int) : Bool :=
  s.m_dragging && s.m_dragWindow.isSome && !s.m_dragfired &&
    sqrtExceeds (grabDistanceSq s x y) s.m_dragThreshold

/-- The widget tree after the drag section of `handleMouseMove(x, y)`, from the
tree `root` on entry: `startDrag` raises the drag container before anything
else, and nothing else in the section touches the tree. -/
def treeAfterDrag (s : System) (x y : Int) (root : base_window) : base_window :=
  if dragAttempted s x y then base_window.rise s.m_dragContainer root else root

/-- The hit target `handleMouseMove(x, y)` recomputes after its drag section:
`getTargetWindow(m_cursor.getPosition())`, the cursor being `((float)x, (float)y)`
and the tree the one the drag section leaves. -/
def hitWidget (env : Env) (x y : Int) (s : System) (root : base_window) : Option Wid :=
  (GetTargetWindow env.hitTest ⟨castFloat x, castFloat y⟩
    (treeAfterDrag s x y root).getChildren).1.map base_window.id

/-- The capture holder after the drag section of `handleMouseMove`: the section
runs under `m_dragging && m_dragWindow != 0` and then clears `m_captureWindow`. -/
def captureAfterDrag (s : System) : Option Wid :=
  if s.m_dragging = true ∧ s.m_dragWindow ≠ none then none else s.m_captureWindow

/-- Widget 7 holds the capture while the mouse is recorded over widget 5. -/
def System.capturedHover : System :=
  { System.afterReset with m_captureWindow := some 7, m_containsMouse := some 5 }

/-- Modelled from the spec: `base_window::nextSibling()`, which is not in
system.cpp, is the cyclic successor in the parent's child sequence `sibs`: the
child after the widget, the first child after the last one.  A widget that is
not among the children has no sibling. -/
def cyclicNext (sibs : List Wid) (w : Wid) : Option Wid :=
  if w ∈ sibs then sibs.get? ((sibs.indexOf w + 1) % sibs.length) else none

/-- Modelled from the spec: `base_window::prevSibling()`, which is not in
system.cpp, is the cyclic predecessor in the parent's child sequence `sibs`:
the child before the widget, the last child before the first one. -/
def cyclicPrev (sibs : List Wid) (w : Wid) : Option Wid :=
  if w ∈ sibs then sibs.get? ((sibs.indexOf w + sibs.length - 1) % sibs.length) else none

/-- The walk of the specification through the siblings of the focus holder `f`:
from the neighbour of `f` in the chosen direction, once around, ending at `f`. -/
def tabWalk (sibs : List Wid) (f : Wid) (backward : Bool) : List Wid :=
  if backward then (sibs.rotate (sibs.indexOf f)).reverse
  else sibs.rotate (sibs.indexOf f + 1)

/-- The focus holder the specification names for a Tab key-down: the first tab
stop met on the walk, or `f` itself when the walk meets none. -/
def tabTarget (isTabStop : Wid → Bool) (sibs : List Wid) (f : Wid) (backward : Bool) : Wid :=
  ((tabWalk sibs f backward).find? isTabStop).getD f

/-- The children 5, 6, 7 of one parent, with cyclic sibling links; only widget 7
is a tab stop. -/
def Env.ring : Env :=
  { Env.quiet with
    nextSibling := cyclicNext [5, 6, 7],
    prevSibling := cyclicPrev [5, 6, 7],
    isTabStop := fun w => decide (w = 7) }

/-- The tooltip timer after the deltas `ds` have been added to it one tick at a
time, `m_tttime += delta` in `float` arithmetic: the sum is rounded after every
addition. -/
def timerAfter (t0 : ℚ) (ds : List ℚ) : ℚ := ds.foldl fadd t0

/-! ## Theorems -/

theorem roundHalfEven_intCast (n : ℤ) : roundHalfEven (n : ℚ) = n := by
  unfold roundHalfEven
  simp

theorem floor_le_roundHalfEven (q : ℚ) : ⌊q⌋ ≤ roundHalfEven q := by
  unfold roundHalfEven
  split_ifs <;> omega

theorem roundHalfEven_le_floor_succ (q : ℚ) : roundHalfEven q ≤ ⌊q⌋ + 1 := by
  unfold roundHalfEven
  split_ifs <;> omega

theorem le_roundHalfEven (n : ℤ) (q : ℚ) (h : (n : ℚ) ≤ q) : n ≤ roundHalfEven q :=
  le_trans (Int.le_floor.mpr h) (floor_le_roundHalfEven q)

theorem roundHalfEven_of_lt_half (n : ℤ) (q : ℚ) (h1 : (n : ℚ) ≤ q) (h2 : q < n + 1 / 2) :
    roundHalfEven q = n := by
  have hf : ⌊q⌋ = n := by
    rw [Int.floor_eq_iff]
    constructor
    · exact h1
    · linarith
  unfold roundHalfEven
  rw [hf, if_pos (by linarith)]

theorem roundHalfEven_tie_even (n : ℤ) (hn : n % 2 = 0) :
    roundHalfEven ((n : ℚ) + 1 / 2) = n := by
  have hf : ⌊(n : ℚ) + 1 / 2⌋ = n := by
    rw [Int.floor_eq_iff]
    constructor <;> linarith
  unfold roundHalfEven
  rw [hf, if_neg (by norm_num), if_neg (by norm_num), if_pos hn]

theorem ulp32_pos (q : ℚ) : 0 < ulp32 q := by
  unfold ulp32
  positivity

theorem log2_eq (r : ℚ) (e : ℤ) (h1 : (2 : ℚ) ^ e ≤ r) (h2 : r < (2 : ℚ) ^ (e + 1)) :
    Int.log 2 r = e := by
  have hr : 0 < r := lt_of_lt_of_le (by positivity) h1
  apply le_antisymm
  · have := (Int.lt_zpow_iff_log_lt (b := 2) (by norm_num) hr).mp (by exact_mod_cast h2)
    omega
  · exact (Int.zpow_le_iff_le_log (b := 2) (by norm_num) hr).mp (by exact_mod_cast h1)

theorem ulp32_eq (q : ℚ) (e : ℤ) (he : -126 ≤ e) (h1 : (2 : ℚ) ^ e ≤ |q|)
    (h2 : |q| < (2 : ℚ) ^ (e + 1)) : ulp32 q = (2 : ℚ) ^ (e - 23) := by
  unfold ulp32
  rw [log2_eq |q| e h1 h2, max_eq_left he]

theorem round32_of_ulp (q u : ℚ) (n : ℤ) (hu : ulp32 q = u) (hn : roundHalfEven (q / u) = n) :
    round32 q = u * n := by
  unfold round32
  rw [hu, hn]

theorem round32_eq_self (q : ℚ) (n : ℤ) (h : q / ulp32 q = n) : round32 q = q := by
  unfold round32
  rw [h, roundHalfEven_intCast, ← h]
  field_simp [(ulp32_pos q).ne']

theorem round32_zero : round32 0 = 0 := by
  unfold round32
  simp [roundHalfEven]

theorem round32_nonneg (q : ℚ) (h : 0 ≤ q) : 0 ≤ round32 q := by
  unfold round32
  have h1 : (0 : ℚ) ≤ q / ulp32 q := div_nonneg h (ulp32_pos q).le
  have h2 : (0 : ℤ) ≤ roundHalfEven (q / ulp32 q) :=
    le_roundHalfEven 0 _ (by simpa using h1)
  exact mul_nonneg (ulp32_pos q).le (by exact_mod_cast h2)

/-- Rounding stays in the closed binade: a value of at least `2^e` rounds to at
least `2^e`. -/
theorem le_round32 (q : ℚ) (e : ℤ) (he : -126 ≤ e) (h : (2 : ℚ) ^ e ≤ q) :
    (2 : ℚ) ^ e ≤ round32 q := by
  have hq : 0 < q := lt_of_lt_of_le (by positivity) h
  have habs : |q| = q := abs_of_pos hq
  have hle : e ≤ Int.log 2 q :=
    (Int.zpow_le_iff_le_log (b := 2) (by norm_num) hq).mp (by exact_mod_cast h)
  have hlow : (2 : ℚ) ^ (Int.log 2 q) ≤ q := by
    have := Int.zpow_log_le_self (b := 2) (by norm_num) hq
    exact_mod_cast this
  have hu : ulp32 q = (2 : ℚ) ^ (Int.log 2 q - 23) := by
    unfold ulp32
    rw [habs, max_eq_left (by omega)]
  have hdiv : ((2 ^ 23 : ℤ) : ℚ) ≤ q / ulp32 q := by
    rw [hu, le_div_iff₀ (by positivity)]
    have : ((2 ^ 23 : ℤ) : ℚ) * (2 : ℚ) ^ (Int.log 2 q - 23) = (2 : ℚ) ^ (Int.log 2 q) := by
      rw [zpow_sub₀ (by norm_num : (2 : ℚ) ≠ 0)]
      norm_num
      field_simp
    rw [this]
    exact hlow
  have hr := le_roundHalfEven (2 ^ 23) _ hdiv
  have hr' : ((2 ^ 23 : ℤ) : ℚ) ≤ (roundHalfEven (q / ulp32 q) : ℚ) := by exact_mod_cast hr
  unfold round32
  calc (2 : ℚ) ^ e ≤ (2 : ℚ) ^ (Int.log 2 q) := zpow_le_zpow_right₀ (by norm_num) hle
    _ = ulp32 q * ((2 ^ 23 : ℤ) : ℚ) := by
        rw [hu, zpow_sub₀ (by norm_num : (2 : ℚ) ≠ 0)]
        norm_num
    _ ≤ ulp32 q * (roundHalfEven (q / ulp32 q) : ℚ) :=
        mul_le_mul_of_nonneg_left hr' (ulp32_pos q).le

/-- Every integer of magnitude at most `2^24` is a `float`. -/
theorem round32_intCast (z : ℤ) (h : |z| ≤ 2 ^ 24) : round32 (z : ℚ) = z := by
  by_cases hz : z = 0
  · subst hz
    simpa using round32_zero
  have hpos : (0 : ℚ) < |(z : ℚ)| := abs_pos.mpr (by exact_mod_cast hz)
  have h1 : (1 : ℚ) ≤ |(z : ℚ)| := by
    have : (1 : ℤ) ≤ |z| := Int.one_le_abs hz
    exact_mod_cast this
  have hle : |(z : ℚ)| ≤ 2 ^ 24 := by exact_mod_cast h
  have he0 : 0 ≤ Int.log 2 |(z : ℚ)| :=
    (Int.zpow_le_iff_le_log (b := 2) (by norm_num) hpos).mp (by simpa using h1)
  have he24 : Int.log 2 |(z : ℚ)| < 25 :=
    (Int.lt_zpow_iff_log_lt (b := 2) (by norm_num) hpos).mp (by
      have : |(z : ℚ)| < 2 ^ 25 := lt_of_le_of_lt hle (by norm_num)
      exact_mod_cast this)
  have hu : ulp32 (z : ℚ) = (2 : ℚ) ^ (Int.log 2 |(z : ℚ)| - 23) := by
    unfold ulp32
    rw [max_eq_left (by omega)]
  by_cases he : Int.log 2 |(z : ℚ)| ≤ 23
  · obtain ⟨k, hk⟩ : ∃ k : ℕ, Int.log 2 |(z : ℚ)| - 23 = -(k : ℤ) :=
      ⟨(23 - Int.log 2 |(z : ℚ)|).toNat, by omega⟩
    apply round32_eq_self _ (z * 2 ^ k)
    rw [hu, hk, zpow_neg, zpow_natCast]
    push_cast
    field_simp
  · have he' : Int.log 2 |(z : ℚ)| = 24 := by omega
    have hlow : (2 : ℚ) ^ (24 : ℤ) ≤ |(z : ℚ)| := by
      have := Int.zpow_log_le_self (b := 2) (by norm_num) hpos
      rw [he'] at this
      exact_mod_cast this
    have habs : |z| = 2 ^ 24 := by
      apply le_antisymm h
      have : ((2 ^ 24 : ℤ) : ℚ) ≤ ((|z| : ℤ) : ℚ) := by
        push_cast
        norm_num at hlow ⊢
        exact hlow
      exact_mod_cast this
    apply round32_eq_self _ (z / 2)
    rw [hu, he']
    have hdvd : (2 : ℤ) ∣ z := by
      rcases abs_eq (by norm_num : (0 : ℤ) ≤ 2 ^ 24) |>.mp habs with h | h <;> rw [h] <;> norm_num
    obtain ⟨c, rfl⟩ := hdvd
    norm_num

/-- The two candidates of the rounded square root and the side of the midpoint
that selects each. -/
theorem fsqrt_cases (v : ℚ) (hv : 0 < v) :
    ∃ m : ℕ,
      (m : ℚ) * m ≤ v / ((2 : ℚ) ^ (Int.log 2 v / 2 - 23) * (2 : ℚ) ^ (Int.log 2 v / 2 - 23)) ∧
      v / ((2 : ℚ) ^ (Int.log 2 v / 2 - 23) * (2 : ℚ) ^ (Int.log 2 v / 2 - 23))
        < ((m : ℚ) + 1) * (m + 1) ∧
      ((fsqrt v = (2 : ℚ) ^ (Int.log 2 v / 2 - 23) * m ∧
          v / ((2 : ℚ) ^ (Int.log 2 v / 2 - 23) * (2 : ℚ) ^ (Int.log 2 v / 2 - 23))
            ≤ (m : ℚ) * m + m + 1 / 4) ∨
        (fsqrt v = (2 : ℚ) ^ (Int.log 2 v / 2 - 23) * (m + 1) ∧
          (m : ℚ) * m + m + 1 / 4
            ≤ v / ((2 : ℚ) ^ (Int.log 2 v / 2 - 23) * (2 : ℚ) ^ (Int.log 2 v / 2 - 23)))) := by
  obtain ⟨u, hu⟩ : ∃ u : ℚ, u = (2 : ℚ) ^ (Int.log 2 v / 2 - 23) := ⟨_, rfl⟩
  have hupos : 0 < u := by rw [hu]; positivity
  rw [← hu]
  obtain ⟨w, hw⟩ : ∃ w : ℚ, w = v / (u * u) := ⟨_, rfl⟩
  have hwpos : 0 ≤ w := by rw [hw]; positivity
  rw [← hw]
  have hf : fsqrt v =
      if w < ((Nat.sqrt ⌊w⌋₊ : ℕ) : ℚ) * (Nat.sqrt ⌊w⌋₊ : ℕ) + (Nat.sqrt ⌊w⌋₊ : ℕ) + 1 / 4 then
        u * (Nat.sqrt ⌊w⌋₊ : ℕ)
      else if ((Nat.sqrt ⌊w⌋₊ : ℕ) : ℚ) * (Nat.sqrt ⌊w⌋₊ : ℕ) + (Nat.sqrt ⌊w⌋₊ : ℕ) + 1 / 4 < w then
        u * ((Nat.sqrt ⌊w⌋₊ : ℕ) + 1)
      else if Nat.sqrt ⌊w⌋₊ % 2 = 0 then u * (Nat.sqrt ⌊w⌋₊ : ℕ)
      else u * ((Nat.sqrt ⌊w⌋₊ : ℕ) + 1) := by
    unfold fsqrt
    rw [if_neg (not_le.mpr hv), hw, hu]
  refine ⟨Nat.sqrt ⌊w⌋₊, ?_, ?_, ?_⟩
  · have h1 : Nat.sqrt ⌊w⌋₊ * Nat.sqrt ⌊w⌋₊ ≤ ⌊w⌋₊ := Nat.sqrt_le _
    have h2 : ((⌊w⌋₊ : ℕ) : ℚ) ≤ w := Nat.floor_le hwpos
    have h3 : ((Nat.sqrt ⌊w⌋₊ * Nat.sqrt ⌊w⌋₊ : ℕ) : ℚ) ≤ ((⌊w⌋₊ : ℕ) : ℚ) := by
      exact_mod_cast h1
    push_cast at h3
    linarith
  · have h1 : ⌊w⌋₊ < (Nat.sqrt ⌊w⌋₊ + 1) * (Nat.sqrt ⌊w⌋₊ + 1) := Nat.lt_succ_sqrt _
    have h2 : w < ((⌊w⌋₊ : ℕ) : ℚ) + 1 := Nat.lt_floor_add_one w
    have h3 : ((⌊w⌋₊ : ℕ) : ℚ) + 1 ≤
        (((Nat.sqrt ⌊w⌋₊ + 1) * (Nat.sqrt ⌊w⌋₊ + 1) : ℕ) : ℚ) := by
      exact_mod_cast h1
    push_cast at h3
    linarith
  · rw [hf]
    split_ifs with c1 c2 c3
    · exact Or.inl ⟨rfl, c1.le⟩
    · exact Or.inr ⟨rfl, c2.le⟩
    · exact Or.inl ⟨rfl, not_lt.mp c2⟩
    · exact Or.inr ⟨rfl, not_lt.mp c1⟩

theorem fsqrt_zero : fsqrt 0 = 0 := by
  unfold fsqrt
  simp

/-- The square root of a value of at least `2^24` is at least `2^12`. -/
theorem le_fsqrt (v : ℚ) (h : (2 : ℚ) ^ (24 : ℤ) ≤ v) : (4096 : ℚ) ≤ fsqrt v := by
  have hv : 0 < v := lt_of_lt_of_le (by positivity) h
  have he : 24 ≤ Int.log 2 v :=
    (Int.zpow_le_iff_le_log (b := 2) (by norm_num) hv).mp (by exact_mod_cast h)
  have hlow : (2 : ℚ) ^ (Int.log 2 v) ≤ v := by
    have := Int.zpow_log_le_self (b := 2) (by norm_num) hv
    exact_mod_cast this
  obtain ⟨m, _, hlt, hcase⟩ := fsqrt_cases v hv
  obtain ⟨k, hk⟩ : ∃ k : ℤ, k = Int.log 2 v / 2 := ⟨_, rfl⟩
  rw [← hk] at hlt hcase
  have hk12 : 12 ≤ k := by omega
  have hk2 : 2 * k ≤ Int.log 2 v := by omega
  have hw : (2 : ℚ) ^ (46 : ℤ) ≤ v / ((2 : ℚ) ^ (k - 23) * (2 : ℚ) ^ (k - 23)) := by
    rw [le_div_iff₀ (by positivity), ← zpow_add₀ (by norm_num : (2 : ℚ) ≠ 0),
      ← zpow_add₀ (by norm_num : (2 : ℚ) ≠ 0)]
    calc (2 : ℚ) ^ (46 + (k - 23 + (k - 23))) = (2 : ℚ) ^ (2 * k) := by congr 1; ring
      _ ≤ (2 : ℚ) ^ (Int.log 2 v) := zpow_le_zpow_right₀ (by norm_num) hk2
      _ ≤ v := hlow
  have hm : (2 ^ 23 : ℕ) ≤ m := by
    by_contra hcon
    have hm1 : m + 1 ≤ 2 ^ 23 := by omega
    have hm2 : ((m : ℚ) + 1) ≤ 2 ^ 23 := by exact_mod_cast hm1
    have hm3 : ((m : ℚ) + 1) * (m + 1) ≤ 2 ^ 23 * 2 ^ 23 :=
      mul_le_mul hm2 hm2 (by positivity) (by positivity)
    have : (2 : ℚ) ^ (46 : ℤ) < 2 ^ 23 * 2 ^ 23 := lt_of_le_of_lt hw (lt_of_lt_of_le hlt hm3)
    norm_num at this
  have hm' : ((2 ^ 23 : ℕ) : ℚ) ≤ (m : ℚ) := by exact_mod_cast hm
  have hum : (4096 : ℚ) ≤ (2 : ℚ) ^ (k - 23) * m := by
    calc (4096 : ℚ) = (2 : ℚ) ^ (12 : ℤ) := by norm_num
      _ ≤ (2 : ℚ) ^ k := zpow_le_zpow_right₀ (by norm_num) hk12
      _ = (2 : ℚ) ^ (k - 23) * ((2 ^ 23 : ℕ) : ℚ) := by
          rw [zpow_sub₀ (by norm_num : (2 : ℚ) ≠ 0)]
          norm_num
      _ ≤ (2 : ℚ) ^ (k - 23) * m := mul_le_mul_of_nonneg_left hm' (by positivity)
  rcases hcase with ⟨hf, _⟩ | ⟨hf, _⟩
  · rw [hf]; exact hum
  · rw [hf]
    have : (2 : ℚ) ^ (k - 23) * m ≤ (2 : ℚ) ^ (k - 23) * (m + 1) :=
      mul_le_mul_of_nonneg_left (by linarith) (by positivity)
    linarith

/-- For a natural number below `2^24` and a natural threshold of at most 2047,
the rounded square root exceeds the threshold exactly when the number exceeds
the square of the threshold. -/
theorem fsqrt_gt_iff (v T : ℕ) (hv : v < 2 ^ 24) (hT : T ≤ 2047) :
    (T : ℚ) < fsqrt (v : ℚ) ↔ T * T < v := by
  by_cases hv0 : v = 0
  · subst hv0
    simp [fsqrt_zero]
  have hvpos : (0 : ℚ) < (v : ℚ) := by exact_mod_cast Nat.pos_of_ne_zero hv0
  have he0 : 0 ≤ Int.log 2 (v : ℚ) :=
    (Int.zpow_le_iff_le_log (b := 2) (by norm_num) hvpos).mp (by
      have : (1 : ℚ) ≤ (v : ℚ) := by exact_mod_cast Nat.pos_of_ne_zero hv0
      simpa using this)
  have he24 : Int.log 2 (v : ℚ) < 24 :=
    (Int.lt_zpow_iff_log_lt (b := 2) (by norm_num) hvpos).mp (by
      have : (v : ℚ) < 2 ^ 24 := by exact_mod_cast hv
      exact_mod_cast this)
  obtain ⟨m, hle, hlt, hcase⟩ := fsqrt_cases (v : ℚ) hvpos
  obtain ⟨j, hj⟩ : ∃ j : ℕ, Int.log 2 (v : ℚ) / 2 - 23 = -(j : ℤ) :=
    ⟨(23 - Int.log 2 (v : ℚ) / 2).toNat, by omega⟩
  have hj12 : 12 ≤ j := by omega
  rw [hj] at hle hlt hcase
  obtain ⟨N, hN⟩ : ∃ N : ℕ, N = 2 ^ j := ⟨_, rfl⟩
  have hN4096 : 4096 ≤ N := by
    rw [hN]
    calc 4096 = 2 ^ 12 := by norm_num
      _ ≤ 2 ^ j := Nat.pow_le_pow_right (by norm_num) hj12
  have hNpos : (0 : ℚ) < (N : ℚ) := by exact_mod_cast (by omega : 0 < N)
  have hU : (2 : ℚ) ^ (-(j : ℤ)) = ((N : ℚ))⁻¹ := by
    rw [zpow_neg, zpow_natCast, hN]
    push_cast
    rfl
  rw [hU] at hle hlt hcase
  have hw : (v : ℚ) / ((N : ℚ)⁻¹ * (N : ℚ)⁻¹) = ((v * N * N : ℕ) : ℚ) := by
    push_cast
    field_simp
    ring
  rw [hw] at hle hlt hcase
  have hle' : m * m ≤ v * N * N := by exact_mod_cast hle
  have hlt' : v * N * N < (m + 1) * (m + 1) := by exact_mod_cast hlt
  constructor
  · intro hgt
    by_contra hcon
    have hvT : v ≤ T * T := not_lt.mp hcon
    have hmT : m ≤ T * N := by
      by_contra hc
      have h1 : T * N + 1 ≤ m := by omega
      have h2 : (T * N + 1) * (T * N + 1) ≤ m * m := Nat.mul_le_mul h1 h1
      have h3 : v * N * N ≤ T * T * N * N := by
        apply Nat.mul_le_mul_right
        exact Nat.mul_le_mul_right _ hvT
      nlinarith
    rcases hcase with ⟨hf, _⟩ | ⟨hf, hmid⟩
    · rw [hf] at hgt
      have h1 : (T : ℚ) * N < m := by
        have := mul_lt_mul_of_pos_right hgt hNpos
        rwa [mul_comm ((N : ℚ)⁻¹) _, mul_assoc, inv_mul_cancel₀ hNpos.ne', mul_one] at this
      have h2 : T * N < m := by exact_mod_cast h1
      omega
    · rw [hf] at hgt
      have h1 : (T : ℚ) * N < (m : ℚ) + 1 := by
        have := mul_lt_mul_of_pos_right hgt hNpos
        rwa [mul_comm ((N : ℚ)⁻¹) _, mul_assoc, inv_mul_cancel₀ hNpos.ne', mul_one] at this
      have h2 : T * N < m + 1 := by exact_mod_cast h1
      have hm : m = T * N := by omega
      have h3 : ((m * m + m : ℕ) : ℚ) < ((v * N * N : ℕ) : ℚ) := by
        push_cast
        push_cast at hmid
        linarith
      have h4 : m * m + m < v * N * N := by exact_mod_cast h3
      have h5 : v * N * N ≤ T * T * N * N := by
        apply Nat.mul_le_mul_right
        exact Nat.mul_le_mul_right _ hvT
      subst hm
      nlinarith
  · intro hTv
    have h1 : T * T + 1 ≤ v := hTv
    have h2 : (T * N + 1) * (T * N + 1) ≤ v * N * N := by
      have h3 : (T * T + 1) * N * N ≤ v * N * N := by
        apply Nat.mul_le_mul_right
        exact Nat.mul_le_mul_right _ h1
      have h4 : 2 * T + 1 ≤ N := by omega
      nlinarith
    have h5 : T * N < m := by
      by_contra hc
      have h6 : m + 1 ≤ T * N + 1 := by omega
      have h7 : (m + 1) * (m + 1) ≤ (T * N + 1) * (T * N + 1) := Nat.mul_le_mul h6 h6
      omega
    have h8 : (T : ℚ) * N < (m : ℚ) := by exact_mod_cast h5
    have h9 : (T : ℚ) < (N : ℚ)⁻¹ * m := by
      rw [inv_mul_eq_div, lt_div_iff₀ hNpos]
      exact h8
    rcases hcase with ⟨hf, _⟩ | ⟨hf, _⟩
    · rw [hf]; exact h9
    · rw [hf]
      have : (N : ℚ)⁻¹ * m ≤ (N : ℚ)⁻¹ * (m + 1) :=
        mul_le_mul_of_nonneg_left (by linarith) (by positivity)
      linarith

theorem castFloat_exact (x : ℤ) (h : |x| ≤ 2 ^ 24) : castFloat x = x :=
  round32_intCast x h

theorem fsub_intCast (a b : ℤ) (h : |a - b| ≤ 2 ^ 24) :
    fsub (a : ℚ) (b : ℚ) = ((a - b : ℤ) : ℚ) := by
  unfold fsub
  rw [← Int.cast_sub]
  exact round32_intCast _ h

theorem fadd_intCast (a b : ℤ) (h : |a + b| ≤ 2 ^ 24) :
    fadd (a : ℚ) (b : ℚ) = ((a + b : ℤ) : ℚ) := by
  unfold fadd
  rw [← Int.cast_add]
  exact round32_intCast _ h

theorem fmul_intCast (a b : ℤ) (h : |a * b| ≤ 2 ^ 24) :
    fmul (a : ℚ) (b : ℚ) = ((a * b : ℤ) : ℚ) := by
  unfold fmul
  rw [← Int.cast_mul]
  exact round32_intCast _ h

/-- The drag test of `handleMouseMove` on integer coordinates of magnitude at most
`2^23` and a natural threshold of at most 2047 is the exact comparison of the
squared distance with the squared threshold. -/
theorem sqrtExceeds_int (x y ox oy : ℤ) (T : ℕ) (hx : |x| ≤ 2 ^ 23) (hy : |y| ≤ 2 ^ 23)
    (hox : |ox| ≤ 2 ^ 23) (hoy : |oy| ≤ 2 ^ 23) (hT : T ≤ 2047) :
    sqrtExceeds (squaredLength ((⟨castFloat x, castFloat y⟩ : point).sub ⟨ox, oy⟩)) (T : ℚ)
        = true ↔
      (T : ℤ) * T < (x - ox) * (x - ox) + (y - oy) * (y - oy) := by
  have hdx : |x - ox| ≤ 2 ^ 24 := by
    have := abs_sub x ox
    omega
  have hdy : |y - oy| ≤ 2 ^ 24 := by
    have := abs_sub y oy
    omega
  have ht : (⟨castFloat x, castFloat y⟩ : point).sub ⟨ox, oy⟩
      = ⟨((x - ox : ℤ) : ℚ), ((y - oy : ℤ) : ℚ)⟩ := by
    unfold point.sub
    simp only
    rw [castFloat_exact x (by omega), castFloat_exact y (by omega), fsub_intCast x ox hdx,
      fsub_intCast y oy hdy]
  rw [ht]
  obtain ⟨dx, hdx'⟩ : ∃ dx : ℤ, dx = x - ox := ⟨_, rfl⟩
  obtain ⟨dy, hdy'⟩ : ∃ dy : ℤ, dy = y - oy := ⟨_, rfl⟩
  rw [← hdx', ← hdy']
  unfold sqrtExceeds squaredLength
  simp only [decide_eq_true_eq]
  have hT2 : (T : ℤ) * T < 2 ^ 24 := by
    have : (T : ℤ) ≤ 2047 := by exact_mod_cast hT
    nlinarith
  have hsqx : 0 ≤ dx * dx := mul_self_nonneg dx
  have hsqy : 0 ≤ dy * dy := mul_self_nonneg dy
  have hmulx : fmul (dx : ℚ) (dx : ℚ) = round32 ((dx * dx : ℤ) : ℚ) := by
    unfold fmul
    rw [Int.cast_mul]
  have hmuly : fmul (dy : ℚ) (dy : ℚ) = round32 ((dy * dy : ℤ) : ℚ) := by
    unfold fmul
    rw [Int.cast_mul]
  by_cases hS : dx * dx + dy * dy < 2 ^ 24
  · -- every operation is exact
    have ha : fmul (dx : ℚ) (dx : ℚ) = ((dx * dx : ℤ) : ℚ) := by
      rw [hmulx]
      exact round32_intCast _ (by rw [abs_of_nonneg hsqx]; omega)
    have hb : fmul (dy : ℚ) (dy : ℚ) = ((dy * dy : ℤ) : ℚ) := by
      rw [hmuly]
      exact round32_intCast _ (by rw [abs_of_nonneg hsqy]; omega)
    rw [ha, hb, fadd_intCast _ _ (by rw [abs_of_nonneg (by omega)]; omega)]
    obtain ⟨n, hn⟩ : ∃ n : ℕ, (n : ℤ) = dx * dx + dy * dy :=
      ⟨(dx * dx + dy * dy).toNat, Int.toNat_of_nonneg (by omega)⟩
    rw [← hn]
    have hn24 : n < 2 ^ 24 := by
      have : (n : ℤ) < 2 ^ 24 := by rw [hn]; exact hS
      exact_mod_cast this
    have := fsqrt_gt_iff n T hn24 hT
    rw [show (((n : ℤ) : ℚ)) = (n : ℚ) from by push_cast; rfl, this]
    constructor
    · intro h; exact_mod_cast h
    · intro h; exact_mod_cast h
  · -- the sum of squares is at least 2^24: the rounded root is at least 4096
    have hS' : 2 ^ 24 ≤ dx * dx + dy * dy := not_lt.mp hS
    have hrhs : (T : ℤ) * T < dx * dx + dy * dy := by omega
    have ha0 : 0 ≤ fmul (dx : ℚ) (dx : ℚ) := by
      rw [hmulx]; exact round32_nonneg _ (by exact_mod_cast hsqx)
    have hb0 : 0 ≤ fmul (dy : ℚ) (dy : ℚ) := by
      rw [hmuly]; exact round32_nonneg _ (by exact_mod_cast hsqy)
    have hsum : (2 : ℚ) ^ (24 : ℤ) ≤ fmul (dx : ℚ) (dx : ℚ) + fmul (dy : ℚ) (dy : ℚ) := by
      by_cases hxa : 2 ^ 24 ≤ dx * dx
      · have : (2 : ℚ) ^ (24 : ℤ) ≤ fmul (dx : ℚ) (dx : ℚ) := by
          rw [hmulx]
          exact le_round32 _ 24 (by norm_num) (by
            have : ((2 ^ 24 : ℤ) : ℚ) ≤ ((dx * dx : ℤ) : ℚ) := by exact_mod_cast hxa
            norm_num at this ⊢
            exact this)
        linarith
      · by_cases hya : 2 ^ 24 ≤ dy * dy
        · have : (2 : ℚ) ^ (24 : ℤ) ≤ fmul (dy : ℚ) (dy : ℚ) := by
            rw [hmuly]
            exact le_round32 _ 24 (by norm_num) (by
              have : ((2 ^ 24 : ℤ) : ℚ) ≤ ((dy * dy : ℤ) : ℚ) := by exact_mod_cast hya
              norm_num at this ⊢
              exact this)
          linarith
        · have ha : fmul (dx : ℚ) (dx : ℚ) = ((dx * dx : ℤ) : ℚ) := by
            rw [hmulx]
            exact round32_intCast _ (by rw [abs_of_nonneg hsqx]; omega)
          have hb : fmul (dy : ℚ) (dy : ℚ) = ((dy * dy : ℤ) : ℚ) := by
            rw [hmuly]
            exact round32_intCast _ (by rw [abs_of_nonneg hsqy]; omega)
          rw [ha, hb]
          have : ((2 ^ 24 : ℤ) : ℚ) ≤ ((dx * dx + dy * dy : ℤ) : ℚ) := by exact_mod_cast hS'
          push_cast at this
          norm_num at this ⊢
          exact this
    have hv : (2 : ℚ) ^ (24 : ℤ) ≤ fadd (fmul (dx : ℚ) (dx : ℚ)) (fmul (dy : ℚ) (dy : ℚ)) := by
      unfold fadd
      exact le_round32 _ 24 (by norm_num) hsum
    have hroot := le_fsqrt _ hv
    have hTq : (T : ℚ) ≤ 2047 := by exact_mod_cast hT
    exact ⟨fun _ => hrhs, fun _ => by linarith⟩

theorem castFloat_16777217 : castFloat 16777217 = 16777216 := by
  unfold castFloat
  have hu : ulp32 ((16777217 : ℤ) : ℚ) = 2 := by
    rw [ulp32_eq _ 24 (by norm_num) (by norm_num) (by norm_num)]
    norm_num
  have hr : roundHalfEven (((16777217 : ℤ) : ℚ) / 2) = 8388608 := by
    have := roundHalfEven_tie_even 8388608 (by norm_num)
    norm_num at this ⊢
    exact this
  rw [round32_of_ulp _ 2 8388608 hu hr]
  norm_num

theorem fadd_stall :
    fadd 0 (16777215 / 8388608) = 16777215 / 8388608 ∧
    fadd (16777215 / 8388608) (1 / 33554432) = 16777215 / 8388608 := by
  constructor
  · unfold fadd
    rw [zero_add]
    apply round32_eq_self _ 16777215
    rw [ulp32_eq _ 0 (by norm_num) (by norm_num [abs_of_pos]) (by norm_num [abs_of_pos])]
    norm_num
  · unfold fadd
    have hu : ulp32 ((16777215 : ℚ) / 8388608 + 1 / 33554432) = (2 : ℚ) ^ (-23 : ℤ) := by
      rw [ulp32_eq _ 0 (by norm_num) (by norm_num [abs_of_pos]) (by norm_num [abs_of_pos])]
      norm_num
    have hr : roundHalfEven (((16777215 : ℚ) / 8388608 + 1 / 33554432) / (2 : ℚ) ^ (-23 : ℤ))
        = 16777215 := by
      apply roundHalfEven_of_lt_half <;> norm_num
    rw [round32_of_ulp _ _ 16777215 hu hr]
    norm_num

theorem nodesList_of_mem {c : base_window} {l : List base_window} (h : c ∈ l) :
    base_window.nodesList c.getChildren < base_window.nodesList l := by
  induction l with
  | nil => cases h
  | cons w rest ih =>
    rcases List.mem_cons.mp h with rfl | h
    · cases c with
      | mk i ch =>
        simp only [base_window.getChildren, base_window.nodesList, base_window.nodes]
        omega
    · have := ih h
      simp only [base_window.nodesList]
      omega

/-- The scan of one level, given what the search returns inside each child. -/
theorem GetTargetWindow_loop_eq (hitTest : Wid → point → Bool) (pt : point)
    (l : List base_window) :
    GetTargetWindow.loop hitTest pt l =
      match l.find? (fun c => hitTest c.id pt) with
      | none => (none, l.map base_window.id)
      | some c =>
        ((match (GetTargetWindow hitTest pt c.getChildren).1 with
          | some d => some d
          | none => some c),
         (l.takeWhile (fun c => !hitTest c.id pt)).map base_window.id
           ++ c.id :: (GetTargetWindow hitTest pt c.getChildren).2) := by
  induction l with
  | nil => simp [GetTargetWindow.loop]
  | cons p rest ih =>
    rw [GetTargetWindow.loop]
    by_cases hp : hitTest p.id pt = true
    · simp only [hp, if_true, List.find?_cons_of_pos, List.takeWhile_cons, Bool.not_true]
      cases (GetTargetWindow hitTest pt p.getChildren).1 <;> simp
    · simp only [hp, if_false, List.takeWhile_cons]
      rw [List.find?_cons_of_neg _ (by simpa using hp), ih]
      cases hf : rest.find? (fun c => hitTest c.id pt) <;> simp [hp]

theorem resolveTarget_none (hitTest : Wid → point → Bool) (pt : point)
    (children : List base_window)
    (h : children.reverse.find? (fun c => hitTest c.id pt) = none) :
    resolveTarget hitTest pt children = none := by
  rw [resolveTarget]
  split
  · rfl
  · rename_i c hc
    rw [h] at hc
    cases hc

theorem resolveTarget_some (hitTest : Wid → point → Bool) (pt : point)
    (children : List base_window) (c : base_window)
    (h : children.reverse.find? (fun c => hitTest c.id pt) = some c) :
    resolveTarget hitTest pt children =
      match resolveTarget hitTest pt c.getChildren with
      | some d => some d
      | none => some c := by
  rw [resolveTarget]
  split
  · rename_i hc
    rw [h] at hc
    cases hc
  · rename_i c2 hc
    rw [h] at hc
    cases hc
    rfl

theorem resolveExamined_none (hitTest : Wid → point → Bool) (pt : point)
    (children : List base_window)
    (h : children.reverse.find? (fun c => hitTest c.id pt) = none) :
    resolveExamined hitTest pt children = children.reverse.map base_window.id := by
  rw [resolveExamined]
  split
  · rfl
  · rename_i c hc
    rw [h] at hc
    cases hc

theorem resolveExamined_some (hitTest : Wid → point → Bool) (pt : point)
    (children : List base_window) (c : base_window)
    (h : children.reverse.find? (fun c => hitTest c.id pt) = some c) :
    resolveExamined hitTest pt children =
      (children.reverse.takeWhile (fun c => !hitTest c.id pt)).map base_window.id
        ++ c.id :: resolveExamined hitTest pt c.getChildren := by
  rw [resolveExamined]
  split
  · rename_i hc
    rw [h] at hc
    cases hc
  · rename_i c2 hc
    rw [h] at hc
    cases hc
    rfl

/-- The search over a child list agrees with the reference search, in its result
and in the widgets it examines. -/
theorem GetTargetWindow_eq_resolve (hitTest : Wid → point → Bool) (pt : point) :
    ∀ (n : Nat) (list : List base_window), base_window.nodesList list < n →
      GetTargetWindow hitTest pt list =
        (resolveTarget hitTest pt list, resolveExamined hitTest pt list) := by
  intro n
  induction n with
  | zero => intro list h; omega
  | succ n ih =>
    intro list hlt
    rw [GetTargetWindow, GetTargetWindow_loop_eq]
    cases hf : list.reverse.find? (fun c => hitTest c.id pt) with
    | none =>
      simp only [resolveTarget_none _ _ _ hf, resolveExamined_none _ _ _ hf]
    | some c =>
      have hmem : c ∈ list := by
        have := List.mem_of_find?_eq_some hf
        simpa using this
      have hsz := nodesList_of_mem hmem
      have hrec := ih c.getChildren (by omega)
      simp only [resolveTarget_some _ _ _ _ hf, resolveExamined_some _ _ _ _ hf, hrec]

/-- C1. For every widget tree under the root and every point, `getTargetWindow`
returns what the reference search returns: null when no child of the level
contains the point, otherwise the result of the same search inside the topmost
child that contains it, or that child when nothing deeper matches; and it
examines exactly the widgets the reference search examines, so no sibling
below the first match is hit-tested. -/
theorem getTargetWindow_eq_reference (env : Env) (pt : point) (s : System)
    (root : base_window) (hroot : s.m_rootWindow = some root) :
    getTargetWindow env pt s =
      some ((resolveTarget env.hitTest pt root.getChildren).map base_window.id,
            s.calls ((resolveExamined env.hitTest pt root.getChildren).map
              (fun w => Call.hitTest w pt))) := by
  unfold getTargetWindow
  rw [hroot]
  simp only [GetTargetWindow_eq_resolve env.hitTest pt _ root.getChildren (Nat.lt_succ_self _)]

theorem getTargetWindow_eq_reference_witness :
    System.afterReset.m_rootWindow = some (.mk 0 [.mk 1 [], .mk 2 [], .mk 3 []]) ∧
    getTargetWindow { Env.quiet with hitTest := fun w _ => decide (w = 2) } ⟨5, 5⟩
        System.afterReset =
      some ((resolveTarget (fun w _ => decide (w = 2)) ⟨5, 5⟩
              (base_window.mk 0 [.mk 1 [], .mk 2 [], .mk 3 []]).getChildren).map
              base_window.id,
            System.afterReset.calls
              ((resolveExamined (fun w _ => decide (w = 2)) ⟨5, 5⟩
                (base_window.mk 0 [.mk 1 [], .mk 2 [], .mk 3 []]).getChildren).map
                (fun w => Call.hitTest w ⟨5, 5⟩))) :=
  ⟨rfl, getTargetWindow_eq_reference _ _ _ _ rfl⟩

/-- The reference search on the tree `System::reset()` builds, with only the
tooltip (widget 2) containing the point: the menu, which is topmost, is
examined first, then the tooltip, and the drag container is never examined. -/
theorem resolve_afterReset_example :
    (resolveTarget (fun w _ => decide (w = 2)) ⟨5, 5⟩
        [.mk 1 [], .mk 2 [], .mk 3 []]).map base_window.id = some 2 ∧
    resolveExamined (fun w _ => decide (w = 2)) ⟨5, 5⟩
        [.mk 1 [], .mk 2 [], .mk 3 []] = [3, 2] := by
  constructor
  · rw [resolveTarget_some _ _ _ (.mk 2 []) (by simp [base_window.id]),
      resolveTarget_none _ _ _ (by simp [base_window.getChildren])]
    rfl
  · rw [resolveExamined_some _ _ _ (.mk 2 []) (by simp [base_window.id]),
      resolveExamined_none _ _ _ (by simp [base_window.getChildren])]
    simp [base_window.id, base_window.getChildren]

/-- C2. With an exclusive-input widget `E` set, each of `handleMouseMove`,
`handleMouseWheel`, `handleMouseButton`, `handleMouseDouble` and `handleChar`
makes exactly one call, `E`'s handler for that event, returns its result, and
returns the state it was given with only that call added to the log: no hit
test is made, and focus, capture, contained-mouse widget, drag state, tooltip
state and cursor position are the ones of the state before. -/
theorem exclusive_routes_to_exclusive_widget (env : Env) (s : System) (E : Wid)
    (hE : s.m_exclusiveInputWindow = some E) (fuel : Nat) (x y diff : Int)
    (btn : MouseButtons) (state : ButtonState) (code : Nat) :
    handleMouseMove env fuel x y s
        = some (env.onMouseMove E, { s with log := s.log ++ [Call.onMouseMove E] }) ∧
    handleMouseWheel env fuel diff s
        = some (env.onMouseWheel E diff,
                { s with log := s.log ++ [Call.onMouseWheel E diff] }) ∧
    handleMouseButton env fuel btn state s
        = some (env.onMouseButton E btn state,
                { s with log := s.log ++ [Call.onMouseButton E btn state] }) ∧
    handleMouseDouble env fuel btn s
        = some (env.onMouseDouble E btn,
                { s with log := s.log ++ [Call.onMouseDouble E btn] }) ∧
    handleChar env code s
        = (env.onChar E code, { s with log := s.log ++ [Call.onChar E code] }) := by
  simp [handleMouseMove, handleMouseWheel, handleMouseButton, handleMouseDouble,
    handleChar, hE, System.call]

theorem exclusive_routes_to_exclusive_widget_witness :
    ({ System.afterReset with m_exclusiveInputWindow := some 7 } : System).m_exclusiveInputWindow
        = some 7 ∧
    handleMouseMove Env.quiet 0 3 4 { System.afterReset with m_exclusiveInputWindow := some 7 }
        = some (Env.quiet.onMouseMove 7,
                { ({ System.afterReset with m_exclusiveInputWindow := some 7 } : System) with
                  log := [] ++ [Call.onMouseMove 7] }) :=
  ⟨rfl, (exclusive_routes_to_exclusive_widget Env.quiet
    { System.afterReset with m_exclusiveInputWindow := some 7 } 7 rfl 0 3 4 0
    MouseButtons.Left ButtonState.Down 65).1⟩

/-- `proceedSystemKey` on anything but a Tab key-down makes no call and
leaves every slot alone; only the modifier mask may change. -/
theorem proceedSystemKey_not_tab_down (env : Env) (fuel : Nat) (key : Keys)
    (state : ButtonState) (s : System) (h : key ≠ Keys.K_TAB ∨ state ≠ ButtonState.Down) :
    ∃ r keys, proceedSystemKey env fuel key state s = some (r, { s with m_sytemkeys := keys }) := by
  cases key <;>
    first
    | exact ⟨_, _, rfl⟩
    | skip
  cases state with
  | Down => simp at h
  | Up =>
    refine ⟨true, s.m_sytemkeys, ?_⟩
    show proceedSystemKey env fuel Keys.K_TAB ButtonState.Up s = some (true, s)
    simp only [proceedSystemKey]
    cases s.m_focusWindow <;> simp

/-- C3 fails on a Tab key-down: with exclusive widget 7 and focus holder 5, the
Tab cycling of `proceedSystemKey` runs before the exclusive check; widget 5 is
sent `resetInputFocus`, `onFocusLost(6)` and `invalidate`, and the focus holder
becomes 6, before 7 receives the key. -/
theorem exclusive_keyboard_tab_counterexample :
    (handleKeyboard Env.tabRing 2 Keys.K_TAB ButtonState.Down
        System.exclusiveWithFocus).map (fun r => (r.2.m_focusWindow, r.2.log)) =
      some (some 6,
        [Call.resetInputFocus 5, Call.onFocusLost 5 (some 6), Call.invalidate 5,
         Call.setInputFocus 6 false, Call.onFocusGained 6, Call.invalidate 6,
         Call.onKeyboardButton 7 Keys.K_TAB ButtonState.Down]) := by
  simp [handleKeyboard, proceedSystemKey, tabSearch, queryInputFocus, System.calls,
    System.call, System.exclusiveWithFocus, System.afterReset, Env.tabRing, Env.quiet]

/-- C4. With `f` holding focus and `w` a different widget, `queryInputFocus(w)`
makes exactly the calls `f.resetInputFocus`, `f.onFocusLost(w)`, `f.invalidate`,
`w.setInputFocus`, `w.onFocusGained`, `w.invalidate`, in this order, so the
loss callback of `f` precedes the gain callback of `w`, `f` gets no gain
callback and `w` no loss callback, and `w` is the focus holder afterwards;
`queryInputFocus(null)` makes exactly the three calls on `f`, no gain callback
on any widget, and leaves no focus holder. -/
theorem queryInputFocus_transfer (s : System) (f w : Wid)
    (hf : s.m_focusWindow = some f) (hfw : f ≠ w) :
    ((queryInputFocus (some w) s).2.log =
        s.log ++ [Call.resetInputFocus f, Call.onFocusLost f (some w), Call.invalidate f,
                  Call.setInputFocus w false, Call.onFocusGained w, Call.invalidate w] ∧
      Call.onFocusGained f ∉ (queryInputFocus (some w) s).2.log.drop s.log.length ∧
      (∀ x, Call.onFocusLost w x ∉ (queryInputFocus (some w) s).2.log.drop s.log.length) ∧
      (queryInputFocus (some w) s).2.m_focusWindow = some w ∧
      (queryInputFocus (some w) s).1 = true) ∧
    ((queryInputFocus none s).2.log =
        s.log ++ [Call.resetInputFocus f, Call.onFocusLost f none, Call.invalidate f] ∧
      (∀ x, Call.onFocusGained x ∉ (queryInputFocus none s).2.log.drop s.log.length) ∧
      (queryInputFocus none s).2.m_focusWindow = none ∧
      (queryInputFocus none s).1 = true) := by
  have hwf : w ≠ f := fun h => hfw h.symm
  simp [queryInputFocus, hf, System.calls, hfw, hwf]

theorem queryInputFocus_transfer_witness :
    System.exclusiveWithFocus.m_focusWindow = some 5 ∧ (5 : Wid) ≠ 6 ∧
    (queryInputFocus (some 6) System.exclusiveWithFocus).2.log =
      System.exclusiveWithFocus.log
        ++ [Call.resetInputFocus 5, Call.onFocusLost 5 (some 6), Call.invalidate 5,
            Call.setInputFocus 6 false, Call.onFocusGained 6, Call.invalidate 6] :=
  ⟨rfl, by decide,
    (queryInputFocus_transfer System.exclusiveWithFocus 5 6 rfl (by decide)).1.1⟩

theorem RegistryOnly.reflR (s : System) : RegistryOnly s s :=
  ⟨rfl, rfl, ⟨[], by simp⟩, fun _ h => h, fun h => h, rfl⟩

theorem RegistryOnly.thenR {a b c : System} (h1 : RegistryOnly a b) (h2 : RegistryOnly b c) :
    RegistryOnly a c := by
  obtain ⟨i1, t1, ⟨e1, b1⟩, p1, c1, f1⟩ := h1
  obtain ⟨i2, t2, ⟨e2, b2⟩, p2, c2, f2⟩ := h2
  refine ⟨i2.trans i1, t2.trans t1, ⟨e1 ++ e2, by rw [b2, b1, List.append_assoc]⟩,
    fun v h => p2 v (p1 v h), fun h => c2 (c1 h), ?_⟩
  rw [f2, f1]

theorem RegistryOnly_call (s : System) (c : Call) : RegistryOnly s (s.call c) :=
  ⟨rfl, rfl, ⟨[], by simp [System.call]⟩, fun _ h => h, fun h => h, rfl⟩

theorem runTickAct_registryOnly (s : System) (a : TickAct) (h : s.m_inTick = true) :
    RegistryOnly s (runTickAct s a) ∧ (runTickAct s a).log = s.log := by
  cases a with
  | subscribeTick wnd =>
    cases wnd with
    | none => exact ⟨RegistryOnly.reflR s, rfl⟩
    | some w =>
      simp only [runTickAct, subscribeTick]
      split_ifs with h1 h2
      · exact ⟨RegistryOnly.reflR s, rfl⟩
      · exact ⟨RegistryOnly.reflR s, rfl⟩
      · exact ⟨⟨rfl, rfl, ⟨[w], rfl⟩, fun _ hv => hv, fun hc => hc, rfl⟩, rfl⟩
  | unsubscribeTick wnd =>
    simp only [runTickAct, unsubscribeTick]
    rw [if_pos h]
    exact ⟨RegistryOnly.reflR s, rfl⟩
  | markUnsubscribePending w =>
    refine ⟨⟨rfl, rfl, ⟨[], by simp [runTickAct, markUnsubscribePending]⟩, ?_, fun _ => rfl, rfl⟩,
      rfl⟩
    intro v hv
    simp [runTickAct, markUnsubscribePending, hv]

theorem foldl_runTickAct_registryOnly (acts : List TickAct) :
    ∀ (s : System), s.m_inTick = true →
      RegistryOnly s (acts.foldl runTickAct s) ∧ (acts.foldl runTickAct s).log = s.log := by
  induction acts with
  | nil => intro s _; exact ⟨RegistryOnly.reflR s, rfl⟩
  | cons a rest ih =>
    intro s h
    obtain ⟨r1, l1⟩ := runTickAct_registryOnly s a h
    obtain ⟨r2, l2⟩ := ih (runTickAct s a) (r1.1.trans h)
    exact ⟨r1.thenR r2, l2.trans l1⟩

theorem callOnTick_registryOnly (env : Env) (delta : ℚ) (w : Wid) (s : System)
    (h : s.m_inTick = true) :
    RegistryOnly s (callOnTick env delta w s) ∧
      (callOnTick env delta w s).log = s.log ++ [Call.onTick w delta true] := by
  obtain ⟨r, l⟩ := foldl_runTickAct_registryOnly (env.onTick w delta s)
    (s.call (Call.onTick w delta s.m_inTick)) h
  refine ⟨(RegistryOnly_call s _).thenR r, ?_⟩
  rw [callOnTick, l, h]
  rfl

/-- The main loop of `tick`, entered with `m_inTick` set: it calls `onTick` once
per non-null entry of the range, in order, and touches the registry only
through the callbacks. -/
theorem tickLoop_spec (env : Env) (delta : ℚ) (l : List (Option Wid)) :
    ∀ (s : System), s.m_inTick = true →
      RegistryOnly s (tickLoop env delta l s) ∧
        (tickLoop env delta l s).log = s.log ++ tickCalls delta l := by
  induction l with
  | nil => intro s _; exact ⟨RegistryOnly.reflR s, by simp [tickLoop, tickCalls]⟩
  | cons e rest ih =>
    intro s h
    cases e with
    | none =>
      obtain ⟨r, l⟩ := ih s h
      exact ⟨r, by simpa [tickLoop, tickCalls] using l⟩
    | some w =>
      obtain ⟨r1, l1⟩ := callOnTick_registryOnly env delta w s h
      obtain ⟨r2, l2⟩ := ih (callOnTick env delta w s) (r1.1.trans h)
      refine ⟨r1.thenR r2, ?_⟩
      rw [tickLoop, l2, l1]
      simp [tickCalls]

theorem SameRegistry.reflS (s : System) : SameRegistry s s :=
  ⟨rfl, rfl, rfl, rfl, rfl, [], by simp, by simp⟩

theorem SameRegistry.thenS {a b c : System} (h1 : SameRegistry a b) (h2 : SameRegistry b c) :
    SameRegistry a c := by
  obtain ⟨t1, b1, i1, p1, c1, e1, l1, n1⟩ := h1
  obtain ⟨t2, b2, i2, p2, c2, e2, l2, n2⟩ := h2
  refine ⟨t2.trans t1, b2.trans b1, i2.trans i1, p2.trans p1, c2.trans c1, e1 ++ e2, ?_, ?_⟩
  · rw [l2, l1, List.append_assoc]
  · intro c hc
    rcases List.mem_append.mp hc with hc | hc
    · exact n1 c hc
    · exact n2 c hc

theorem showTooltip_sameRegistry (env : Env) (wnd : Option Wid) (s : System) :
    SameRegistry s (showTooltip env wnd s) := by
  unfold showTooltip
  cases wnd with
  | none =>
    exact ⟨rfl, rfl, rfl, rfl, rfl, [Call.tooltipShow s.m_tooltipWindow], rfl,
      by simp [Call.isOnTick]⟩
  | some w =>
    by_cases hw : env.hasTooltip w = true
    · simp only [hw, if_true]
      exact ⟨rfl, rfl, rfl, rfl, rfl,
        [Call.onTooltipShow w, Call.tooltipShow s.m_tooltipWindow],
        by simp [System.call], by simp [Call.isOnTick]⟩
    · simp only [hw]
      exact ⟨rfl, rfl, rfl, rfl, rfl, [Call.tooltipShow s.m_tooltipWindow], rfl,
        by simp [Call.isOnTick]⟩

theorem hideTooltip_sameRegistry (env : Env) (wnd : Option Wid) (s : System) :
    SameRegistry s (hideTooltip env wnd s) := by
  unfold hideTooltip
  cases wnd with
  | none =>
    exact ⟨rfl, rfl, rfl, rfl, rfl, [Call.tooltipReset s.m_tooltipWindow], rfl,
      by simp [Call.isOnTick]⟩
  | some w =>
    by_cases hw : env.hasTooltip w = true
    · simp only [hw, if_true]
      exact ⟨rfl, rfl, rfl, rfl, rfl,
        [Call.onTooltipHide w, Call.tooltipReset s.m_tooltipWindow],
        by simp [System.call], by simp [Call.isOnTick]⟩
    · simp only [hw]
      exact ⟨rfl, rfl, rfl, rfl, rfl, [Call.tooltipReset s.m_tooltipWindow], rfl,
        by simp [Call.isOnTick]⟩

theorem tickTooltip_sameRegistry (env : Env) (delta : ℚ) (s : System) :
    SameRegistry s (tickTooltip env delta s) := by
  have hshow : SameRegistry s (tickTooltipShow env delta s) := by
    unfold tickTooltipShow
    dsimp only
    split_ifs
    · refine SameRegistry.thenS ?_ (showTooltip_sameRegistry _ _ _)
      exact ⟨rfl, rfl, rfl, rfl, rfl, [], by simp, by simp⟩
    · exact ⟨rfl, rfl, rfl, rfl, rfl, [], by simp, by simp⟩
    · exact SameRegistry.reflS s
  have hexp : ∀ t : System, SameRegistry t (tickTooltipExpire env delta t) := by
    intro t
    unfold tickTooltipExpire
    dsimp only
    split_ifs
    · refine SameRegistry.thenS ?_ (hideTooltip_sameRegistry _ _ _)
      exact ⟨rfl, rfl, rfl, rfl, rfl, [], by simp, by simp⟩
    · exact ⟨rfl, rfl, rfl, rfl, rfl, [], by simp, by simp⟩
    · exact SameRegistry.reflS t
  exact hshow.thenS (hexp _)

/-- The stages of a `tick` that returns. -/
theorem tick_stages (env : Env) (delta : ℚ) (s s' : System) (h : tick env delta s = some s') :
    ∃ s2 s3,
      tickSweep (tickLoop env delta s.m_tickedWnd { s with m_inTick := true }) = some s2 ∧
      tickAppend s.m_subscribeTickWnd.length s2 = some s3 ∧
      s' = { tickTooltip env delta s3 with m_inTick := false } := by
  unfold tick at h
  dsimp only at h
  cases h2 : tickSweep (tickLoop env delta s.m_tickedWnd { s with m_inTick := true }) with
  | none => rw [h2] at h; cases h
  | some s2 =>
    rw [h2] at h
    dsimp only at h
    cases h3 : tickAppend s.m_subscribeTickWnd.length s2 with
    | none => rw [h3] at h; cases h
    | some s3 =>
      rw [h3] at h
      dsimp only at h
      exact ⟨s2, s3, rfl, h3, (Option.some.inj h).symm⟩

theorem tickSweep_spec (s s2 : System) (h : tickSweep s = some s2) :
    s2.log = s.log ∧ s2.m_subscribeTickWnd = s.m_subscribeTickWnd ∧
    s2.unsubscribePending = s.unsubscribePending ∧ s2.m_inTick = s.m_inTick ∧
    (s.m_tickClear = false → s2 = s) ∧
    (s.m_tickClear = true →
      s.m_tickedWnd.all Option.isSome = true ∧ s2.m_tickClear = false ∧
      s2.m_tickedWnd
        = s.m_tickedWnd.filter (fun e => !tickClear s.unsubscribePending e)) := by
  unfold tickSweep at h
  split_ifs at h with hc hn
  · cases h
    exact ⟨rfl, rfl, rfl, rfl, fun hf => absurd (hc.symm.trans hf) (by decide),
      fun _ => ⟨hn, rfl, rfl⟩⟩
  · cases h
    exact ⟨rfl, rfl, rfl, rfl, fun _ => rfl, fun ht => absurd ht hc⟩

theorem tickAppend_spec (k : Nat) (s s3 : System) (h : tickAppend k s = some s3) :
    s3.log = s.log ∧ s3.unsubscribePending = s.unsubscribePending ∧
    s3.m_inTick = s.m_inTick ∧ s3.m_tickClear = s.m_tickClear ∧
    (k = 0 → s3 = s) ∧
    (k ≠ 0 →
      s.m_subscribeTickWnd.length ≤ k ∧ s3.m_subscribeTickWnd = [] ∧
      s3.m_tickedWnd = s.m_tickedWnd ++ (s.m_subscribeTickWnd.map some ++
        List.replicate (k - s.m_subscribeTickWnd.length) none)) := by
  unfold tickAppend at h
  split_ifs at h with hk hl
  · cases h
    exact ⟨rfl, rfl, rfl, rfl, fun h0 => absurd h0 hk, fun _ => ⟨hl, rfl, rfl⟩⟩
  · cases h
    exact ⟨rfl, rfl, rfl, rfl, fun _ => rfl, fun hk' => absurd (not_not.mp hk) hk'⟩

theorem filter_isOnTick_tickCalls (delta : ℚ) (l : List (Option Wid)) :
    (tickCalls delta l).filter Call.isOnTick = tickCalls delta l := by
  apply List.filter_eq_self.mpr
  intro c hc
  simp only [tickCalls, List.mem_filterMap] at hc
  obtain ⟨e, _, he⟩ := hc
  cases e with
  | none => cases he
  | some w =>
    simp only [Option.map_some', Option.some.injEq] at he
    rw [← he]
    rfl

/-- A `tick` entered with no null entry in the active list and an empty pending
buffer returns. -/
theorem tick_returns (env : Env) (delta : ℚ) (s : System)
    (hall : s.m_tickedWnd.all Option.isSome = true) (hbuf : s.m_subscribeTickWnd = []) :
    ∃ s', tick env delta s = some s' := by
  obtain ⟨hreg, _⟩ := tickLoop_spec env delta s.m_tickedWnd { s with m_inTick := true } rfl
  have hsw : ∃ s2, tickSweep (tickLoop env delta s.m_tickedWnd { s with m_inTick := true })
      = some s2 := by
    unfold tickSweep
    split_ifs with hc hn
    · exact ⟨_, rfl⟩
    · rw [hreg.2.1] at hn
      exact absurd hall hn
    · exact ⟨_, rfl⟩
  obtain ⟨s2, h2⟩ := hsw
  unfold tick
  dsimp only
  rw [h2]
  simp [tickAppend, hbuf]

/-- What a `tick` that returns leaves in the registry: the active list on entry,
swept if the sweep flag is up when the main loop ends, followed by the pending
buffer as it stood on entry. -/
theorem tick_registry (env : Env) (delta : ℚ) (s s' : System)
    (h : tick env delta s = some s') :
    s'.unsubscribePending
        = (tickLoop env delta s.m_tickedWnd { s with m_inTick := true }).unsubscribePending ∧
    ((tickLoop env delta s.m_tickedWnd { s with m_inTick := true }).m_tickClear = true →
      s'.m_tickClear = false ∧
      s'.m_tickedWnd = s.m_tickedWnd.filter (fun e => !tickClear s'.unsubscribePending e)
        ++ s.m_subscribeTickWnd.map some) ∧
    ((tickLoop env delta s.m_tickedWnd { s with m_inTick := true }).m_tickClear = false →
      s'.m_tickedWnd = s.m_tickedWnd ++ s.m_subscribeTickWnd.map some) := by
  obtain ⟨hreg, _⟩ := tickLoop_spec env delta s.m_tickedWnd { s with m_inTick := true } rfl
  obtain ⟨s2, s3, h2, h3, rfl⟩ := tick_stages env delta s s' h
  obtain ⟨_, hb2, hp2, _, hsame, hswept⟩ := tickSweep_spec _ _ h2
  obtain ⟨_, hp3, _, hc3, hk0, hk1⟩ := tickAppend_spec _ _ _ h3
  obtain ⟨ht4, _, _, hp4, hc4, _⟩ := tickTooltip_sameRegistry env delta s3
  obtain ⟨ext, hext⟩ := hreg.2.2.1
  have hpend : (tickTooltip env delta s3).unsubscribePending
      = (tickLoop env delta s.m_tickedWnd { s with m_inTick := true }).unsubscribePending := by
    rw [hp4, hp3, hp2]
  have happ : s3.m_tickedWnd = s2.m_tickedWnd ++ s.m_subscribeTickWnd.map some := by
    by_cases hk : s.m_subscribeTickWnd.length = 0
    · rw [hk0 hk, List.length_eq_zero.mp hk]
      simp
    · obtain ⟨hle, _, hcat⟩ := hk1 hk
      rw [hb2, hext] at hle
      have hnil : ext = [] := by
        apply List.length_eq_zero.mp
        simp only [List.length_append] at hle
        change s.m_subscribeTickWnd.length + ext.length ≤ s.m_subscribeTickWnd.length at hle
        omega
      rw [hcat, hb2, hext, hnil]
      change s2.m_tickedWnd ++ (List.map some (s.m_subscribeTickWnd ++ []) ++
        List.replicate (s.m_subscribeTickWnd.length - (s.m_subscribeTickWnd ++ []).length) none) = _
      simp
  refine ⟨hpend, ?_, ?_⟩
  · intro hc
    obtain ⟨_, hc2, hf⟩ := hswept hc
    refine ⟨?_, ?_⟩
    · show (tickTooltip env delta s3).m_tickClear = false
      rw [hc4, hc3, hc2]
    · show (tickTooltip env delta s3).m_tickedWnd = _
      rw [ht4, happ, hf, hreg.2.1]
      show _ = List.filter (fun e =>
          !tickClear (tickTooltip env delta s3).unsubscribePending e) s.m_tickedWnd ++ _
      rw [hpend]
  · intro hc
    show (tickTooltip env delta s3).m_tickedWnd = _
    rw [ht4, happ, hsame hc, hreg.2.1]

/-- The `onTick` calls in the log of a `tick` that returns, and the flag on
return. -/
theorem tick_onTick_log (env : Env) (delta : ℚ) (s s' : System)
    (h : tick env delta s = some s') :
    s'.m_inTick = false ∧
    (s'.log.drop s.log.length).filter Call.isOnTick = tickCalls delta s.m_tickedWnd := by
  obtain ⟨_, hlog⟩ := tickLoop_spec env delta s.m_tickedWnd { s with m_inTick := true } rfl
  obtain ⟨s2, s3, h2, h3, rfl⟩ := tick_stages env delta s s' h
  refine ⟨rfl, ?_⟩
  obtain ⟨_, _, _, _, _, extra, hex, hno⟩ := tickTooltip_sameRegistry env delta s3
  have hl2 := (tickSweep_spec _ _ h2).1
  have hl3 := (tickAppend_spec _ _ _ h3).1
  show ((tickTooltip env delta s3).log.drop s.log.length).filter Call.isOnTick = _
  rw [hex, hl3, hl2, hlog]
  simp only [List.append_assoc, List.drop_left, List.filter_append,
    filter_isOnTick_tickCalls]
  have : extra.filter Call.isOnTick = [] := by
    apply List.filter_eq_nil_iff.mpr
    intro c hc
    simp [hno c hc]
  rw [this, List.append_nil]

/-- C6. `tick(delta)` calls `onTick(delta)` once per non-null entry of the
active list as it stands on entry, in list order, every call entered with
`m_inTick` set, and these are all the `onTick` calls it makes: this is the
log of the main loop, whatever happens after it; when `tick` returns, the
`onTick` calls it has added to the log are exactly these and `m_inTick` is
false; and `tick` does return when the active list has no null entry and the
pending buffer is empty on entry. -/
theorem tick_calls_each_entry_once (env : Env) (delta : ℚ) (s : System) :
    (tickLoop env delta s.m_tickedWnd { s with m_inTick := true }).log
        = s.log ++ tickCalls delta s.m_tickedWnd ∧
    (∀ s', tick env delta s = some s' →
      s'.m_inTick = false ∧
      (s'.log.drop s.log.length).filter Call.isOnTick = tickCalls delta s.m_tickedWnd) ∧
    (s.m_tickedWnd.all Option.isSome = true → s.m_subscribeTickWnd = [] →
      ∃ s', tick env delta s = some s') := by
  refine ⟨(tickLoop_spec env delta s.m_tickedWnd { s with m_inTick := true } rfl).2,
    fun s' h => tick_onTick_log env delta s s' h, tick_returns env delta s⟩

/-- C5 on the code: widget 9 is not in the registry, widget 1 is active and
calls `subscribeTick(9)` from its `onTick`.  After the first `tick` widget 9 is
still only in the pending buffer, not in the active list; the second `tick`
calls `onTick` on widget 1 alone and appends 9 when it ends; widget 9 is first
ticked in the third `tick`. -/
theorem tick_subscription_deferred_two_frames :
    (tick Env.subscriber 1 System.oneTicked).map System.registryView
      = some ([some 1], [9], [Call.onTick 1 1 true]) ∧
    ((tick Env.subscriber 1 System.oneTicked).bind (tick Env.subscriber 1)).map
        System.registryView
      = some ([some 1, some 9], [], [Call.onTick 1 1 true, Call.onTick 1 1 true]) ∧
    (((tick Env.subscriber 1 System.oneTicked).bind (tick Env.subscriber 1)).bind
        (tick Env.subscriber 1)).map System.registryView
      = some ([some 1, some 9], [],
          [Call.onTick 1 1 true, Call.onTick 1 1 true, Call.onTick 1 1 true,
           Call.onTick 9 1 true]) := by
  simp [tick, tickLoop, callOnTick, runTickAct, subscribeTick, tickSweep, tickAppend,
    tickTooltip, tickTooltipShow, tickTooltipExpire, System.call, System.registryView,
    System.oneTicked, System.afterReset, Env.subscriber, Env.quiet]

/-- C8 fails on the code: after a `tick` in which widget 1 subscribed widget 9,
widget 9 sits in the pending buffer while no tick is in progress;
`subscribeTick(9)` then changes the active list, and the next `tick` appends
the buffer as well, so widget 9 is in the active list twice. -/
theorem subscribeTick_duplicates_entry :
    (tick Env.subscriber 1 System.oneTicked).map
        (fun s => (s.m_inTick, (subscribeTick (some 9) s).registryView))
      = some (false, [some 1, some 9], [9], [Call.onTick 1 1 true]) ∧
    (((tick Env.subscriber 1 System.oneTicked).map (subscribeTick (some 9))).bind
        (tick Env.subscriber 1)).map System.registryView
      = some ([some 1, some 9, some 9], [],
          [Call.onTick 1 1 true, Call.onTick 1 1 true, Call.onTick 9 1 true]) := by
  simp [tick, tickLoop, callOnTick, runTickAct, subscribeTick, tickSweep, tickAppend,
    tickTooltip, tickTooltipShow, tickTooltipExpire, System.call, System.registryView,
    System.oneTicked, System.afterReset, Env.subscriber, Env.quiet]

/-- The amended C7 at work: widgets 1, 4, 5 are active and widget 1 marks itself
pending from its `onTick`; all three are ticked, and the active list is
`[4, 5]` when `tick` returns. -/
theorem tick_leaver_example :
    (tick Env.leaver 1 System.threeTicked).map
        (fun s => (s.m_tickedWnd, s.unsubscribePending 1, s.m_inTick, s.log))
      = some ([some 4, some 5], true, false,
          [Call.onTick 1 1 true, Call.onTick 4 1 true, Call.onTick 5 1 true]) := by
  simp [tick, tickLoop, callOnTick, runTickAct, subscribeTick, markUnsubscribePending,
    tickSweep, tickClear, tickAppend, tickTooltip, tickTooltipShow, tickTooltipExpire,
    System.call, System.threeTicked, System.afterReset, Env.leaver, Env.quiet]

/-- C8, amended. `subscribeTick(w)` leaves the active list and the pending buffer
as they are when `w` is already in the active list, whether or not a tick is
in progress, and when `w` is already in the pending buffer and a tick is in
progress (outside a tick the pending buffer is not looked at); consequently
`subscribeTick` never adds a second copy of a widget to an active list or to a
pending buffer that has none. -/
theorem subscribeTick_duplicate_ignored (s : System) (w : Wid) :
    (some w ∈ s.m_tickedWnd → subscribeTick (some w) s = s) ∧
    (s.m_inTick = true → w ∈ s.m_subscribeTickWnd → subscribeTick (some w) s = s) ∧
    (s.m_tickedWnd.Nodup → (subscribeTick (some w) s).m_tickedWnd.Nodup) ∧
    (s.m_subscribeTickWnd.Nodup → (subscribeTick (some w) s).m_subscribeTickWnd.Nodup) := by
  unfold subscribeTick
  refine ⟨fun h => by simp [h], fun hin hb => by simp [hin, hb], ?_, ?_⟩
  · intro hnd
    dsimp only
    by_cases h1 : some w ∈ s.m_tickedWnd
    · rw [if_pos h1]; exact hnd
    · rw [if_neg h1]
      by_cases h2 : s.m_inTick = true
      · rw [if_pos h2]
        by_cases h3 : w ∈ s.m_subscribeTickWnd
        · rw [if_pos h3]; exact hnd
        · rw [if_neg h3]; exact hnd
      · rw [if_neg h2]
        exact List.nodup_append.mpr ⟨hnd, List.nodup_singleton _, by simpa using h1⟩
  · intro hnd
    dsimp only
    by_cases h1 : some w ∈ s.m_tickedWnd
    · rw [if_pos h1]; exact hnd
    · rw [if_neg h1]
      by_cases h2 : s.m_inTick = true
      · rw [if_pos h2]
        by_cases h3 : w ∈ s.m_subscribeTickWnd
        · rw [if_pos h3]; exact hnd
        · rw [if_neg h3]
          exact List.nodup_append.mpr ⟨hnd, List.nodup_singleton _, by simpa using h3⟩
      · rw [if_neg h2]; exact hnd

theorem subscribeTick_duplicate_ignored_witness :
    (some 1 ∈ System.oneTicked.m_tickedWnd →
      subscribeTick (some 1) System.oneTicked = System.oneTicked) ∧
    some 1 ∈ System.oneTicked.m_tickedWnd :=
  ⟨(subscribeTick_duplicate_ignored System.oneTicked 1).1,
   by simp [System.oneTicked, System.afterReset, subscribeTick]⟩

theorem System.callsNil (s : System) : s.calls [] = s := by
  cases s
  simp [System.calls]

theorem System.callCalls (s : System) (c : Call) (cs : List Call) :
    (s.call c).calls cs = s.calls (c :: cs) := by
  simp [System.call, System.calls]

/-- The delivery loop along a parent chain: the event is offered to the widgets
of the chain up to the first one that handles it, and the result is whether
one did. -/
theorem bubble_chain (getParent : Wid → Option Wid) (handler : Wid → Bool)
    (mk : Wid → Call) :
    ∀ (chain : List Wid) (t : Option Wid) (fuel : Nat) (s : System),
      parentChain getParent t chain → chain.length ≤ fuel →
      bubble getParent handler mk fuel t s
        = some (chain.any handler, s.calls ((offered handler chain).map mk)) := by
  intro chain
  induction chain with
  | nil =>
    intro t fuel s hc _
    cases t with
    | none =>
      cases fuel <;> simp [bubble, offered, System.callsNil]
    | some w => exact absurd hc (by simp [parentChain])
  | cons c rest ih =>
    intro t fuel s hc hf
    cases t with
    | none => simp [parentChain] at hc
    | some w =>
      obtain ⟨rfl, hrest⟩ := hc
      cases fuel with
      | zero => simp at hf
      | succ f =>
        have hf' : rest.length ≤ f := by simpa using hf
        rw [bubble]
        by_cases hh : handler c = true
        · simp [hh, offered, System.call, System.calls]
        · simp only [hh, if_false]
          rw [ih (getParent c) f (s.call (mk c)) hrest hf', System.callCalls]
          simp [hh, offered]

theorem riseAll_nil (o : Option base_window) : o.map (base_window.riseAll []) = o := by
  cases o <;> rfl

theorem riseAll_append (ws1 ws2 : List Wid) (o : Option base_window) :
    (o.map (base_window.riseAll ws1)).map (base_window.riseAll ws2)
      = o.map (base_window.riseAll (ws1 ++ ws2)) := by
  cases o with
  | none => rfl
  | some r => simp [base_window.riseAll, List.foldl_append]

theorem rise_id (w : Wid) (r : base_window) : (base_window.rise w r).id = r.id := by
  cases r with
  | mk i c =>
    rw [base_window.rise]
    split_ifs <;> rfl

theorem riseAll_id (ws : List Wid) : ∀ r : base_window, (base_window.riseAll ws r).id = r.id := by
  induction ws with
  | nil => intro r; rfl
  | cons w rest ih =>
    intro r
    have h : base_window.riseAll (w :: rest) r
        = base_window.riseAll rest (base_window.rise w r) := rfl
    rw [h, ih, rise_id]

theorem Prelude.mkP {P : Call → Prop} {s s0 : System} (extra : List Call)
    (hl : s0.log = s.log ++ extra) (hP : ∀ c ∈ extra, P c)
    (hr : s0.m_rootWindow
      = s.m_rootWindow.map (base_window.riseAll (extra.filterMap Call.risen)))
    (hx : s0.m_exclusiveInputWindow = s.m_exclusiveInputWindow)
    (hd : s0.m_dragContainer = s.m_dragContainer)
    (hm : s0.m_menuWindow = s.m_menuWindow) :
    Prelude P s s0 := by
  refine ⟨?_, hx, hd, hm, extra, hl, hP⟩
  rw [hl, List.drop_left]
  exact hr

theorem Prelude.treeP {P : Call → Prop} {s s0 : System} (h : Prelude P s s0)
    (extra : List Call) (hl : s0.log = s.log ++ extra) :
    s0.m_rootWindow = s.m_rootWindow.map (base_window.riseAll (extra.filterMap Call.risen)) := by
  have h1 := h.1
  rw [hl, List.drop_left] at h1
  exact h1

theorem filterMap_risen_nil (cs : List Call) (h : ∀ c ∈ cs, Call.risen c = none) :
    cs.filterMap Call.risen = [] := by
  induction cs with
  | nil => rfl
  | cons c rest ih =>
    rw [List.filterMap_cons, h c (List.mem_cons_self _ _)]
    exact ih (fun d hd => h d (List.mem_cons_of_mem _ hd))

theorem Prelude.reflP (P : Call → Prop) (s : System) : Prelude P s s :=
  Prelude.mkP [] (by simp) (by simp) (riseAll_nil _).symm rfl rfl rfl

theorem Prelude.thenP {P : Call → Prop} {a b c : System} (h1 : Prelude P a b)
    (h2 : Prelude P b c) : Prelude P a c := by
  obtain ⟨_, x1, d1, m1, e1, l1, n1⟩ := id h1
  obtain ⟨_, x2, d2, m2, e2, l2, n2⟩ := id h2
  refine Prelude.mkP (e1 ++ e2) ?_ ?_ ?_ (x2.trans x1) (d2.trans d1) (m2.trans m1)
  · rw [l2, l1, List.append_assoc]
  · intro c hc
    rcases List.mem_append.mp hc with hc | hc
    · exact n1 c hc
    · exact n2 c hc
  · rw [h2.treeP e2 l2, h1.treeP e1 l1, riseAll_append, List.filterMap_append]

theorem Prelude.callP {P : Call → Prop} (s : System) (c : Call) (h : P c)
    (hc : Call.risen c = none) : Prelude P s (s.call c) :=
  Prelude.mkP [c] rfl (by simpa using h)
    (by rw [filterMap_risen_nil [c] (by simpa using hc)]; exact (riseAll_nil _).symm)
    rfl rfl rfl

theorem Prelude.callsP {P : Call → Prop} (s : System) (cs : List Call) (h : ∀ c ∈ cs, P c)
    (hc : ∀ c ∈ cs, Call.risen c = none) : Prelude P s (s.calls cs) :=
  Prelude.mkP cs rfl h (by rw [filterMap_risen_nil cs hc]; exact (riseAll_nil _).symm)
    rfl rfl rfl

theorem Prelude.riseP {P : Call → Prop} (s : System) (w : Wid) (h : P (Call.rise w)) :
    Prelude P s (s.rise w) :=
  Prelude.mkP [Call.rise w] rfl (by simpa using h) rfl rfl rfl rfl

theorem Prelude.ofEqP {P : Call → Prop} {s s0 : System}
    (hr : s0.m_rootWindow = s.m_rootWindow)
    (hx : s0.m_exclusiveInputWindow = s.m_exclusiveInputWindow)
    (hd : s0.m_dragContainer = s.m_dragContainer)
    (hm : s0.m_menuWindow = s.m_menuWindow) (hl : s0.log = s.log) :
    Prelude P s s0 :=
  Prelude.mkP [] (by simp [hl]) (by simp) (by rw [hr]; exact (riseAll_nil _).symm) hx hd hm

/-- The root of a state reached by a prelude is the root of the state it started
from, with the children below it possibly reordered. -/
theorem Prelude.rootP {P : Call → Prop} {s s0 : System} (h : Prelude P s s0)
    (root : base_window) (hroot : s.m_rootWindow = some root) :
    ∃ root1, s0.m_rootWindow = some root1 ∧ root1.id = root.id := by
  have hr := h.1
  rw [hroot] at hr
  exact ⟨_, hr, riseAll_id _ root⟩

theorem SameTarget.reflT (s : System) : SameTarget s s := ⟨rfl, rfl⟩

theorem SameTarget.thenT {a b c : System} (h1 : SameTarget a b) (h2 : SameTarget b c) :
    SameTarget a c :=
  ⟨h2.1.trans h1.1, h2.2.trans h1.2⟩

theorem DragSame.reflD (s : System) : DragSame s s := ⟨rfl, rfl, rfl⟩

theorem DragSame.thenD {a b c : System} (h1 : DragSame a b) (h2 : DragSame b c) :
    DragSame a c :=
  ⟨h2.1.trans h1.1, h2.2.1.trans h1.2.1, h2.2.2.trans h1.2.2⟩

theorem hideTooltip_step (P : Call → Prop) (env : Env) (wnd : Option Wid) (s : System)
    (h1 : ∀ w, P (Call.onTooltipHide w)) (h2 : ∀ w, P (Call.tooltipReset w)) :
    Prelude P s (hideTooltip env wnd s) ∧ SameTarget s (hideTooltip env wnd s) ∧
      DragSame s (hideTooltip env wnd s) := by
  unfold hideTooltip
  cases wnd with
  | none =>
    exact ⟨(Prelude.callP s _ (h2 _) rfl).thenP (Prelude.ofEqP rfl rfl rfl rfl rfl),
      ⟨rfl, rfl⟩, ⟨rfl, rfl, rfl⟩⟩
  | some w =>
    by_cases hw : env.hasTooltip w = true
    · simp only [hw, if_true]
      exact ⟨((Prelude.callP s _ (h1 w) rfl).thenP (Prelude.callP _ _ (h2 _) rfl)).thenP
        (Prelude.ofEqP rfl rfl rfl rfl rfl), ⟨rfl, rfl⟩, ⟨rfl, rfl, rfl⟩⟩
    · simp only [hw]
      exact ⟨(Prelude.callP s _ (h2 _) rfl).thenP (Prelude.ofEqP rfl rfl rfl rfl rfl),
        ⟨rfl, rfl⟩, ⟨rfl, rfl, rfl⟩⟩

theorem queryInputFocus_step (P : Call → Prop) (wnd : Option Wid) (s : System)
    (h1 : ∀ w, P (Call.resetInputFocus w)) (h2 : ∀ w n, P (Call.onFocusLost w n))
    (h3 : ∀ w, P (Call.invalidate w)) (h4 : ∀ w b, P (Call.setInputFocus w b))
    (h5 : ∀ w, P (Call.onFocusGained w)) :
    Prelude P s (queryInputFocus wnd s).2 ∧ SameTarget s (queryInputFocus wnd s).2 ∧
      DragSame s (queryInputFocus wnd s).2 := by
  have hlost : ∀ f, ∀ c ∈ [Call.resetInputFocus f, Call.onFocusLost f wnd, Call.invalidate f],
      P c := by
    intro f c hc
    simp only [List.mem_cons, List.mem_singleton, List.not_mem_nil, or_false] at hc
    rcases hc with rfl | rfl | rfl
    · exact h1 _
    · exact h2 _ _
    · exact h3 _
  have hgain : ∀ w, ∀ c ∈ [Call.setInputFocus w false, Call.onFocusGained w, Call.invalidate w],
      P c := by
    intro w c hc
    simp only [List.mem_cons, List.mem_singleton, List.not_mem_nil, or_false] at hc
    rcases hc with rfl | rfl | rfl
    · exact h4 _ _
    · exact h5 _
    · exact h3 _
  have hlostr : ∀ f, ∀ c ∈ [Call.resetInputFocus f, Call.onFocusLost f wnd, Call.invalidate f],
      Call.risen c = none := by
    intro f c hc
    simp only [List.mem_cons, List.mem_singleton, List.not_mem_nil, or_false] at hc
    rcases hc with rfl | rfl | rfl <;> rfl
  have hgainr : ∀ w, ∀ c ∈ [Call.setInputFocus w false, Call.onFocusGained w, Call.invalidate w],
      Call.risen c = none := by
    intro w c hc
    simp only [List.mem_cons, List.mem_singleton, List.not_mem_nil, or_false] at hc
    rcases hc with rfl | rfl | rfl <;> rfl
  unfold queryInputFocus
  cases hf : s.m_focusWindow with
  | none =>
    cases wnd with
    | none => exact ⟨Prelude.ofEqP rfl rfl rfl rfl rfl, ⟨rfl, rfl⟩, ⟨rfl, rfl, rfl⟩⟩
    | some w =>
      exact ⟨(show Prelude P s { s with m_focusWindow := some w } from
          Prelude.ofEqP rfl rfl rfl rfl rfl).thenP
        (Prelude.callsP _ _ (hgain w) (hgainr w)), ⟨rfl, rfl⟩, ⟨rfl, rfl, rfl⟩⟩
  | some f =>
    cases wnd with
    | none =>
      exact ⟨(Prelude.callsP s _ (hlost f) (hlostr f)).thenP (Prelude.ofEqP rfl rfl rfl rfl rfl),
        ⟨rfl, rfl⟩, ⟨rfl, rfl, rfl⟩⟩
    | some w =>
      exact ⟨((Prelude.callsP s _ (hlost f) (hlostr f)).thenP
        (show Prelude P (s.calls [Call.resetInputFocus f, Call.onFocusLost f (some w),
            Call.invalidate f])
          { s.calls [Call.resetInputFocus f, Call.onFocusLost f (some w),
              Call.invalidate f] with m_focusWindow := some w } from
          Prelude.ofEqP rfl rfl rfl rfl rfl)).thenP
        (Prelude.callsP _ _ (hgain w) (hgainr w)), ⟨rfl, rfl⟩, ⟨rfl, rfl, rfl⟩⟩

theorem buttonFocusStep_step (P : Call → Prop) (env : Env) (target : Wid) (s : System)
    (h1 : ∀ w, P (Call.resetInputFocus w)) (h2 : ∀ w n, P (Call.onFocusLost w n))
    (h3 : ∀ w, P (Call.invalidate w)) (h4 : ∀ w b, P (Call.setInputFocus w b))
    (h5 : ∀ w, P (Call.onFocusGained w)) :
    Prelude P s (buttonFocusStep env target s) ∧ SameTarget s (buttonFocusStep env target s) ∧
      DragSame s (buttonFocusStep env target s) := by
  unfold buttonFocusStep
  split_ifs
  · exact queryInputFocus_step P _ s h1 h2 h3 h4 h5
  · exact queryInputFocus_step P _ s h1 h2 h3 h4 h5
  · exact ⟨Prelude.reflP P s, SameTarget.reflT s, DragSame.reflD s⟩

theorem buttonDragStep_step (P : Call → Prop) (env : Env) (root : base_window) (target : Wid)
    (btn : MouseButtons) (state : ButtonState) (s : System) :
    Prelude P s (buttonDragStep env root target btn state s) ∧
      SameTarget s (buttonDragStep env root target btn state s) ∧
      (buttonDragStep env root target btn state s).m_focusWindow = s.m_focusWindow := by
  unfold buttonDragStep
  dsimp only
  split_ifs <;> exact ⟨Prelude.ofEqP rfl rfl rfl rfl rfl, ⟨rfl, rfl⟩, rfl⟩

theorem getTargetWindow_step (P : Call → Prop) (env : Env) (pt : point) (s : System)
    (root : base_window) (hroot : s.m_rootWindow = some root)
    (h : ∀ w q, P (Call.hitTest w q)) :
    ∃ mouseWnd s1, getTargetWindow env pt s = some (mouseWnd, s1) ∧
      Prelude P s s1 ∧ SameTarget s s1 ∧ DragSame s s1 ∧ s1.m_cursor = s.m_cursor := by
  refine ⟨_, _, by unfold getTargetWindow; rw [hroot], Prelude.callsP s _ ?_ ?_, ⟨rfl, rfl⟩,
    ⟨rfl, rfl, rfl⟩, rfl⟩
  · intro c hc
    simp only [List.mem_map] at hc
    obtain ⟨w, _, rfl⟩ := hc
    exact h w pt
  · intro c hc
    simp only [List.mem_map] at hc
    obtain ⟨w, _, rfl⟩ := hc
    rfl

/-- `startDrag` on a non-null widget, with a root present, in closed form. -/
theorem startDrag_eq (env : Env) (wnd : Option Wid) (w : Wid) (hw : wnd = some w)
    (offset : point) (s : System)
    (root : base_window) (hroot : s.m_rootWindow = some root) :
    startDrag env wnd offset s
      = some (env.isDragable w && env.dragStartDrag w offset,
          if env.isDragable w = true then
            if env.dragStartDrag w offset = true then
              { s with
                m_rootWindow := some (base_window.rise s.m_dragContainer root),
                m_dragfired := true,
                log := s.log ++ ([Call.rise s.m_dragContainer,
                    Call.dragStart s.m_dragContainer w offset,
                    Call.dragSetPosition s.m_dragContainer (s.m_cursor.sub offset)]
                  ++ (GetTargetWindow env.hitTest s.m_cursor
                        (base_window.rise s.m_dragContainer root).getChildren).2.map
                      (fun v => Call.hitTest v s.m_cursor)
                  ++ [Call.dragUpdate s.m_dragContainer
                      ((GetTargetWindow env.hitTest s.m_cursor
                          (base_window.rise s.m_dragContainer root).getChildren).1.map
                        base_window.id)
                      (s.m_cursor.sub offset)]) }
            else
              { s with
                m_rootWindow := some (base_window.rise s.m_dragContainer root),
                log := s.log ++ [Call.rise s.m_dragContainer,
                  Call.dragStart s.m_dragContainer w offset] }
          else { s with
            m_rootWindow := some (base_window.rise s.m_dragContainer root),
            log := s.log ++ [Call.rise s.m_dragContainer] }) := by
  subst hw
  unfold startDrag
  dsimp only
  by_cases hd : env.isDragable w = true
  · rw [if_pos hd, if_pos hd]
    by_cases hs : env.dragStartDrag w offset = true
    · rw [if_pos hs, if_pos hs]
      simp [getTargetWindow, System.call, System.calls, System.rise, hroot, hd, hs]
    · rw [if_neg hs, if_neg hs]
      simp [System.call, System.rise, hroot, hd, hs]
  · rw [if_neg hd, if_neg hd]
    simp [System.call, System.rise, hroot, hd]

/-- `startDrag` on a non-null widget, with a root present: it returns whether the
widget is draggable and the drag container accepted the start; it first
raises the drag container, asks the container only if the widget is
draggable, and sets `m_dragfired` exactly on success. -/
theorem startDrag_step (P : Call → Prop) (env : Env) (wnd : Option Wid) (w : Wid)
    (hw : wnd = some w) (offset : point) (s : System)
    (root : base_window) (hroot : s.m_rootWindow = some root)
    (h1 : ∀ v, P (Call.rise v)) (h2 : ∀ d v o, P (Call.dragStart d v o))
    (h3 : ∀ d q, P (Call.dragSetPosition d q)) (h4 : ∀ v q, P (Call.hitTest v q))
    (h5 : ∀ d t q, P (Call.dragUpdate d t q)) :
    ∃ s1, startDrag env wnd offset s
        = some (env.isDragable w && env.dragStartDrag w offset, s1) ∧
      Prelude P s s1 ∧ SameTarget s s1 ∧
      s1.m_dragging = s.m_dragging ∧ s1.m_dragWindow = s.m_dragWindow ∧
      s1.m_cursor = s.m_cursor ∧
      s1.m_dragfired = ((env.isDragable w && env.dragStartDrag w offset) || s.m_dragfired) ∧
      (∃ rest, s1.log = s.log ++ Call.rise s.m_dragContainer :: rest ∧
        (env.isDragable w = true → Call.dragStart s.m_dragContainer w offset ∈ rest)) := by
  refine ⟨_, startDrag_eq env wnd w hw offset s root hroot, ?_⟩
  have hhit : ∀ (l : List Wid) (q : point),
      (l.map (fun v => Call.hitTest v q)).filterMap Call.risen = [] := by
    intro l q
    apply filterMap_risen_nil
    intro c hc
    obtain ⟨v, _, rfl⟩ := List.mem_map.mp hc
    rfl
  by_cases hd : env.isDragable w = true
  · by_cases hs : env.dragStartDrag w offset = true
    · rw [if_pos hd, if_pos hs]
      refine ⟨Prelude.mkP _ rfl ?_ ?_ rfl rfl rfl, ⟨rfl, rfl⟩, rfl, rfl, rfl, by simp [hd, hs],
        ⟨_, rfl, fun _ => List.mem_cons_self _ _⟩⟩
      · intro c hc
        simp only [List.mem_append, List.mem_cons, List.mem_singleton, List.not_mem_nil,
          or_false, List.mem_map] at hc
        rcases hc with (((rfl | rfl | rfl) | ⟨v, _, rfl⟩) | rfl)
        · exact h1 _
        · exact h2 _ _ _
        · exact h3 _ _
        · exact h4 _ _
        · exact h5 _ _ _
      · rw [List.filterMap_append, List.filterMap_append, hhit, hroot]
        rfl
    · rw [if_pos hd, if_neg hs]
      refine ⟨Prelude.mkP _ rfl ?_ ?_ rfl rfl rfl, ⟨rfl, rfl⟩, rfl, rfl, rfl, by simp [hd, hs],
        ⟨_, rfl, fun _ => List.mem_cons_self _ _⟩⟩
      · intro c hc
        simp only [List.mem_cons, List.mem_singleton, List.not_mem_nil, or_false] at hc
        rcases hc with rfl | rfl
        · exact h1 _
        · exact h2 _ _ _
      · rw [hroot]
        rfl
  · rw [if_neg hd]
    refine ⟨Prelude.mkP _ rfl ?_ ?_ rfl rfl rfl, ⟨rfl, rfl⟩, rfl, rfl, rfl, by simp [hd],
      ⟨[], rfl, fun h => absurd h hd⟩⟩
    · intro c hc
      simp only [List.mem_singleton] at hc
      rw [hc]
      exact h1 _
    · rw [hroot]
      rfl

/-- The drag section of `handleMouseMove` when a drag is armed and not fired and
the cursor is not beyond the threshold: only the capture is released. -/
theorem moveDragStep_below (env : Env) (s : System) (dw : Wid)
    (hdw : s.m_dragWindow = some dw) (hdrag : s.m_dragging = true)
    (hnf : s.m_dragfired = false)
    (hbelow : sqrtExceeds (squaredLength (s.m_cursor.sub s.m_dragOffset)) s.m_dragThreshold
      = false) :
    moveDragStep env s = some { s with m_captureWindow := none } := by
  unfold moveDragStep
  have hg : s.m_dragging = true ∧ s.m_dragWindow ≠ none := ⟨hdrag, by rw [hdw]; simp⟩
  rw [if_pos hg]
  simp [hnf, hbelow]

/-- The drag section of `handleMouseMove` when a drag is armed and not fired and
the cursor is beyond the threshold: `startDrag` is called on the drag source,
and the drag is disarmed if it fails. -/
theorem moveDragStep_above (env : Env) (s : System) (dw : Wid)
    (hdw : s.m_dragWindow = some dw) (hdrag : s.m_dragging = true)
    (hnf : s.m_dragfired = false)
    (habove : sqrtExceeds (squaredLength (s.m_cursor.sub s.m_dragOffset)) s.m_dragThreshold
      = true) :
    moveDragStep env s =
      match startDrag env ({ s with m_captureWindow := none } : System).m_dragWindow
          (dragStartOffset env { s with m_captureWindow := none })
          { s with m_captureWindow := none } with
      | none => none
      | some (started, s1) =>
        if !started then some { s1 with m_dragging := false, m_dragWindow := none }
        else some s1 := by
  unfold moveDragStep
  have hg : s.m_dragging = true ∧ s.m_dragWindow ≠ none := ⟨hdrag, by rw [hdw]; simp⟩
  rw [if_pos hg]
  simp [hnf, habove]

theorem moveDragStep_step (P : Call → Prop) (env : Env) (s : System)
    (root : base_window) (hroot : s.m_rootWindow = some root)
    (h1 : ∀ v, P (Call.rise v)) (h2 : ∀ d v o, P (Call.dragStart d v o))
    (h3 : ∀ d q, P (Call.dragSetPosition d q)) (h4 : ∀ v q, P (Call.hitTest v q))
    (h5 : ∀ d t q, P (Call.dragUpdate d t q)) :
    ∃ s1, moveDragStep env s = some s1 ∧ Prelude P s s1 ∧ s1.m_cursor = s.m_cursor := by
  unfold moveDragStep
  by_cases hg : s.m_dragging = true ∧ s.m_dragWindow ≠ none
  · rw [if_pos hg]
    dsimp only
    by_cases hnf : (!s.m_dragfired) = true
    · rw [if_pos hnf]
      by_cases hex : sqrtExceeds (squaredLength (s.m_cursor.sub s.m_dragOffset))
          s.m_dragThreshold = true
      · rw [if_pos hex]
        obtain ⟨dw, hdw⟩ := Option.ne_none_iff_exists'.mp hg.2
        obtain ⟨s1, hs1, hp, _, _, _, hc, _, _⟩ := startDrag_step P env
          ({ s with m_captureWindow := none } : System).m_dragWindow dw hdw
          (dragStartOffset env { s with m_captureWindow := none })
          { s with m_captureWindow := none } root hroot h1 h2 h3 h4 h5
        rw [hs1]
        dsimp only
        have hp0 : Prelude P s { s with m_captureWindow := none } :=
          Prelude.ofEqP rfl rfl rfl rfl rfl
        split_ifs
        · exact ⟨_, rfl, (hp0.thenP hp).thenP (Prelude.ofEqP rfl rfl rfl rfl rfl), hc⟩
        · exact ⟨_, rfl, hp0.thenP hp, hc⟩
      · rw [if_neg hex]
        exact ⟨_, rfl, Prelude.ofEqP rfl rfl rfl rfl rfl, rfl⟩
    · rw [if_neg hnf]
      exact ⟨_, rfl, Prelude.ofEqP rfl rfl rfl rfl rfl, rfl⟩
  · rw [if_neg hg]
    exact ⟨s, rfl, Prelude.reflP P s, rfl⟩

theorem moveContainStep_step (P : Call → Prop) (env : Env) (mouseWnd : Option Wid)
    (s : System)
    (h1 : ∀ w, P (Call.onTooltipHide w)) (h2 : ∀ w, P (Call.tooltipReset w))
    (h3 : ∀ w, P (Call.onMouseLeave w)) (h4 : ∀ w, P (Call.onMouseEnter w)) :
    Prelude P s (moveContainStep env mouseWnd s) ∧ DragSame s (moveContainStep env mouseWnd s) ∧
      (moveContainStep env mouseWnd s).m_captureWindow = s.m_captureWindow := by
  unfold moveContainStep
  by_cases hc : mouseWnd ≠ s.m_containsMouse ∧ s.m_captureWindow = none
  · rw [if_pos hc]
    dsimp only
    have hleave : ∀ t : System,
        Prelude P t (match t.m_containsMouse with
          | some c => (hideTooltip env (some c) t).call (Call.onMouseLeave c)
          | none => t) ∧
        DragSame t (match t.m_containsMouse with
          | some c => (hideTooltip env (some c) t).call (Call.onMouseLeave c)
          | none => t) ∧
        (match t.m_containsMouse with
          | some c => (hideTooltip env (some c) t).call (Call.onMouseLeave c)
          | none => t).m_captureWindow = t.m_captureWindow := by
      intro t
      cases t.m_containsMouse with
      | none => exact ⟨Prelude.reflP P t, DragSame.reflD t, rfl⟩
      | some c =>
        obtain ⟨hp, ht, hd⟩ := hideTooltip_step P env (some c) t h1 h2
        exact ⟨hp.thenP (Prelude.callP _ _ (h3 c) rfl), hd.thenD ⟨rfl, rfl, rfl⟩, ht.1⟩
    obtain ⟨hp1, hd1, hc1⟩ := hleave { s with m_activateTooltip := false }
    have hp0 : Prelude P s { s with m_activateTooltip := false } :=
      Prelude.ofEqP rfl rfl rfl rfl rfl
    cases mouseWnd with
    | none =>
      exact ⟨(hp0.thenP hp1).thenP (Prelude.ofEqP rfl rfl rfl rfl rfl),
        DragSame.thenD (DragSame.thenD ⟨rfl, rfl, rfl⟩ hd1) ⟨rfl, rfl, rfl⟩, hc1⟩
    | some c =>
      dsimp only
      split_ifs
      · exact ⟨((hp0.thenP hp1).thenP (Prelude.ofEqP rfl rfl rfl rfl rfl)).thenP
            (Prelude.callP _ _ (h4 c) rfl),
          DragSame.thenD (DragSame.thenD ⟨rfl, rfl, rfl⟩ hd1) ⟨rfl, rfl, rfl⟩, hc1⟩
      · exact ⟨((hp0.thenP hp1).thenP (Prelude.ofEqP rfl rfl rfl rfl rfl)).thenP
            (Prelude.callP _ _ (h4 c) rfl),
          DragSame.thenD (DragSame.thenD ⟨rfl, rfl, rfl⟩ hd1) ⟨rfl, rfl, rfl⟩, hc1⟩
  · rw [if_neg hc]
    exact ⟨Prelude.reflP P s, DragSame.reflD s, rfl⟩

theorem hideTooltip_root (env : Env) (wnd : Option Wid) (s : System) :
    (hideTooltip env wnd s).m_rootWindow = s.m_rootWindow := by
  unfold hideTooltip
  cases wnd with
  | none => rfl
  | some w => dsimp only; split_ifs <;> rfl

theorem queryInputFocus_root (wnd : Option Wid) (s : System) :
    (queryInputFocus wnd s).2.m_rootWindow = s.m_rootWindow := by
  unfold queryInputFocus
  cases s.m_focusWindow <;> cases wnd <;> rfl

theorem buttonFocusStep_root (env : Env) (target : Wid) (s : System) :
    (buttonFocusStep env target s).m_rootWindow = s.m_rootWindow := by
  unfold buttonFocusStep
  split_ifs
  · exact queryInputFocus_root _ s
  · exact queryInputFocus_root _ s
  · rfl

theorem buttonDragStep_root (env : Env) (root : base_window) (target : Wid)
    (btn : MouseButtons) (state : ButtonState) (s : System) :
    (buttonDragStep env root target btn state s).m_rootWindow = s.m_rootWindow := by
  unfold buttonDragStep
  dsimp only
  split_ifs <;> rfl

theorem mouseTarget_congr (s s0 : System) (root : base_window) (h : SameTarget s s0) :
    mouseTarget s0 root = mouseTarget s root := by
  unfold mouseTarget
  rw [h.1, h.2]

theorem handleMouseMove_unfold (env : Env) (fuel : Nat) (x y : Int) (s : System)
    (root : base_window) (hE : s.m_exclusiveInputWindow = none)
    (hroot : s.m_rootWindow = some root) :
    handleMouseMove env fuel x y s =
      match moveDragStep env { s with m_cursor := ⟨castFloat x, castFloat y⟩ } with
      | none => none
      | some s1 => moveDeliver env fuel root s1 := by
  unfold handleMouseMove
  split
  · rename_i e he
    rw [hE] at he
    cases he
  · dsimp only
    split
    · rename_i hn
      rw [hroot] at hn
      cases hn
    · rename_i root2 hr
      rw [hroot] at hr
      cases hr
      rfl

/-- The part of `handleMouseMove` after the drag section: it ends in a state
`s0` reached by calls satisfying `P`, with the drag state untouched, and
delivers from there. -/
theorem moveDeliver_sections (P : Call → Prop) (env : Env) (s1 : System)
    (root root1 : base_window) (hroot : s1.m_rootWindow = some root1)
    (h4 : ∀ v q, P (Call.hitTest v q)) (h5 : ∀ d t q, P (Call.dragUpdate d t q))
    (h6 : ∀ w, P (Call.onTooltipHide w)) (h7 : ∀ w, P (Call.tooltipReset w))
    (h8 : ∀ w, P (Call.onMouseLeave w)) (h9 : ∀ w, P (Call.onMouseEnter w)) :
    ∃ s0, Prelude P s1 s0 ∧ DragSame s1 s0 ∧
      ∀ fuel, moveDeliver env fuel root s1
        = bubble env.getParent env.onMouseMove Call.onMouseMove fuel
            (some (mouseTarget s0 root)) s0 := by
  obtain ⟨mouseWnd, s2, hs2, hp2, _, hd2, _⟩ :=
    getTargetWindow_step P env s1.m_cursor s1 root1 hroot h4
  have hp3 : Prelude P s2
      (if s2.m_dragfired then s2.call (Call.dragUpdate s2.m_dragContainer mouseWnd s2.m_cursor)
       else s2) ∧
      DragSame s2
      (if s2.m_dragfired then s2.call (Call.dragUpdate s2.m_dragContainer mouseWnd s2.m_cursor)
       else s2) := by
    split_ifs
    · exact ⟨Prelude.callP s2 _ (h5 _ _ _) rfl, rfl, rfl, rfl⟩
    · exact ⟨Prelude.reflP P s2, DragSame.reflD s2⟩
  obtain ⟨hp4, hd4, _⟩ := moveContainStep_step P env mouseWnd
    (if s2.m_dragfired then s2.call (Call.dragUpdate s2.m_dragContainer mouseWnd s2.m_cursor)
     else s2) h6 h7 h8 h9
  refine ⟨_, (hp2.thenP hp3.1).thenP hp4, (hd2.thenD hp3.2).thenD hd4, ?_⟩
  intro fuel
  unfold moveDeliver
  rw [hs2]

/-- `handleMouseMove` outside exclusive mode with a root: the sections before the
delivery end in a state `s0`, reached without any event-handler call, and the
handler is the delivery loop started in `s0`. -/
theorem handleMouseMove_sections (P : Call → Prop) (env : Env) (x y : Int) (s : System)
    (root : base_window) (hE : s.m_exclusiveInputWindow = none)
    (hroot : s.m_rootWindow = some root)
    (h1 : ∀ v, P (Call.rise v)) (h2 : ∀ d v o, P (Call.dragStart d v o))
    (h3 : ∀ d q, P (Call.dragSetPosition d q)) (h4 : ∀ v q, P (Call.hitTest v q))
    (h5 : ∀ d t q, P (Call.dragUpdate d t q))
    (h6 : ∀ w, P (Call.onTooltipHide w)) (h7 : ∀ w, P (Call.tooltipReset w))
    (h8 : ∀ w, P (Call.onMouseLeave w)) (h9 : ∀ w, P (Call.onMouseEnter w)) :
    ∃ s0, Prelude P s s0 ∧
      ∀ fuel, handleMouseMove env fuel x y s
        = bubble env.getParent env.onMouseMove Call.onMouseMove fuel
            (some (mouseTarget s0 root)) s0 := by
  have hp0 : Prelude P s { s with m_cursor := ⟨castFloat x, castFloat y⟩ } :=
    Prelude.ofEqP rfl rfl rfl rfl rfl
  obtain ⟨s1, hs1, hp1, _⟩ := moveDragStep_step P env
    { s with m_cursor := ⟨castFloat x, castFloat y⟩ } root hroot h1 h2 h3 h4 h5
  obtain ⟨root1, hr1, _⟩ := hp1.rootP root hroot
  obtain ⟨s0, hp2, _, hrun⟩ := moveDeliver_sections P env s1 root root1 hr1 h4 h5 h6 h7 h8 h9
  refine ⟨s0, (hp0.thenP hp1).thenP hp2, ?_⟩
  intro fuel
  rw [handleMouseMove_unfold env fuel x y s root hE hroot, hs1]
  exact hrun fuel

theorem handleMouseWheel_unfold (env : Env) (fuel : Nat) (diff : Int) (s : System)
    (root : base_window) (hE : s.m_exclusiveInputWindow = none)
    (hroot : s.m_rootWindow = some root) :
    handleMouseWheel env fuel diff s =
      bubble env.getParent (fun w => env.onMouseWheel w diff)
        (fun w => Call.onMouseWheel w diff) fuel
        (some (mouseTarget
          (hideTooltip env s.m_containsMouse { s with m_activateTooltip := false }) root))
        (hideTooltip env s.m_containsMouse { s with m_activateTooltip := false }) := by
  have hr : (hideTooltip env s.m_containsMouse { s with m_activateTooltip := false }).m_rootWindow
      = some root :=
    (hideTooltip_root env _ _).trans hroot
  unfold handleMouseWheel
  split
  · rename_i e he
    rw [hE] at he
    cases he
  · dsimp only
    split
    · rename_i hn
      rw [hr] at hn
      cases hn
    · rename_i root2 hr2
      rw [hr] at hr2
      cases hr2
      rfl

theorem handleMouseDouble_unfold (env : Env) (fuel : Nat) (btn : MouseButtons) (s : System)
    (root : base_window) (hE : s.m_exclusiveInputWindow = none)
    (hroot : s.m_rootWindow = some root) :
    handleMouseDouble env fuel btn s =
      bubble env.getParent (fun w => env.onMouseDouble w btn)
        (fun w => Call.onMouseDouble w btn) fuel
        (some (mouseTarget
          (hideTooltip env s.m_containsMouse { s with m_activateTooltip := false }) root))
        ((hideTooltip env s.m_containsMouse { s with m_activateTooltip := false }).rise
          (mouseTarget
            (hideTooltip env s.m_containsMouse { s with m_activateTooltip := false }) root)) := by
  have hr : (hideTooltip env s.m_containsMouse { s with m_activateTooltip := false }).m_rootWindow
      = some root :=
    (hideTooltip_root env _ _).trans hroot
  unfold handleMouseDouble
  split
  · rename_i e he
    rw [hE] at he
    cases he
  · dsimp only
    split
    · rename_i hn
      rw [hr] at hn
      cases hn
    · rename_i root2 hr2
      rw [hr] at hr2
      cases hr2
      rfl

/-- The state in which `handleMouseButton` starts to deliver: tooltip hidden,
focus and drag sections run, target raised, menu reset. -/
theorem handleMouseButton_unfold (env : Env) (fuel : Nat) (btn : MouseButtons)
    (state : ButtonState) (s : System)
    (root : base_window) (hE : s.m_exclusiveInputWindow = none)
    (hroot : s.m_rootWindow = some root) :
    ∃ s0, handleMouseButton env fuel btn state s =
        bubble env.getParent (fun w => env.onMouseButton w btn state)
          (fun w => Call.onMouseButton w btn state) fuel
          (some (mouseTarget
            (hideTooltip env s.m_containsMouse { s with m_activateTooltip := false }) root)) s0 ∧
      s0 = (fun t : System =>
              if mouseTarget
                  (hideTooltip env s.m_containsMouse { s with m_activateTooltip := false }) root
                  ≠ t.m_menuWindow
              then t.call (Call.menuReset t.m_menuWindow) else t)
            ((buttonDragStep env root
                (mouseTarget
                  (hideTooltip env s.m_containsMouse { s with m_activateTooltip := false }) root)
                btn state
                (buttonFocusStep env
                  (mouseTarget
                    (hideTooltip env s.m_containsMouse { s with m_activateTooltip := false }) root)
                  (hideTooltip env s.m_containsMouse { s with m_activateTooltip := false }))).rise
              (mouseTarget
                (hideTooltip env s.m_containsMouse { s with m_activateTooltip := false })
                root)) := by
  have hr : (hideTooltip env s.m_containsMouse { s with m_activateTooltip := false }).m_rootWindow
      = some root :=
    (hideTooltip_root env _ _).trans hroot
  refine ⟨_, ?_, rfl⟩
  unfold handleMouseButton
  split
  · rename_i e he
    rw [hE] at he
    cases he
  · dsimp only
    split
    · rename_i hn
      rw [hr] at hn
      cases hn
    · rename_i root2 hr2
      rw [hr] at hr2
      cases hr2
      rfl

/-- C9. Outside exclusive-input mode and with a root present, each of the four
mouse handlers reaches, without calling any event handler, a state `s0` in
which it starts to deliver; delivery starts at the capture holder of `s0` if
one is set, else at its contained-mouse widget if one is set, else at the
root (for wheel, button and double-click these are the capture holder and
contained-mouse widget of the state the handler was called in; a move updates
them first); whenever the parent links from there form a finite chain, the
handler is called on the widgets of the chain in order up to and including
the first that returns handled, no other call is made, and the dispatcher
returns true exactly when a widget of the chain returns handled. -/
theorem mouse_events_bubble (env : Env) (s : System) (root : base_window)
    (hE : s.m_exclusiveInputWindow = none) (hroot : s.m_rootWindow = some root)
    (x y diff : Int) (btn : MouseButtons) (state : ButtonState) :
    (∃ s0, Prelude (fun c => Call.isEventHandler c = false) s s0 ∧
      Bubbled env root s0 env.onMouseMove Call.onMouseMove
        (fun fuel => handleMouseMove env fuel x y s)) ∧
    (∃ s0, Prelude (fun c => Call.isEventHandler c = false) s s0 ∧ SameTarget s s0 ∧
      Bubbled env root s0 (fun w => env.onMouseWheel w diff)
        (fun w => Call.onMouseWheel w diff) (fun fuel => handleMouseWheel env fuel diff s)) ∧
    (∃ s0, Prelude (fun c => Call.isEventHandler c = false) s s0 ∧ SameTarget s s0 ∧
      Bubbled env root s0 (fun w => env.onMouseButton w btn state)
        (fun w => Call.onMouseButton w btn state)
        (fun fuel => handleMouseButton env fuel btn state s)) ∧
    (∃ s0, Prelude (fun c => Call.isEventHandler c = false) s s0 ∧ SameTarget s s0 ∧
      Bubbled env root s0 (fun w => env.onMouseDouble w btn)
        (fun w => Call.onMouseDouble w btn) (fun fuel => handleMouseDouble env fuel btn s)) ∧
    (∀ t : System, mouseTarget t root =
      match t.m_captureWindow with
      | some c => c
      | none =>
        match t.m_containsMouse with
        | some c => c
        | none => root.id) := by
  have hp0 : Prelude (fun c => Call.isEventHandler c = false) s
      { s with m_activateTooltip := false } := Prelude.ofEqP rfl rfl rfl rfl rfl
  obtain ⟨hph, hth, _⟩ := hideTooltip_step (fun c => Call.isEventHandler c = false) env
    s.m_containsMouse { s with m_activateTooltip := false } (fun _ => rfl) (fun _ => rfl)
  have hth' : SameTarget s
      (hideTooltip env s.m_containsMouse { s with m_activateTooltip := false }) :=
    SameTarget.thenT ⟨rfl, rfl⟩ hth
  refine ⟨?_, ?_, ?_, ?_, ?_⟩
  · obtain ⟨s0, hp, hrun⟩ := handleMouseMove_sections (fun c => Call.isEventHandler c = false)
      env x y s root hE hroot (fun _ => rfl) (fun _ _ _ => rfl) (fun _ _ => rfl)
      (fun _ _ => rfl) (fun _ _ _ => rfl) (fun _ => rfl) (fun _ => rfl) (fun _ => rfl)
      (fun _ => rfl)
    refine ⟨s0, hp, ?_⟩
    intro chain fuel hc hf
    show handleMouseMove env fuel x y s = _
    rw [hrun fuel]
    exact bubble_chain _ _ _ chain _ fuel s0 hc hf
  · refine ⟨_, hp0.thenP hph, hth', ?_⟩
    intro chain fuel hc hf
    show handleMouseWheel env fuel diff s = _
    rw [handleMouseWheel_unfold env fuel diff s root hE hroot]
    exact bubble_chain _ _ _ chain _ fuel _ hc hf
  · obtain ⟨s0, hrun, hs0⟩ := handleMouseButton_unfold env 0 btn state s root hE hroot
    obtain ⟨hpf, htf, _⟩ := buttonFocusStep_step (fun c => Call.isEventHandler c = false) env
      (mouseTarget (hideTooltip env s.m_containsMouse { s with m_activateTooltip := false }) root)
      (hideTooltip env s.m_containsMouse { s with m_activateTooltip := false })
      (fun _ => rfl) (fun _ _ => rfl) (fun _ => rfl) (fun _ _ => rfl) (fun _ => rfl)
    obtain ⟨hpd, htd, _⟩ := buttonDragStep_step (fun c => Call.isEventHandler c = false) env root
      (mouseTarget (hideTooltip env s.m_containsMouse { s with m_activateTooltip := false }) root)
      btn state
      (buttonFocusStep env
        (mouseTarget (hideTooltip env s.m_containsMouse { s with m_activateTooltip := false })
          root)
        (hideTooltip env s.m_containsMouse { s with m_activateTooltip := false }))
    have hmenu : ∀ (tgt : Wid) (t : System),
        Prelude (fun c => Call.isEventHandler c = false) t
          (if tgt ≠ t.m_menuWindow then t.call (Call.menuReset t.m_menuWindow) else t) ∧
        SameTarget t
          (if tgt ≠ t.m_menuWindow then t.call (Call.menuReset t.m_menuWindow) else t) := by
      intro tgt t
      split_ifs
      · exact ⟨Prelude.callP t (Call.menuReset _) rfl rfl, rfl, rfl⟩
      · exact ⟨Prelude.reflP _ t, rfl, rfl⟩
    have hps0 : Prelude (fun c => Call.isEventHandler c = false) s s0 := by
      rw [hs0]
      exact ((((hp0.thenP hph).thenP hpf).thenP hpd).thenP
        (Prelude.riseP _ _ rfl)).thenP (hmenu _ _).1
    have hts0 : SameTarget s s0 := by
      rw [hs0]
      exact SameTarget.thenT (SameTarget.thenT (SameTarget.thenT (SameTarget.thenT hth' htf) htd)
        ⟨rfl, rfl⟩) (hmenu _ _).2
    refine ⟨s0, hps0, hts0, ?_⟩
    intro chain fuel hc hf
    show handleMouseButton env fuel btn state s = _
    obtain ⟨s0', hrun', hs0'⟩ := handleMouseButton_unfold env fuel btn state s root hE hroot
    rw [hrun', hs0', ← hs0]
    rw [mouseTarget_congr s s0 root hts0] at hc
    rw [mouseTarget_congr s _ root hth']
    exact bubble_chain _ _ _ chain _ fuel s0 hc hf
  · have hts0 : SameTarget s
        ((hideTooltip env s.m_containsMouse { s with m_activateTooltip := false }).rise
          (mouseTarget
            (hideTooltip env s.m_containsMouse { s with m_activateTooltip := false }) root)) :=
      SameTarget.thenT hth' ⟨rfl, rfl⟩
    refine ⟨_, (hp0.thenP hph).thenP (Prelude.riseP _ _ rfl), hts0, ?_⟩
    intro chain fuel hc hf
    show handleMouseDouble env fuel btn s = _
    rw [handleMouseDouble_unfold env fuel btn s root hE hroot]
    rw [mouseTarget_congr s _ root hts0] at hc
    rw [mouseTarget_congr s _ root hth']
    exact bubble_chain _ _ _ chain _ fuel _ hc hf
  · intro t
    unfold mouseTarget
    cases t.m_captureWindow <;> cases t.m_containsMouse <;> rfl

/-- The delivery loop only adds handler calls to the log. -/
theorem bubble_frame (getParent : Wid → Option Wid) (handler : Wid → Bool) (mk : Wid → Call) :
    ∀ (fuel : Nat) (t : Option Wid) (s : System) (r : Bool × System),
      bubble getParent handler mk fuel t s = some r → ∃ ws : List Wid, r.2 = s.calls (ws.map mk) := by
  intro fuel
  induction fuel with
  | zero =>
    intro t s r h
    cases t with
    | none =>
      simp only [bubble, Option.some.injEq] at h
      exact ⟨[], by rw [← h]; exact (System.callsNil s).symm⟩
    | some w => simp [bubble] at h
  | succ f ih =>
    intro t s r h
    cases t with
    | none =>
      simp only [bubble, Option.some.injEq] at h
      exact ⟨[], by rw [← h]; exact (System.callsNil s).symm⟩
    | some w =>
      rw [bubble] at h
      by_cases hh : handler w = true
      · simp only [hh, if_true, Option.some.injEq] at h
        exact ⟨[w], by rw [← h]; rfl⟩
      · simp only [hh, if_false] at h
        obtain ⟨ws, hws⟩ := ih _ _ _ h
        exact ⟨w :: ws, by rw [hws, System.callCalls]; rfl⟩

/-- What a mouse move does to an armed, unfired drag when the test fails: drag
state as before, no drag attempt among the calls. -/
theorem handleMouseMove_armed_below (env : Env) (s : System) (root : base_window) (dw : Wid)
    (x y : Int) (hE : s.m_exclusiveInputWindow = none) (hroot : s.m_rootWindow = some root)
    (hdrag : s.m_dragging = true) (hdw : s.m_dragWindow = some dw)
    (hnf : s.m_dragfired = false)
    (hbelow : sqrtExceeds (grabDistanceSq s x y) s.m_dragThreshold = false)
    (fuel : Nat) (r : Bool × System) (hr : handleMouseMove env fuel x y s = some r) :
    r.2.m_dragfired = false ∧ r.2.m_dragging = true ∧ r.2.m_dragWindow = some dw ∧
      ∀ c ∈ r.2.log.drop s.log.length, Call.isDragAttempt c = false := by
  rw [handleMouseMove_unfold env fuel x y s root hE hroot,
    moveDragStep_below env { s with m_cursor := ⟨castFloat x, castFloat y⟩ } dw hdw hdrag hnf hbelow] at hr
  dsimp only at hr
  obtain ⟨s0, hp, hd, hrun⟩ := moveDeliver_sections (fun c => Call.isDragAttempt c = false) env
    { ({ s with m_cursor := ⟨castFloat x, castFloat y⟩ } : System) with m_captureWindow := none }
    root root hroot (fun _ _ => rfl) (fun _ _ _ => rfl) (fun _ => rfl) (fun _ => rfl)
    (fun _ => rfl) (fun _ => rfl)
  rw [hrun fuel] at hr
  obtain ⟨ws, hws⟩ := bubble_frame _ _ _ _ _ _ _ hr
  obtain ⟨_, _, _, _, extra, hl, hP⟩ := hp
  rw [hws]
  refine ⟨hd.2.1.trans hnf, hd.1.trans hdrag, hd.2.2.trans hdw, ?_⟩
  intro c hc
  have hlog : (s0.calls (ws.map Call.onMouseMove)).log
      = s.log ++ (extra ++ ws.map Call.onMouseMove) := by
    show s0.log ++ _ = _
    rw [hl]
    exact List.append_assoc _ _ _
  rw [hlog, List.drop_left] at hc
  rcases List.mem_append.mp hc with hc | hc
  · exact hP c hc
  · simp only [List.mem_map] at hc
    obtain ⟨w, _, rfl⟩ := hc
    rfl

/-- What a mouse move does to an armed, unfired drag when the test succeeds:
`startDrag` is called on the drag source, first raising the drag container,
and the drag is fired exactly when the source is draggable and the container
accepts, else disarmed. -/
theorem handleMouseMove_armed_above (env : Env) (s : System) (root : base_window) (dw : Wid)
    (x y : Int) (hE : s.m_exclusiveInputWindow = none) (hroot : s.m_rootWindow = some root)
    (hdrag : s.m_dragging = true) (hdw : s.m_dragWindow = some dw)
    (hnf : s.m_dragfired = false)
    (habove : sqrtExceeds (grabDistanceSq s x y) s.m_dragThreshold = true)
    (fuel : Nat) (r : Bool × System) (hr : handleMouseMove env fuel x y s = some r) :
    (∃ rest, r.2.log = s.log ++ Call.rise s.m_dragContainer :: rest ∧
      (env.isDragable dw = true →
        Call.dragStart s.m_dragContainer dw
          ((env.transformToWndCoord dw s.m_dragOffset).sub (env.getPosition dw)) ∈ rest)) ∧
    r.2.m_dragfired = (env.isDragable dw &&
      env.dragStartDrag dw
        ((env.transformToWndCoord dw s.m_dragOffset).sub (env.getPosition dw))) ∧
    r.2.m_dragging = (env.isDragable dw &&
      env.dragStartDrag dw
        ((env.transformToWndCoord dw s.m_dragOffset).sub (env.getPosition dw))) := by
  have hoff : dragStartOffset env
      { ({ s with m_cursor := ⟨castFloat x, castFloat y⟩ } : System) with m_captureWindow := none }
      = (env.transformToWndCoord dw s.m_dragOffset).sub (env.getPosition dw) := by
    show (match s.m_dragWindow with
      | some dw => (env.transformToWndCoord dw s.m_dragOffset).sub (env.getPosition dw)
      | none => s.m_dragOffset) = _
    rw [hdw]
  rw [handleMouseMove_unfold env fuel x y s root hE hroot,
    moveDragStep_above env { s with m_cursor := ⟨castFloat x, castFloat y⟩ } dw hdw hdrag hnf habove]
    at hr
  obtain ⟨s1, hs1, hp1, _, hdg1, hdw1, _, hdf1, rest, hl1, hin1⟩ :=
    startDrag_step (fun _ => True) env
      ({ ({ s with m_cursor := ⟨castFloat x, castFloat y⟩ } : System) with
          m_captureWindow := none } : System).m_dragWindow dw hdw
      (dragStartOffset env
        { ({ s with m_cursor := ⟨castFloat x, castFloat y⟩ } : System) with m_captureWindow := none })
      { ({ s with m_cursor := ⟨castFloat x, castFloat y⟩ } : System) with m_captureWindow := none }
      root hroot (fun _ => trivial) (fun _ _ _ => trivial) (fun _ _ => trivial)
      (fun _ _ => trivial) (fun _ _ _ => trivial)
  rw [hs1, hoff] at hr
  dsimp only at hr
  rw [hoff] at hdf1 hin1
  obtain ⟨root1, hr1, _⟩ := hp1.rootP root hroot
  -- the state the rest of the handler starts from
  have key : ∀ sm : System, sm.m_rootWindow = some root1 → sm.log = s1.log →
      sm.m_dragfired = s1.m_dragfired →
      moveDeliver env fuel root sm = some r →
      (∃ rest', r.2.log = s.log ++ Call.rise s.m_dragContainer :: rest' ∧
        (env.isDragable dw = true →
          Call.dragStart s.m_dragContainer dw
            ((env.transformToWndCoord dw s.m_dragOffset).sub (env.getPosition dw)) ∈ rest')) ∧
      r.2.m_dragfired = s1.m_dragfired ∧ r.2.m_dragging = sm.m_dragging := by
    intro sm hrm hlm hfm hrun
    obtain ⟨s0, hp, hd, hrun0⟩ := moveDeliver_sections (fun _ => True) env sm root root1 hrm
      (fun _ _ => trivial) (fun _ _ _ => trivial) (fun _ => trivial) (fun _ => trivial)
      (fun _ => trivial) (fun _ => trivial)
    rw [hrun0 fuel] at hrun
    obtain ⟨ws, hws⟩ := bubble_frame _ _ _ _ _ _ _ hrun
    obtain ⟨_, _, _, _, extra, hl, _⟩ := hp
    rw [hws]
    refine ⟨⟨rest ++ (extra ++ ws.map Call.onMouseMove), ?_, fun h =>
      List.mem_append_left _ (hin1 h)⟩, hd.2.1.trans hfm, hd.1⟩
    show s0.log ++ _ = _
    rw [hl, hlm, hl1]
    simp
  by_cases hb : (env.isDragable dw &&
      env.dragStartDrag dw
        ((env.transformToWndCoord dw s.m_dragOffset).sub (env.getPosition dw))) = true
  · rw [hb] at hr hdf1 ⊢
    simp only [Bool.not_true, Bool.false_eq_true, if_false] at hr
    obtain ⟨h1, h2, h3⟩ := key s1 hr1 rfl rfl hr
    refine ⟨h1, ?_, ?_⟩
    · rw [h2, hdf1]; rfl
    · rw [h3, hdg1]; exact hdrag
  · have hb' := Bool.eq_false_iff.mpr hb
    rw [hb'] at hr hdf1 ⊢
    simp only [Bool.not_false, if_true] at hr
    obtain ⟨h1, h2, h3⟩ := key { s1 with m_dragging := false, m_dragWindow := none } hr1 rfl rfl hr
    refine ⟨h1, ?_, h3⟩
    rw [h2, hdf1]
    simpa using hnf

theorem mouse_events_bubble_witness :
    System.hovering.m_exclusiveInputWindow = none ∧
    System.hovering.m_rootWindow = some (.mk 0 [.mk 1 [], .mk 2 [], .mk 3 []]) ∧
    ∃ s0, Prelude (fun c => Call.isEventHandler c = false) System.hovering s0 ∧
      SameTarget System.hovering s0 ∧
      Bubbled Env.nested (.mk 0 [.mk 1 [], .mk 2 [], .mk 3 []]) s0
        (fun w => Env.nested.onMouseWheel w 1) (fun w => Call.onMouseWheel w 1)
        (fun fuel => handleMouseWheel Env.nested fuel 1 System.hovering) :=
  ⟨rfl, rfl,
    (mouse_events_bubble Env.nested System.hovering (.mk 0 [.mk 1 [], .mk 2 [], .mk 3 []])
      rfl rfl 0 0 1 MouseButtons.Left ButtonState.Down).2.1⟩

/-- Bubbling at work: the wheel event is offered to widget 5 under the mouse, then
to its parent 4, which handles it; the root is not called. -/
theorem wheel_bubble_example :
    (handleMouseWheel Env.nested 3 1 System.hovering).map (fun r => (r.1, r.2.log))
      = some (true, [Call.tooltipReset 2, Call.onMouseWheel 5 1, Call.onMouseWheel 4 1]) := by
  simp [handleMouseWheel, hideTooltip, mouseTarget, bubble, System.call, System.hovering,
    System.afterReset, Env.nested, Env.quiet, base_window.id]

/-- When no widget of a level contains the point, the search returns null after
examining the whole level, topmost first. -/
theorem GetTargetWindow_no_hit (hitTest : Wid → point → Bool) (pt : point)
    (list : List base_window) (h : ∀ c ∈ list, hitTest c.id pt = false) :
    GetTargetWindow hitTest pt list = (none, list.reverse.map base_window.id) := by
  have hf : list.reverse.find? (fun c => hitTest c.id pt) = none := by
    apply List.find?_eq_none.mpr
    intro c hc
    simp [h c (List.mem_reverse.mp hc)]
  rw [GetTargetWindow_eq_resolve hitTest pt _ list (Nat.lt_succ_self _),
    resolveTarget_none _ _ _ hf, resolveExamined_none _ _ _ hf]

/-- C11. `stopDrag()` returns false and leaves the whole state as it is while
`m_dragfreeze` is set; not frozen and with no drag fired it returns true,
makes no call, and clears the drag source and the dragging flag; not frozen
and with a drag fired it calls the drag container's `stopDrag` exactly once
and returns that call's result, clearing `m_dragfired`, `m_dragging` and the
drag source when the container reports the drag stopped and leaving all
three as they were when it does not. -/
theorem stopDrag_contract (env : Env) (s : System) :
    (s.m_dragfreeze = true → stopDrag env s = (false, s)) ∧
    (s.m_dragfreeze = false → s.m_dragfired = false →
      (stopDrag env s).1 = true ∧ (stopDrag env s).2.log = s.log ∧
      (stopDrag env s).2.m_dragWindow = none ∧ (stopDrag env s).2.m_dragging = false ∧
      (stopDrag env s).2.m_dragfired = false) ∧
    (s.m_dragfreeze = false → s.m_dragfired = true →
      (stopDrag env s).1 = env.dragStopDrag ∧
      (stopDrag env s).2.log = s.log ++ [Call.dragStop s.m_dragContainer] ∧
      (env.dragStopDrag = true →
        (stopDrag env s).2.m_dragfired = false ∧ (stopDrag env s).2.m_dragging = false ∧
        (stopDrag env s).2.m_dragWindow = none) ∧
      (env.dragStopDrag = false →
        (stopDrag env s).2.m_dragfired = true ∧
        (stopDrag env s).2.m_dragging = s.m_dragging ∧
        (stopDrag env s).2.m_dragWindow = s.m_dragWindow)) := by
  refine ⟨fun hf => by simp [stopDrag, hf], fun hf hd => by simp [stopDrag, hf, hd], ?_⟩
  intro hf hd
  cases hs : env.dragStopDrag <;> simp [stopDrag, hf, hd, hs, System.call]

/-- The three cases of `stopDrag` on a fired drag of widget 5: frozen, the
container refuses to stop, the container stops. -/
theorem stopDrag_example :
    (stopDrag Env.quiet { System.armed with m_dragfired := true, m_dragfreeze := true }).1
      = false ∧
    ((stopDrag { Env.quiet with dragStopDrag := false }
        { System.armed with m_dragfired := true }).1,
     (stopDrag { Env.quiet with dragStopDrag := false }
        { System.armed with m_dragfired := true }).2.m_dragWindow)
      = (false, some 5) ∧
    ((stopDrag Env.quiet { System.armed with m_dragfired := true }).1,
     (stopDrag Env.quiet { System.armed with m_dragfired := true }).2.m_dragWindow,
     (stopDrag Env.quiet { System.armed with m_dragfired := true }).2.log)
      = (true, none, [Call.dragStop 1]) := by
  simp [stopDrag, System.call, System.armed, System.afterReset, Env.quiet]

/-- C14 fails on the code: with widget 5 holding focus and no exclusive widget,
the control code 10 calls no widget but is reported as handled. -/
theorem handleChar_control_counterexample :
    ((handleChar Env.quiet 10 System.focused).1, (handleChar Env.quiet 10 System.focused).2.log)
      = (true, []) := by
  simp [handleChar, System.focused, System.afterReset]

/-- C14, amended. Outside exclusive-input mode `handleChar(code)` calls no widget
for a control code (`code <= 31`) and returns true when a focus holder exists,
false when none does; for `code > 31` it calls the focus holder's `onChar` and
returns its result when a focus holder exists, and returns false without
calling anything otherwise. -/
theorem handleChar_amended (env : Env) (code : Nat) (s : System)
    (hE : s.m_exclusiveInputWindow = none) :
    (code ≤ 31 → handleChar env code s = (s.m_focusWindow.isSome, s)) ∧
    (31 < code →
      handleChar env code s =
        match s.m_focusWindow with
        | some f => (env.onChar f code, s.call (Call.onChar f code))
        | none => (false, s)) := by
  unfold handleChar
  rw [hE]
  constructor
  · intro hc
    cases s.m_focusWindow <;> simp [hc]
  · intro hc
    have : ¬ code ≤ 31 := by omega
    cases s.m_focusWindow <;> simp [this]

theorem handleChar_amended_witness :
    System.focused.m_exclusiveInputWindow = none ∧
    ((10 : Nat) ≤ 31 →
      handleChar Env.quiet 10 System.focused = (System.focused.m_focusWindow.isSome,
        System.focused)) :=
  ⟨rfl, (handleChar_amended Env.quiet 10 System.focused rfl).1⟩

/-- C19 on the code: in the state `reset()` builds, with no widget containing the
point (5, 5), the hit resolver finds nothing, and `isMouseInGui(5, 5)` returns
true: the null result is compared with the root and differs from it. -/
theorem isMouseInGui_true_on_empty_background :
    (GetTargetWindow Env.quiet.hitTest ⟨5, 5⟩
        [base_window.mk 1 [], base_window.mk 2 [], base_window.mk 3 []]).1 = none ∧
    System.afterReset.m_exclusiveInputWindow = none ∧
    isMouseInGuiAt Env.quiet 5 5 System.afterReset = true := by
  have hG : GetTargetWindow Env.quiet.hitTest ⟨5, 5⟩
      [base_window.mk 1 [], base_window.mk 2 [], base_window.mk 3 []] = (none, [3, 2, 1]) := by
    rw [GetTargetWindow_no_hit _ _ _ (fun _ _ => rfl)]
    rfl
  refine ⟨by rw [hG], rfl, ?_⟩
  simp [isMouseInGuiAt, System.afterReset, base_window.getChildren, hG]

/-- With a root present and no exclusive widget, `isMouseInGui(x, y)` is true
whenever the hit resolver finds nothing. -/
theorem isMouseInGuiAt_null_hit (env : Env) (x y : ℚ) (s : System) (root : base_window)
    (hE : s.m_exclusiveInputWindow = none) (hroot : s.m_rootWindow = some root)
    (hnone : (GetTargetWindow env.hitTest ⟨x, y⟩ root.getChildren).1 = none) :
    isMouseInGuiAt env x y s = true := by
  unfold isMouseInGuiAt
  rw [hE, hroot]
  simp [hnone]

/-- C20 on the code: widget 1 subscribes widget 9 from its first `onTick`; the
`tick` leaves 9 in the pending buffer; `unsubscribeTick(9)`, called while no
tick is in progress, changes nothing, 9 being absent from the active list;
the next `tick` appends 9 from the buffer, and the one after calls
`onTick` on widget 9, `subscribeTick(9)` not having been called again. -/
theorem unsubscribeTick_leaves_pending_buffer :
    (tick Env.onceSubscriber 1 System.oneTicked).map
        (fun s => (s.m_inTick, (unsubscribeTick (some 9) s).registryView))
      = some (false, [some 1], [9], [Call.onTick 1 1 true]) ∧
    ((((tick Env.onceSubscriber 1 System.oneTicked).map (unsubscribeTick (some 9))).bind
        (tick Env.onceSubscriber 1)).bind (tick Env.onceSubscriber 1)).map System.registryView
      = some ([some 1, some 9], [],
          [Call.onTick 1 1 true, Call.onTick 1 1 true, Call.onTick 1 1 true,
           Call.onTick 9 1 true]) := by
  simp [tick, tickLoop, callOnTick, runTickAct, subscribeTick, unsubscribeTick, tickSweep,
    tickAppend, tickTooltip, tickTooltipShow, tickTooltipExpire, System.call,
    System.registryView, System.oneTicked, System.afterReset, Env.onceSubscriber, Env.quiet]

/-- C13 on the code, hover delay 2 and lifetime cap 3, ticks of one second: the
tooltip is shown in tick 2 and hidden in tick 4, two seconds after the tick
that showed it, because the delta of the showing tick is counted towards the
lifetime as well; and with lifetime cap 3/2 a single tick of two seconds shows
and hides the tooltip in the same tick. -/
theorem tooltip_lifetime_counts_show_tick :
    (ticksAfter Env.tooltipped [1, 1] System.tooltipArmed).map
        (fun s => (s.tooltipVisible, s.m_tttime, s.log))
      = some (true, 1, [Call.onTooltipShow 5, Call.tooltipShow 2]) ∧
    (ticksAfter Env.tooltipped [1, 1, 1] System.tooltipArmed).map
        (fun s => (s.tooltipVisible, s.m_tttime, s.log))
      = some (true, 2, [Call.onTooltipShow 5, Call.tooltipShow 2]) ∧
    (ticksAfter Env.tooltipped [1, 1, 1, 1] System.tooltipArmed).map
        (fun s => (s.tooltipVisible, s.log))
      = some (false, [Call.onTooltipShow 5, Call.tooltipShow 2,
          Call.onTooltipHide 5, Call.tooltipReset 2]) ∧
    (ticksAfter Env.tooltipped [2] { System.tooltipArmed with m_ttlifetime := 3 / 2 }).map
        (fun s => (s.tooltipVisible, s.log))
      = some (false, [Call.onTooltipShow 5, Call.tooltipShow 2,
          Call.onTooltipHide 5, Call.tooltipReset 2]) := by
  have h01 : fadd 0 1 = 1 := by simpa using fadd_intCast 0 1 (by norm_num)
  have h11 : fadd 1 1 = 2 := by simpa using fadd_intCast 1 1 (by norm_num)
  have h21 : fadd 2 1 = 3 := by simpa using fadd_intCast 2 1 (by norm_num)
  have h02 : fadd 0 2 = 2 := by simpa using fadd_intCast 0 2 (by norm_num)
  refine ⟨?_, ?_, ?_, ?_⟩ <;>
    norm_num [ticksAfter, tick, tickLoop, tickSweep, tickAppend, tickTooltip, tickTooltipShow,
      tickTooltipExpire, showTooltip, hideTooltip, System.call, System.tooltipArmed,
      System.afterReset, Env.tooltipped, Env.quiet, h01, h11, h21, h02]

theorem tooltipSame_of_registryOnly {s s1 : System} (h : RegistryOnly s s1) :
    TooltipSame s s1 := by
  obtain ⟨_, _, _, _, _, hf⟩ := h
  rw [hf]
  exact ⟨rfl, rfl, rfl, rfl, rfl, rfl, rfl⟩

theorem tickSweep_tooltipSame (s s2 : System) (h : tickSweep s = some s2) :
    TooltipSame s s2 := by
  unfold tickSweep at h
  split_ifs at h
  · cases h
    exact ⟨rfl, rfl, rfl, rfl, rfl, rfl, rfl⟩
  · cases h
    exact ⟨rfl, rfl, rfl, rfl, rfl, rfl, rfl⟩

theorem tickAppend_tooltipSame (k : Nat) (s s3 : System) (h : tickAppend k s = some s3) :
    TooltipSame s s3 := by
  unfold tickAppend at h
  split_ifs at h
  · cases h
    exact ⟨rfl, rfl, rfl, rfl, rfl, rfl, rfl⟩
  · cases h
    exact ⟨rfl, rfl, rfl, rfl, rfl, rfl, rfl⟩

/-- A `tick` that returns: the tooltip section runs on a state whose tooltip
members are those on entry and whose log holds the `onTick` calls. -/
theorem tick_tooltip_stage (env : Env) (delta : ℚ) (s s' : System)
    (h : tick env delta s = some s') :
    ∃ s3, TooltipSame s s3 ∧ s3.log = s.log ++ tickCalls delta s.m_tickedWnd ∧
      s' = { tickTooltip env delta s3 with m_inTick := false } := by
  obtain ⟨hreg, hlog⟩ := tickLoop_spec env delta s.m_tickedWnd { s with m_inTick := true } rfl
  obtain ⟨s2, s3, h2, h3, hs'⟩ := tick_stages env delta s s' h
  have t1 := tooltipSame_of_registryOnly hreg
  have t2 := tickSweep_tooltipSame _ _ h2
  have t3 := tickAppend_tooltipSame _ _ _ h3
  refine ⟨s3, ?_, ?_, hs'⟩
  · exact ⟨(t3.1.trans t2.1).trans t1.1, (t3.2.1.trans t2.2.1).trans t1.2.1,
      (t3.2.2.1.trans t2.2.2.1).trans t1.2.2.1,
      (t3.2.2.2.1.trans t2.2.2.2.1).trans t1.2.2.2.1,
      (t3.2.2.2.2.1.trans t2.2.2.2.2.1).trans t1.2.2.2.2.1,
      (t3.2.2.2.2.2.1.trans t2.2.2.2.2.2.1).trans t1.2.2.2.2.2.1,
      (t3.2.2.2.2.2.2.trans t2.2.2.2.2.2.2).trans t1.2.2.2.2.2.2⟩
  · rw [(tickAppend_spec _ _ _ h3).1, (tickSweep_spec _ _ h2).1, hlog]

theorem showTooltip_eq (env : Env) (wnd : Option Wid) (s : System) :
    showTooltip env wnd s
      = { s with tooltipVisible := true,
                 log := s.log ++ showCalls env wnd s.m_tooltipWindow } := by
  unfold showTooltip showCalls
  cases wnd with
  | none => simp [System.call]
  | some w => by_cases hw : env.hasTooltip w = true <;> simp [System.call, hw]

theorem hideTooltip_eq (env : Env) (wnd : Option Wid) (s : System) :
    hideTooltip env wnd s
      = { s with tooltipVisible := false,
                 log := s.log ++ hideCalls env wnd s.m_tooltipWindow } := by
  unfold hideTooltip hideCalls
  cases wnd with
  | none => simp [System.call]
  | some w => by_cases hw : env.hasTooltip w = true <;> simp [System.call, hw]

theorem showCalls_has_show (env : Env) (wnd : Option Wid) (tooltip : Wid) :
    ∃ c ∈ showCalls env wnd tooltip, Call.isTooltipShow c = true :=
  ⟨Call.tooltipShow tooltip, by simp [showCalls], rfl⟩

theorem hideCalls_no_show (env : Env) (wnd : Option Wid) (tooltip : Wid) :
    ∀ c ∈ hideCalls env wnd tooltip, Call.isTooltipShow c = false := by
  intro c hc
  unfold hideCalls at hc
  cases wnd with
  | none =>
    simp only [List.nil_append, List.mem_singleton] at hc
    rw [hc]; rfl
  | some w =>
    by_cases hw : env.hasTooltip w = true
    · simp only [hw, if_true, List.singleton_append, List.mem_cons, List.mem_singleton,
        List.not_mem_nil, or_false] at hc
      rcases hc with rfl | rfl <;> rfl
    · have hw2 : env.hasTooltip w = false := by simpa using hw
      dsimp only at hc
      rw [hw2] at hc
      simp only [Bool.false_eq_true, if_false, List.nil_append, List.mem_singleton] at hc
      rw [hc]; rfl

/-- The second tooltip block of `tick` never arms, disarms or shows. -/
theorem tickTooltipExpire_facts (env : Env) (delta : ℚ) (t : System) :
    (tickTooltipExpire env delta t).m_activateTooltip = t.m_activateTooltip ∧
    (tickTooltipExpire env delta t).m_ttdelay = t.m_ttdelay ∧
    (tickTooltipExpire env delta t).m_ttlifetime = t.m_ttlifetime ∧
    ∃ extra, (tickTooltipExpire env delta t).log = t.log ++ extra ∧
      ∀ c ∈ extra, Call.isTooltipShow c = false := by
  unfold tickTooltipExpire
  dsimp only
  split_ifs
  · rw [hideTooltip_eq]
    exact ⟨rfl, rfl, rfl, _, rfl, hideCalls_no_show _ _ _⟩
  · exact ⟨rfl, rfl, rfl, [], by simp, by simp⟩
  · exact ⟨rfl, rfl, rfl, [], by simp, by simp⟩

/-- The second tooltip block of `tick` does nothing while the tooltip is hidden
or the lifetime cap is at most 1. -/
theorem tickTooltipExpire_idle (env : Env) (delta : ℚ) (t : System)
    (h : t.tooltipVisible = false ∨ t.m_ttlifetime ≤ 1) :
    tickTooltipExpire env delta t = t := by
  unfold tickTooltipExpire
  have : ¬ (t.tooltipVisible = true ∧ t.m_ttlifetime > 1) := by
    rintro ⟨hv, hl⟩
    rcases h with h | h
    · rw [h] at hv; cases hv
    · exact absurd hl (not_lt.mpr h)
  rw [if_neg this]

/-- The tooltip section of one `tick`, by cases: armed and the delay reached,
armed and not reached, not armed. -/
theorem tickTooltip_cases (env : Env) (delta : ℚ) (s : System) :
    (s.m_activateTooltip = true → s.m_ttdelay ≤ fadd s.m_tttime delta →
      (∃ c ∈ (tickTooltip env delta s).log.drop s.log.length, Call.isTooltipShow c = true) ∧
      (tickTooltip env delta s).m_activateTooltip = false) ∧
    (s.m_activateTooltip = true → fadd s.m_tttime delta < s.m_ttdelay →
      (s.tooltipVisible = false ∨ s.m_ttlifetime ≤ 1) →
      tickTooltip env delta s = { s with m_tttime := fadd s.m_tttime delta }) ∧
    (s.m_activateTooltip = false →
      (∀ c ∈ (tickTooltip env delta s).log.drop s.log.length, Call.isTooltipShow c = false) ∧
      (tickTooltip env delta s).m_activateTooltip = false) := by
  refine ⟨?_, ?_, ?_⟩
  · intro ha hd
    have hshow : tickTooltipShow env delta s
        = showTooltip env s.m_containsMouse
            { s with m_tttime := 0, m_activateTooltip := false } := by
      unfold tickTooltipShow
      rw [if_pos ha]
      dsimp only
      rw [if_pos (show fadd s.m_tttime delta ≥ s.m_ttdelay from hd)]
    obtain ⟨h1, _, _, extra, hl, _⟩ := tickTooltipExpire_facts env delta (tickTooltipShow env delta s)
    unfold tickTooltip
    refine ⟨?_, ?_⟩
    · obtain ⟨c, hc, hcs⟩ := showCalls_has_show env s.m_containsMouse s.m_tooltipWindow
      refine ⟨c, ?_, hcs⟩
      rw [hl, hshow, showTooltip_eq]
      show c ∈ List.drop s.log.length ((s.log ++ _) ++ extra)
      rw [List.append_assoc, List.drop_left]
      exact List.mem_append_left _ hc
    · rw [h1, hshow, showTooltip_eq]
  · intro ha hd hv
    have hshow : tickTooltipShow env delta s = { s with m_tttime := fadd s.m_tttime delta } := by
      unfold tickTooltipShow
      rw [if_pos ha]
      dsimp only
      rw [if_neg (show ¬ (fadd s.m_tttime delta ≥ s.m_ttdelay) from not_le.mpr hd)]
    unfold tickTooltip
    rw [hshow]
    exact tickTooltipExpire_idle env delta _ hv
  · intro ha
    have hshow : tickTooltipShow env delta s = s := by
      unfold tickTooltipShow
      rw [if_neg (by rw [ha]; simp)]
    obtain ⟨h1, _, _, extra, hl, hno⟩ := tickTooltipExpire_facts env delta s
    unfold tickTooltip
    rw [hshow]
    refine ⟨?_, h1.trans ha⟩
    intro c hc
    rw [hl, List.drop_left] at hc
    exact hno c hc

theorem tickCalls_no_show (delta : ℚ) (l : List (Option Wid)) :
    ∀ c ∈ tickCalls delta l, Call.isTooltipShow c = false := by
  intro c hc
  unfold tickCalls at hc
  rw [List.mem_filterMap] at hc
  obtain ⟨e, _, he⟩ := hc
  cases e with
  | none => cases he
  | some w =>
    simp only [Option.map_some', Option.some.injEq] at he
    rw [← he]; rfl

/-- One `tick` that returns, by cases on the tooltip timer: armed and the delay
reached in this tick, armed and not reached, not armed. -/
theorem tick_tooltip_cases (env : Env) (delta : ℚ) (s s' : System)
    (h : tick env delta s = some s') :
    (s.m_activateTooltip = true → s.m_ttdelay ≤ fadd s.m_tttime delta →
      (∃ c ∈ s'.log.drop s.log.length, Call.isTooltipShow c = true) ∧
      s'.m_activateTooltip = false) ∧
    (s.m_activateTooltip = true → fadd s.m_tttime delta < s.m_ttdelay →
      (s.tooltipVisible = false ∨ s.m_ttlifetime ≤ 1) →
      s'.m_activateTooltip = true ∧ s'.m_tttime = fadd s.m_tttime delta ∧
      s'.m_ttdelay = s.m_ttdelay ∧ (s'.tooltipVisible = false ∨ s'.m_ttlifetime ≤ 1) ∧
      ∀ c ∈ s'.log.drop s.log.length, Call.isTooltipShow c = false) ∧
    (s.m_activateTooltip = false →
      (∀ c ∈ s'.log.drop s.log.length, Call.isTooltipShow c = false) ∧
      s'.m_activateTooltip = false) := by
  obtain ⟨s3, hT, hlog3, rfl⟩ := tick_tooltip_stage env delta s s' h
  obtain ⟨ha3, ht3, hd3, hl3, hv3, _, _⟩ := hT
  obtain ⟨_, _, _, _, _, extra, hextra, _⟩ := tickTooltip_sameRegistry env delta s3
  obtain ⟨cA, cB, cC⟩ := tickTooltip_cases env delta s3
  have hdrop3 : (tickTooltip env delta s3).log.drop s3.log.length = extra := by
    rw [hextra, List.drop_left]
  have hdrop : (tickTooltip env delta s3).log.drop s.log.length
      = tickCalls delta s.m_tickedWnd ++ extra := by
    rw [hextra, hlog3, List.append_assoc, List.drop_left]
  have hnone : (∀ c ∈ extra, Call.isTooltipShow c = false) →
      ∀ c ∈ tickCalls delta s.m_tickedWnd ++ extra, Call.isTooltipShow c = false := by
    intro hx c hc
    rcases List.mem_append.mp hc with hc | hc
    · exact tickCalls_no_show _ _ c hc
    · exact hx c hc
  refine ⟨?_, ?_, ?_⟩
  · intro ha hd
    obtain ⟨⟨c, hc, hcs⟩, hoff⟩ := cA (ha3.trans ha) (by rw [hd3, ht3]; exact hd)
    refine ⟨⟨c, ?_, hcs⟩, hoff⟩
    show c ∈ (tickTooltip env delta s3).log.drop s.log.length
    rw [hdrop]
    rw [hdrop3] at hc
    exact List.mem_append_right _ hc
  · intro ha hd hv
    have heq := cB (ha3.trans ha) (by rw [hd3, ht3]; exact hd) (by rw [hv3, hl3]; exact hv)
    have hex : extra = [] := by
      rw [← hdrop3, heq]
      exact List.drop_length _
    refine ⟨?_, ?_, ?_, ?_, ?_⟩
    · show (tickTooltip env delta s3).m_activateTooltip = true
      rw [heq]; exact ha3.trans ha
    · show (tickTooltip env delta s3).m_tttime = fadd s.m_tttime delta
      rw [heq]; show fadd s3.m_tttime delta = _; rw [ht3]
    · show (tickTooltip env delta s3).m_ttdelay = s.m_ttdelay
      rw [heq]; exact hd3
    · show (tickTooltip env delta s3).tooltipVisible = false
          ∨ (tickTooltip env delta s3).m_ttlifetime ≤ 1
      rw [heq]; show s3.tooltipVisible = false ∨ s3.m_ttlifetime ≤ 1
      rw [hv3, hl3]; exact hv
    · show ∀ c ∈ (tickTooltip env delta s3).log.drop s.log.length, _
      rw [hdrop]
      exact hnone (by rw [hex]; simp)
  · intro ha
    obtain ⟨hno, hoff⟩ := cC (ha3.trans ha)
    refine ⟨?_, hoff⟩
    show ∀ c ∈ (tickTooltip env delta s3).log.drop s.log.length, _
    rw [hdrop]
    rw [hdrop3] at hno
    exact hnone hno

theorem ticksAfter_take_succ (env : Env) (d : ℚ) (rest : List ℚ) (n : Nat) (s : System) :
    ticksAfter env ((d :: rest).take (n + 1)) s
      = match tick env d s with
        | none => none
        | some s1 => ticksAfter env (rest.take n) s1 := rfl

/-- While the timer is not armed, no tick of a run shows the tooltip. -/
theorem ticksAfter_unarmed (env : Env) : ∀ (ds : List ℚ) (s : System),
    s.m_activateTooltip = false → ∀ (k : Nat) (sk1 sk : System), 1 ≤ k → k ≤ ds.length →
    ticksAfter env (ds.take (k - 1)) s = some sk1 →
    ticksAfter env (ds.take k) s = some sk →
    ∀ c ∈ sk.log.drop sk1.log.length, Call.isTooltipShow c = false := by
  intro ds
  induction ds with
  | nil => intro s _ k _ _ h1 hk; simp at hk; omega
  | cons d rest ih =>
    intro s ha k sk1 sk h1 hk e1 e2
    obtain ⟨k', rfl⟩ : ∃ k', k = k' + 1 := ⟨k - 1, by omega⟩
    rw [ticksAfter_take_succ] at e2
    cases ht : tick env d s with
    | none => rw [ht] at e2; cases e2
    | some s1 =>
      rw [ht] at e2
      obtain ⟨_, _, cC⟩ := tick_tooltip_cases env d s s1 ht
      obtain ⟨hno, hoff⟩ := cC ha
      cases k' with
      | zero =>
        simp only [Nat.add_sub_cancel, List.take_zero, ticksAfter, Option.some.injEq] at e1 e2
        subst e1; subst e2
        exact hno
      | succ k'' =>
        rw [Nat.add_sub_cancel, ticksAfter_take_succ, ht] at e1
        exact ih s1 hoff (k'' + 1) sk1 sk (by omega)
          (by simp only [List.length_cons] at hk; omega)
          (by rw [Nat.add_sub_cancel]; exact e1) e2

/-- While the timer is armed and the tooltip hidden (or never auto-hidden), the
tooltip is shown in tick `k` of a run exactly when the accumulated `float` timer
first reaches the delay in that tick. -/
theorem ticksAfter_armed (env : Env) : ∀ (ds : List ℚ) (s : System),
    s.m_activateTooltip = true → (s.tooltipVisible = false ∨ s.m_ttlifetime ≤ 1) →
    ∀ (k : Nat) (sk1 sk : System), 1 ≤ k → k ≤ ds.length →
    ticksAfter env (ds.take (k - 1)) s = some sk1 →
    ticksAfter env (ds.take k) s = some sk →
    ((∃ c ∈ sk.log.drop sk1.log.length, Call.isTooltipShow c = true) ↔
      (s.m_ttdelay ≤ timerAfter s.m_tttime (ds.take k) ∧
        ∀ j, 1 ≤ j → j < k → timerAfter s.m_tttime (ds.take j) < s.m_ttdelay)) := by
  intro ds
  induction ds with
  | nil => intro s _ _ k _ _ h1 hk; simp at hk; omega
  | cons d rest ih =>
    intro s ha hv k sk1 sk h1 hk e1 e2
    obtain ⟨k', rfl⟩ : ∃ k', k = k' + 1 := ⟨k - 1, by omega⟩
    rw [ticksAfter_take_succ] at e2
    cases ht : tick env d s with
    | none => rw [ht] at e2; cases e2
    | some s1 =>
      rw [ht] at e2
      obtain ⟨cA, cB, _⟩ := tick_tooltip_cases env d s s1 ht
      have hone : timerAfter s.m_tttime ((d :: rest).take 1) = fadd s.m_tttime d := rfl
      have hsucc : ∀ j, timerAfter s.m_tttime ((d :: rest).take (j + 1))
          = timerAfter (fadd s.m_tttime d) (rest.take j) := fun _ => rfl
      by_cases hd : s.m_ttdelay ≤ fadd s.m_tttime d
      · obtain ⟨hex, hoff⟩ := cA ha hd
        cases k' with
        | zero =>
          simp only [Nat.add_sub_cancel, List.take_zero, ticksAfter, Option.some.injEq] at e1 e2
          subst e1; subst e2
          constructor
          · intro _
            refine ⟨by rw [Nat.zero_add, hone]; exact hd, ?_⟩
            intro j hj1 hj2; omega
          · intro _; exact hex
        | succ k'' =>
          rw [Nat.add_sub_cancel, ticksAfter_take_succ, ht] at e1
          have hno := ticksAfter_unarmed env rest s1 hoff (k'' + 1) sk1 sk (by omega)
            (by simp only [List.length_cons] at hk; omega)
            (by rw [Nat.add_sub_cancel]; exact e1) e2
          constructor
          · rintro ⟨c, hc, hcs⟩
            rw [hno c hc] at hcs; cases hcs
          · rintro ⟨_, hj⟩
            have h1 := hj 1 le_rfl (by omega)
            rw [hone] at h1
            exact absurd hd (not_le.mpr h1)
      · have hlt : fadd s.m_tttime d < s.m_ttdelay := not_le.mp hd
        obtain ⟨ha1, ht1, hd1, hv1, hno⟩ := cB ha hlt hv
        cases k' with
        | zero =>
          simp only [Nat.add_sub_cancel, List.take_zero, ticksAfter, Option.some.injEq] at e1 e2
          subst e1; subst e2
          constructor
          · rintro ⟨c, hc, hcs⟩
            rw [hno c hc] at hcs; cases hcs
          · rintro ⟨h1, _⟩
            rw [Nat.zero_add, hone] at h1
            exact absurd h1 hd
        | succ k'' =>
          rw [Nat.add_sub_cancel, ticksAfter_take_succ, ht] at e1
          have IH := ih s1 ha1 hv1 (k'' + 1) sk1 sk (by omega)
            (by simp only [List.length_cons] at hk; omega)
            (by rw [Nat.add_sub_cancel]; exact e1) e2
          rw [IH, hd1, ht1, hsucc (k'' + 1)]
          constructor
          · rintro ⟨h1, h2⟩
            refine ⟨h1, ?_⟩
            intro j hj1 hj2
            obtain ⟨j', rfl⟩ : ∃ j', j = j' + 1 := ⟨j - 1, by omega⟩
            cases j' with
            | zero => rw [Nat.zero_add, hone]; exact hlt
            | succ j'' =>
              rw [hsucc (j'' + 1)]
              exact h2 (j'' + 1) (by omega) (by omega)
          · rintro ⟨h1, h2⟩
            refine ⟨h1, fun j hj1 hj2 => ?_⟩
            have h3 := h2 (j + 1) (by omega) (by omega)
            rw [hsucc j] at h3
            exact h3

theorem tickLoop_quiet (env : Env) (hq : ∀ w d t, env.onTick w d t = []) (delta : ℚ) :
    ∀ (l : List (Option Wid)) (s : System),
      (tickLoop env delta l s).m_subscribeTickWnd = s.m_subscribeTickWnd := by
  intro l
  induction l with
  | nil => intro s; rfl
  | cons e rest ih =>
    intro s
    cases e with
    | none => exact ih s
    | some w =>
      show (tickLoop env delta rest (callOnTick env delta w s)).m_subscribeTickWnd = _
      rw [ih]
      unfold callOnTick
      rw [hq]
      rfl

/-- With widgets whose `onTick` leaves the registry alone, no null entry and an
empty pending buffer, `tick` returns and these three hold again afterwards. -/
theorem tick_quiet (env : Env) (hq : ∀ w d t, env.onTick w d t = []) (delta : ℚ)
    (s : System) (hall : s.m_tickedWnd.all Option.isSome = true)
    (hbuf : s.m_subscribeTickWnd = []) :
    ∃ s', tick env delta s = some s' ∧ s'.m_tickedWnd.all Option.isSome = true ∧
      s'.m_subscribeTickWnd = [] := by
  obtain ⟨s', h⟩ := tick_returns env delta s hall hbuf
  refine ⟨s', h, ?_, ?_⟩
  · obtain ⟨_, hT, hF⟩ := tick_registry env delta s s' h
    rcases Bool.eq_false_or_eq_true
      (tickLoop env delta s.m_tickedWnd { s with m_inTick := true }).m_tickClear with hc | hc
    · have h1 := (hT hc).2
      rw [hbuf] at h1
      rw [h1, List.map_nil, List.append_nil, List.all_eq_true]
      intro x hx
      exact (List.all_eq_true.mp hall) x (List.mem_filter.mp hx).1
    · have h1 := hF hc
      rw [hbuf] at h1
      rw [h1, List.map_nil, List.append_nil]
      exact hall
  · obtain ⟨s2, s3, h2, h3, rfl⟩ := tick_stages env delta s s' h
    have hk : s.m_subscribeTickWnd.length = 0 := by rw [hbuf]; rfl
    have e3 : s3 = s2 := (tickAppend_spec _ _ _ h3).2.2.2.2.1 hk
    have e2 := (tickSweep_spec _ _ h2).2.1
    have e1 := tickLoop_quiet env hq delta s.m_tickedWnd { s with m_inTick := true }
    show (tickTooltip env delta s3).m_subscribeTickWnd = []
    rw [(tickTooltip_sameRegistry env delta s3).2.1, e3, e2, e1]
    exact hbuf

/-- A run of ticks over such widgets returns. -/
theorem ticksAfter_quiet (env : Env) (hq : ∀ w d t, env.onTick w d t = []) :
    ∀ (ds : List ℚ) (s : System), s.m_tickedWnd.all Option.isSome = true →
      s.m_subscribeTickWnd = [] → ∃ s', ticksAfter env ds s = some s' := by
  intro ds
  induction ds with
  | nil => intro s _ _; exact ⟨s, rfl⟩
  | cons d rest ih =>
    intro s hall hbuf
    obtain ⟨s1, h1, hall1, hbuf1⟩ := tick_quiet env hq d s hall hbuf
    obtain ⟨s', h'⟩ := ih s1 hall1 hbuf1
    refine ⟨s', ?_⟩
    show (match tick env d s with
      | none => none
      | some s1 => ticksAfter env rest s1) = some s'
    rw [h1]
    exact h'

theorem queryInputFocus_eq (wnd : Option Wid) (s : System) :
    (queryInputFocus wnd s).2
      = { s with m_focusWindow := wnd,
                 log := s.log ++ focusCalls s.m_focusWindow wnd } := by
  cases s
  rename_i focus _ _ _ _ _ _ _ _ _ _ _ _ _ _ _ _ _ _ _ _ _ _ _ _ _ _
  cases focus <;> cases wnd <;> simp [queryInputFocus, focusCalls, System.calls]

/-- The focus section of `handleMouseButton` changes the focus holder and the
log only. -/
theorem buttonFocusStep_eq (env : Env) (target : Wid) (s : System) :
    ∃ fw extra, buttonFocusStep env target s
        = { s with m_focusWindow := fw, log := s.log ++ extra } ∧
      (s.m_focusWindow = some target → fw = s.m_focusWindow ∧ extra = []) ∧
      (s.m_focusWindow ≠ some target → env.isTabStop target = true → fw = some target) ∧
      (s.m_focusWindow ≠ some target → env.isTabStop target = false → fw = none) := by
  unfold buttonFocusStep
  by_cases hf : s.m_focusWindow = some target
  · rw [if_neg (not_not.mpr hf)]
    exact ⟨s.m_focusWindow, [], by rw [List.append_nil], fun _ => ⟨rfl, rfl⟩,
      fun h => absurd hf h, fun h => absurd hf h⟩
  · rw [if_pos hf]
    by_cases ht : env.isTabStop target = true
    · rw [if_pos ht, queryInputFocus_eq]
      exact ⟨_, _, rfl, fun h => absurd h hf, fun _ _ => rfl,
        fun _ h => by rw [ht] at h; cases h⟩
    · rw [if_neg ht, queryInputFocus_eq]
      exact ⟨_, _, rfl, fun h => absurd h hf, fun _ h => absurd h ht, fun _ _ => rfl⟩

theorem buttonDragStep_log (env : Env) (root : base_window) (t : Wid)
    (btn : MouseButtons) (state : ButtonState) (f : System) :
    (buttonDragStep env root t btn state f).log = f.log := by
  unfold buttonDragStep
  dsimp only
  split_ifs <;> rfl

/-- The drag section of `handleMouseButton` on a left-button-down that arms. -/
theorem buttonDragStep_arm (env : Env) (root : base_window) (t : Wid) (f : System)
    (hf : f.m_dragfired = false) (hd : env.isDragable t = true) (hr : t ≠ root.id)
    (hc : some t ≠ f.m_captureWindow) :
    buttonDragStep env root t MouseButtons.Left ButtonState.Down f
      = { f with m_dragfired := false, m_dragOffset := f.m_cursor,
                 m_dragWindow := some t, m_dragging := true } := by
  have h1 : (if (!f.m_dragfired) = true then
        if t ≠ root.id ∧ some t ≠ f.m_captureWindow then
          if env.isDragable t = true then
            if ButtonState.Down = ButtonState.Down then
              { f with m_dragfired := false, m_dragOffset := f.m_cursor,
                       m_dragWindow := some t, m_dragging := true }
            else f
          else f
        else f
      else f) = { f with m_dragfired := false, m_dragOffset := f.m_cursor,
                         m_dragWindow := some t, m_dragging := true } := by
    rw [if_pos (by rw [hf]; rfl), if_pos ⟨hr, hc⟩, if_pos hd, if_pos rfl]
  unfold buttonDragStep
  rw [if_pos rfl]
  dsimp only
  rw [h1, if_neg (by rintro ⟨h, _⟩; cases h)]

/-- The drag section of `handleMouseButton` on a left-button-up. -/
theorem buttonDragStep_release (env : Env) (root : base_window) (t : Wid) (f : System)
    (hg : f.m_dragging = true) (hf : f.m_dragfired = false) :
    buttonDragStep env root t MouseButtons.Left ButtonState.Up f
      = { f with m_dragging := false } := by
  have h1 : (if (!f.m_dragfired) = true then
        if t ≠ root.id ∧ some t ≠ f.m_captureWindow then
          if env.isDragable t = true then
            if ButtonState.Up = ButtonState.Down then
              { f with m_dragfired := false, m_dragOffset := f.m_cursor,
                       m_dragWindow := some t, m_dragging := true }
            else f
          else f
        else f
      else f) = f := by
    split_ifs <;> first | rfl | contradiction
  unfold buttonDragStep
  rw [if_pos rfl]
  dsimp only
  rw [h1, if_pos ⟨rfl, hg⟩, if_pos (by rw [hf]; rfl)]

/-- The drag section of `handleMouseButton` on another button, or on a
left-button-down over the root, the capture holder or a non-draggable widget. -/
theorem buttonDragStep_idle (env : Env) (root : base_window) (t : Wid)
    (btn : MouseButtons) (state : ButtonState) (f : System)
    (h : btn ≠ MouseButtons.Left ∨ (btn = MouseButtons.Left ∧ state = ButtonState.Down ∧
        (t = root.id ∨ some t = f.m_captureWindow ∨ env.isDragable t = false))) :
    buttonDragStep env root t btn state f = f := by
  rcases h with hb | ⟨hb, hs, ht⟩
  · unfold buttonDragStep
    rw [if_neg hb]
  · subst hb; subst hs
    have h1 : (if (!f.m_dragfired) = true then
          if t ≠ root.id ∧ some t ≠ f.m_captureWindow then
            if env.isDragable t = true then
              if ButtonState.Down = ButtonState.Down then
                { f with m_dragfired := false, m_dragOffset := f.m_cursor,
                         m_dragWindow := some t, m_dragging := true }
              else f
            else f
          else f
        else f) = f := by
      by_cases h2 : t ≠ root.id ∧ some t ≠ f.m_captureWindow
      · have h3 : ¬ env.isDragable t = true := by
          rcases ht with ht | ht | ht
          · exact absurd ht h2.1
          · exact absurd ht h2.2
          · rw [ht]; simp
        rw [if_pos h2, if_neg h3]
        split_ifs <;> rfl
      · rw [if_neg h2]
        split_ifs <;> rfl
    unfold buttonDragStep
    rw [if_pos rfl]
    dsimp only
    rw [h1, if_neg (by rintro ⟨h, _⟩; cases h)]

theorem hideCalls_no_focus (env : Env) (wnd : Option Wid) (tooltip : Wid) :
    ∀ c ∈ hideCalls env wnd tooltip, Call.isFocusCall c = false := by
  intro c hc
  unfold hideCalls at hc
  cases wnd with
  | none =>
    simp only [List.nil_append, List.mem_singleton] at hc
    rw [hc]; rfl
  | some w =>
    dsimp only at hc
    by_cases hw : env.hasTooltip w = true
    · rw [hw] at hc
      simp only [if_true, List.singleton_append, List.mem_cons, List.mem_singleton,
        List.not_mem_nil, or_false] at hc
      rcases hc with rfl | rfl <;> rfl
    · have hw2 : env.hasTooltip w = false := by simpa using hw
      rw [hw2] at hc
      simp only [Bool.false_eq_true, if_false, List.nil_append, List.mem_singleton] at hc
      rw [hc]; rfl

/-- The calls after the drag section of `handleMouseButton`: `rise`, the menu
reset unless the target is the menu, and the handler calls `cs`. -/
theorem button_tail (d : System) (tgt : Wid) (cs : List Call) (flog : List Call)
    (hlog : d.log = flog) :
    ((fun t : System =>
        if tgt ≠ t.m_menuWindow then t.call (Call.menuReset t.m_menuWindow) else t)
      (d.rise tgt)).calls cs
      = { d with
          m_rootWindow := d.m_rootWindow.map (base_window.rise tgt),
          log := flog ++ (([Call.rise tgt]
            ++ (if tgt ≠ d.m_menuWindow then [Call.menuReset d.m_menuWindow] else [])) ++ cs) } := by
  subst hlog
  by_cases hm : tgt = d.m_menuWindow
  · simp [System.call, System.calls, System.rise, hm]
  · have hm2 : tgt ≠ (d.rise tgt).m_menuWindow := hm
    simp [System.call, System.calls, System.rise, hm]

/-- The state a `handleMouseButton` outside exclusive mode returns: that after
the focus and drag sections, with further calls in the log, none of them one of
`queryInputFocus`. -/
theorem handleMouseButton_final (env : Env) (fuel : Nat) (btn : MouseButtons)
    (state : ButtonState) (s : System) (root : base_window)
    (hE : s.m_exclusiveInputWindow = none) (hroot : s.m_rootWindow = some root)
    (r : Bool × System) (h : handleMouseButton env fuel btn state s = some r) :
    ∃ extra, (∀ c ∈ extra, Call.isFocusCall c = false) ∧
      r.2 = { buttonDragStep env root (mouseTarget s root) btn state
                (buttonFocusStep env (mouseTarget s root)
                  (hideTooltip env s.m_containsMouse { s with m_activateTooltip := false })) with
              m_rootWindow := some (base_window.rise (mouseTarget s root) root),
              log := (buttonFocusStep env (mouseTarget s root)
                  (hideTooltip env s.m_containsMouse { s with m_activateTooltip := false })).log
                ++ extra } := by
  obtain ⟨s0, hrun, hs0⟩ := handleMouseButton_unfold env fuel btn state s root hE hroot
  have ht : mouseTarget
      (hideTooltip env s.m_containsMouse { s with m_activateTooltip := false }) root
      = mouseTarget s root :=
    mouseTarget_congr _ _ root
      (SameTarget.thenT (show SameTarget s { s with m_activateTooltip := false } from ⟨rfl, rfl⟩)
        (hideTooltip_step (fun _ => True) env _ _ (fun _ => trivial) (fun _ => trivial)).2.1)
  rw [ht] at hrun hs0
  rw [hrun] at h
  obtain ⟨ws, hr⟩ := bubble_frame _ _ _ fuel _ s0 r h
  have hlog := buttonDragStep_log env root (mouseTarget s root) btn state
    (buttonFocusStep env (mouseTarget s root)
      (hideTooltip env s.m_containsMouse { s with m_activateTooltip := false }))
  have hrd : (buttonDragStep env root (mouseTarget s root) btn state
      (buttonFocusStep env (mouseTarget s root)
        (hideTooltip env s.m_containsMouse { s with m_activateTooltip := false }))).m_rootWindow
      = some root := by
    rw [buttonDragStep_root, buttonFocusStep_root, hideTooltip_root]
    exact hroot
  have hws : ∀ c ∈ ws.map (fun w => Call.onMouseButton w btn state),
      Call.isFocusCall c = false := by
    intro c hc
    obtain ⟨w, _, rfl⟩ := List.mem_map.mp hc
    rfl
  rw [hr, hs0]
  refine ⟨_, ?_, (button_tail _ _ _ _ hlog).trans (by rw [hrd]; rfl)⟩
  intro c hc
  rcases List.mem_append.mp hc with hc | hc
  · rcases List.mem_append.mp hc with hc | hc
    · simp only [List.mem_singleton] at hc
      rw [hc]; rfl
    · split_ifs at hc
      · simp only [List.mem_singleton] at hc
        rw [hc]; rfl
      · cases hc
  · exact hws c hc

/-- With a complete parent chain of the target and enough fuel, `handleMouseButton`
outside exclusive mode returns. -/
theorem handleMouseButton_returns (env : Env) (btn : MouseButtons) (state : ButtonState)
    (s : System) (root : base_window) (hE : s.m_exclusiveInputWindow = none)
    (hroot : s.m_rootWindow = some root) (chain : List Wid) (fuel : Nat)
    (hc : parentChain env.getParent (some (mouseTarget s root)) chain)
    (hf : chain.length ≤ fuel) :
    ∃ r, handleMouseButton env fuel btn state s = some r := by
  obtain ⟨s0, hrun, _⟩ := handleMouseButton_unfold env fuel btn state s root hE hroot
  have ht : mouseTarget
      (hideTooltip env s.m_containsMouse { s with m_activateTooltip := false }) root
      = mouseTarget s root :=
    mouseTarget_congr _ _ root
      (SameTarget.thenT (show SameTarget s { s with m_activateTooltip := false } from ⟨rfl, rfl⟩)
        (hideTooltip_step (fun _ => True) env _ _ (fun _ => trivial) (fun _ => trivial)).2.1)
  rw [ht] at hrun
  exact ⟨_, hrun.trans (bubble_chain env.getParent _ _ chain _ fuel s0 hc hf)⟩

/-- The members the drag section reads are, after the tooltip and focus sections
of `handleMouseButton`, those on entry. -/
theorem focus_stage_fields (env : Env) (t : Wid) (w : Option Wid) (s : System) :
    (buttonFocusStep env t (hideTooltip env w { s with m_activateTooltip := false })).m_cursor
      = s.m_cursor ∧
    (buttonFocusStep env t
      (hideTooltip env w { s with m_activateTooltip := false })).m_captureWindow
      = s.m_captureWindow ∧
    (buttonFocusStep env t (hideTooltip env w { s with m_activateTooltip := false })).m_dragging
      = s.m_dragging ∧
    (buttonFocusStep env t (hideTooltip env w { s with m_activateTooltip := false })).m_dragfired
      = s.m_dragfired ∧
    (buttonFocusStep env t (hideTooltip env w { s with m_activateTooltip := false })).m_dragWindow
      = s.m_dragWindow ∧
    (buttonFocusStep env t (hideTooltip env w { s with m_activateTooltip := false })).m_dragOffset
      = s.m_dragOffset := by
  obtain ⟨fw, fextra, hf, _⟩ := buttonFocusStep_eq env t
    (hideTooltip env w { s with m_activateTooltip := false })
  rw [hf, hideTooltip_eq]
  exact ⟨rfl, rfl, rfl, rfl, rfl, rfl⟩

/-- C15: a mouse-button event handled outside exclusive-input mode (a root
exists, so there is a target), with target `t` the capture holder, else the
contained-mouse widget, else the root.  If `t` already holds the focus, the focus
is unchanged and none of the calls of `queryInputFocus` is made; if `t` differs
from the focus holder and is a tab stop, `t` holds the focus afterwards; if it
differs and is not a tab stop, nobody holds the focus afterwards.  The event
returns once the fuel covers the parent chain of `t`. -/
theorem button_focus_follows_target (env : Env) (btn : MouseButtons) (state : ButtonState)
    (s : System) (root : base_window) (hE : s.m_exclusiveInputWindow = none)
    (hroot : s.m_rootWindow = some root) :
    (∀ fuel r, handleMouseButton env fuel btn state s = some r →
      (s.m_focusWindow = some (mouseTarget s root) →
        r.2.m_focusWindow = s.m_focusWindow ∧
        ∃ extra, r.2.log = s.log ++ extra ∧ ∀ c ∈ extra, Call.isFocusCall c = false) ∧
      (s.m_focusWindow ≠ some (mouseTarget s root) →
        env.isTabStop (mouseTarget s root) = true →
        r.2.m_focusWindow = some (mouseTarget s root)) ∧
      (s.m_focusWindow ≠ some (mouseTarget s root) →
        env.isTabStop (mouseTarget s root) = false →
        r.2.m_focusWindow = none)) ∧
    (∀ chain fuel, parentChain env.getParent (some (mouseTarget s root)) chain →
      chain.length ≤ fuel → ∃ r, handleMouseButton env fuel btn state s = some r) := by
  refine ⟨?_, fun chain fuel hc hf =>
    handleMouseButton_returns env btn state s root hE hroot chain fuel hc hf⟩
  intro fuel r h
  obtain ⟨extra, hx, hr⟩ := handleMouseButton_final env fuel btn state s root hE hroot r h
  obtain ⟨fw, fextra, hf, c1, c2, c3⟩ := buttonFocusStep_eq env (mouseTarget s root)
    (hideTooltip env s.m_containsMouse { s with m_activateTooltip := false })
  have hfoc : (hideTooltip env s.m_containsMouse
      { s with m_activateTooltip := false }).m_focusWindow = s.m_focusWindow := by
    rw [hideTooltip_eq]
  have hhl : (hideTooltip env s.m_containsMouse { s with m_activateTooltip := false }).log
      = s.log ++ hideCalls env s.m_containsMouse s.m_tooltipWindow := by
    rw [hideTooltip_eq]
  rw [hfoc] at c1 c2 c3
  have hrf : r.2.m_focusWindow = fw := by
    rw [hr]
    show (buttonDragStep env root (mouseTarget s root) btn state _).m_focusWindow = fw
    rw [(buttonDragStep_step (fun _ => True) env root _ btn state _).2.2, hf]
  have hrl : r.2.log = s.log ++ (hideCalls env s.m_containsMouse s.m_tooltipWindow
      ++ fextra ++ extra) := by
    rw [hr]
    show (buttonFocusStep env (mouseTarget s root) _).log ++ extra = _
    rw [hf]
    show ((hideTooltip env s.m_containsMouse { s with m_activateTooltip := false }).log
      ++ fextra) ++ extra = _
    rw [hhl]
    simp only [List.append_assoc]
  refine ⟨?_, ?_, ?_⟩
  · intro hfe
    obtain ⟨e1, e2⟩ := c1 hfe
    refine ⟨hrf.trans e1, _, hrl, ?_⟩
    intro c hc
    rw [e2, List.append_nil] at hc
    rcases List.mem_append.mp hc with hc | hc
    · exact hideCalls_no_focus _ _ _ c hc
    · exact hx c hc
  · intro hne ht
    exact hrf.trans (c2 hne ht)
  · intro hne ht
    exact hrf.trans (c3 hne ht)

theorem button_focus_follows_target_witness :
    System.focusedHover.m_exclusiveInputWindow = none ∧
    System.focusedHover.m_rootWindow = some (.mk 0 [.mk 1 [], .mk 2 [], .mk 3 []]) ∧
    System.focusedHover.m_focusWindow = some 5 ∧
    mouseTarget System.focusedHover (.mk 0 [.mk 1 [], .mk 2 [], .mk 3 []]) = 6 ∧
    Env.tabRing.isTabStop 6 = true ∧
    (∀ fuel r, handleMouseButton Env.tabRing fuel MouseButtons.Left ButtonState.Down
        System.focusedHover = some r → r.2.m_focusWindow = some 6) ∧
    (∃ r, handleMouseButton Env.tabRing 1 MouseButtons.Left ButtonState.Down
        System.focusedHover = some r) :=
  ⟨rfl, rfl, rfl, rfl, rfl,
    fun fuel r h =>
      ((button_focus_follows_target Env.tabRing MouseButtons.Left ButtonState.Down
        System.focusedHover (.mk 0 [.mk 1 [], .mk 2 [], .mk 3 []]) rfl rfl).1 fuel r h).2.1
        (by decide) rfl,
    (button_focus_follows_target Env.tabRing MouseButtons.Left ButtonState.Down
      System.focusedHover (.mk 0 [.mk 1 [], .mk 2 [], .mk 3 []]) rfl rfl).2 [6] 1
      ⟨rfl, rfl⟩ (by decide)⟩

/-- C16: drag arming in `handleMouseButton` outside exclusive-input mode (a
root exists), with target `t`.  A left-button-down while no drag is fired, on a
draggable `t` that is neither the root nor the capture holder, leaves the
machine armed: dragging, not fired, drag source `t`, grab point the cursor
position.  A left-button-up while armed and not fired clears dragging and leaves
dragfired false.  An event of another button, or a left-button-down on the root,
the capture holder or a non-draggable target, leaves dragging, dragfired, drag
source and grab point unchanged.  The event returns once the fuel covers the
parent chain of `t`. -/
theorem button_drag_arming (env : Env) (btn : MouseButtons) (state : ButtonState)
    (s : System) (root : base_window) (hE : s.m_exclusiveInputWindow = none)
    (hroot : s.m_rootWindow = some root) :
    (∀ fuel r, handleMouseButton env fuel btn state s = some r →
      (btn = MouseButtons.Left → state = ButtonState.Down → s.m_dragfired = false →
        env.isDragable (mouseTarget s root) = true → mouseTarget s root ≠ root.id →
        some (mouseTarget s root) ≠ s.m_captureWindow →
        r.2.m_dragging = true ∧ r.2.m_dragfired = false ∧
        r.2.m_dragWindow = some (mouseTarget s root) ∧ r.2.m_dragOffset = s.m_cursor) ∧
      (btn = MouseButtons.Left → state = ButtonState.Up → s.m_dragging = true →
        s.m_dragfired = false →
        r.2.m_dragging = false ∧ r.2.m_dragfired = false) ∧
      ((btn ≠ MouseButtons.Left ∨ (btn = MouseButtons.Left ∧ state = ButtonState.Down ∧
          (mouseTarget s root = root.id ∨ some (mouseTarget s root) = s.m_captureWindow ∨
            env.isDragable (mouseTarget s root) = false))) →
        r.2.m_dragging = s.m_dragging ∧ r.2.m_dragfired = s.m_dragfired ∧
        r.2.m_dragWindow = s.m_dragWindow ∧ r.2.m_dragOffset = s.m_dragOffset)) ∧
    (∀ chain fuel, parentChain env.getParent (some (mouseTarget s root)) chain →
      chain.length ≤ fuel → ∃ r, handleMouseButton env fuel btn state s = some r) := by
  refine ⟨?_, fun chain fuel hc hf =>
    handleMouseButton_returns env btn state s root hE hroot chain fuel hc hf⟩
  intro fuel r h
  obtain ⟨extra, _, hr⟩ := handleMouseButton_final env fuel btn state s root hE hroot r h
  obtain ⟨fcur, fcap, fdg, fdf, fdw, fdo⟩ :=
    focus_stage_fields env (mouseTarget s root) s.m_containsMouse s
  refine ⟨?_, ?_, ?_⟩
  · intro hb hs hf hd hne hc
    subst hb; subst hs
    rw [hr, buttonDragStep_arm env root _ _ (fdf.trans hf) hd hne (by rw [fcap]; exact hc)]
    exact ⟨rfl, rfl, rfl, fcur⟩
  · intro hb hs hg hf
    subst hb; subst hs
    rw [hr, buttonDragStep_release env root _ _ (fdg.trans hg) (fdf.trans hf)]
    exact ⟨rfl, fdf.trans hf⟩
  · intro hc
    rw [hr, buttonDragStep_idle env root _ btn state _ (by rw [fcap]; exact hc)]
    exact ⟨fdg, fdf, fdw, fdo⟩

theorem button_drag_arming_witness :
    System.hovering.m_exclusiveInputWindow = none ∧
    System.hovering.m_rootWindow = some (.mk 0 [.mk 1 [], .mk 2 [], .mk 3 []]) ∧
    System.hovering.m_dragfired = false ∧
    mouseTarget System.hovering (.mk 0 [.mk 1 [], .mk 2 [], .mk 3 []]) = 5 ∧
    Env.draggable.isDragable 5 = true ∧
    (∀ fuel r, handleMouseButton Env.draggable fuel MouseButtons.Left ButtonState.Down
        System.hovering = some r →
      r.2.m_dragging = true ∧ r.2.m_dragfired = false ∧ r.2.m_dragWindow = some 5 ∧
        r.2.m_dragOffset = System.hovering.m_cursor) ∧
    (∃ r, handleMouseButton Env.draggable 1 MouseButtons.Left ButtonState.Down
        System.hovering = some r) :=
  ⟨rfl, rfl, rfl, rfl, rfl,
    fun fuel r h =>
      ((button_drag_arming Env.draggable MouseButtons.Left ButtonState.Down
        System.hovering (.mk 0 [.mk 1 [], .mk 2 [], .mk 3 []]) rfl rfl).1 fuel r h).1
        rfl rfl rfl rfl (by decide) (by decide),
    (button_drag_arming Env.draggable MouseButtons.Left ButtonState.Down
      System.hovering (.mk 0 [.mk 1 [], .mk 2 [], .mk 3 []]) rfl rfl).2 [5] 1
      ⟨rfl, rfl⟩ (by decide)⟩

/-- The containment section of `handleMouseMove` when the hit widget differs from
the contained-mouse widget and nobody holds the capture, in closed form. -/
theorem moveContainStep_change (env : Env) (n : Option Wid) (t : System)
    (hn : n ≠ t.m_containsMouse) (hc : t.m_captureWindow = none) :
    moveContainStep env n t
      = { t with
          m_containsMouse := n,
          m_activateTooltip := (n.map env.hasTooltip).getD false,
          m_tttime := if (n.map env.hasTooltip).getD false = true then 0 else t.m_tttime,
          tooltipVisible := if t.m_containsMouse.isSome = true then false else t.tooltipVisible,
          log := t.log ++ containCalls env t.m_containsMouse n t.m_tooltipWindow } := by
  unfold moveContainStep
  rw [if_pos ⟨hn, hc⟩]
  cases t
  rename_i o _ _ _ _ _ _ _ _ _ _ _ _ _ _ _ _ _ _ _ _ _ _
  cases o with
  | none =>
    cases n with
    | none => simp [containCalls]
    | some c =>
      by_cases hw : env.hasTooltip c = true
      · simp [containCalls, System.call, hw]
      · simp [containCalls, System.call, hw]
  | some b =>
    cases n with
    | none => simp [containCalls, System.call, hideTooltip_eq]
    | some c =>
      by_cases hw : env.hasTooltip c = true
      · simp [containCalls, System.call, hideTooltip_eq, hw]
      · simp [containCalls, System.call, hideTooltip_eq, hw]

/-- The containment section of `handleMouseMove` does nothing when the hit widget
is the contained-mouse widget or somebody holds the capture. -/
theorem moveContainStep_same (env : Env) (n : Option Wid) (t : System)
    (h : n = t.m_containsMouse ∨ t.m_captureWindow ≠ none) :
    moveContainStep env n t = t := by
  unfold moveContainStep
  rw [if_neg]
  rintro ⟨h1, h2⟩
  rcases h with h | h
  · exact h1 h
  · exact h h2

theorem containCalls_filter (env : Env) (o n : Option Wid) (tooltip : Wid) :
    (containCalls env o n tooltip).filter Call.isEnterLeave
      = o.toList.map Call.onMouseLeave ++ n.toList.map Call.onMouseEnter := by
  unfold containCalls hideCalls
  cases o with
  | none => cases n <;> simp [Call.isEnterLeave]
  | some b =>
    by_cases hb : env.hasTooltip b = true
    · cases n <;> simp [Call.isEnterLeave, hb, List.filter_cons]
    · cases n <;> simp [Call.isEnterLeave, hb, List.filter_cons]

/-- When `startDrag` returns, with a root present, the tooltip members and the
capture holder are those on entry. -/
theorem startDrag_tooltipSame (env : Env) (wnd : Option Wid) (offset : point) (s : System)
    (root : base_window) (hroot : s.m_rootWindow = some root) (b : Bool) (s1 : System)
    (h : startDrag env wnd offset s = some (b, s1)) :
    TooltipSame s s1 ∧ s1.m_captureWindow = s.m_captureWindow := by
  cases wnd with
  | none =>
    simp only [startDrag, Option.some.injEq, Prod.mk.injEq] at h
    rw [← h.2]
    exact ⟨⟨rfl, rfl, rfl, rfl, rfl, rfl, rfl⟩, rfl⟩
  | some w =>
    rw [startDrag_eq env (some w) w rfl offset s root hroot] at h
    simp only [Option.some.injEq, Prod.mk.injEq] at h
    rw [← h.2]
    split_ifs <;> exact ⟨⟨rfl, rfl, rfl, rfl, rfl, rfl, rfl⟩, rfl⟩

/-- When `startDrag` on a non-null widget returns, the tree is the one on entry
with the drag container raised. -/
theorem startDrag_root (env : Env) (wnd : Option Wid) (w : Wid) (hw : wnd = some w)
    (offset : point) (s : System)
    (root : base_window) (hroot : s.m_rootWindow = some root) (b : Bool) (s1 : System)
    (h : startDrag env wnd offset s = some (b, s1)) :
    s1.m_rootWindow = some (base_window.rise s.m_dragContainer root) := by
  rw [startDrag_eq env wnd w hw offset s root hroot] at h
  simp only [Option.some.injEq, Prod.mk.injEq] at h
  rw [← h.2]
  split_ifs <;> rfl

/-- The tree the drag section of `handleMouseMove` leaves: the tree on entry,
with the drag container raised exactly when `startDrag` was called. -/
theorem moveDragStep_tree (env : Env) (s s1 : System) (root : base_window)
    (hroot : s.m_rootWindow = some root) (h : moveDragStep env s = some s1) :
    s1.m_rootWindow = some
      (if (s.m_dragging && s.m_dragWindow.isSome && !s.m_dragfired &&
          sqrtExceeds (squaredLength (s.m_cursor.sub s.m_dragOffset)) s.m_dragThreshold) = true
        then base_window.rise s.m_dragContainer root else root) := by
  unfold moveDragStep at h
  by_cases hg : s.m_dragging = true ∧ s.m_dragWindow ≠ none
  · rw [if_pos hg] at h
    dsimp only at h
    obtain ⟨dw, hdw⟩ := Option.ne_none_iff_exists'.mp hg.2
    by_cases hnf : (!s.m_dragfired) = true
    · rw [if_pos hnf] at h
      by_cases hex : sqrtExceeds (squaredLength (s.m_cursor.sub s.m_dragOffset))
          s.m_dragThreshold = true
      · rw [if_pos hex] at h
        rw [if_pos (by rw [hg.1, hdw, hnf, hex]; rfl)]
        split at h
        · cases h
        · rename_i started s2 hsd
          have hr2 := startDrag_root env _ dw hdw _ { s with m_captureWindow := none } root
            hroot started s2 hsd
          split_ifs at h
          · simp only [Option.some.injEq] at h
            rw [← h]
            exact hr2
          · simp only [Option.some.injEq] at h
            rw [← h]
            exact hr2
      · rw [if_neg hex] at h
        simp only [Option.some.injEq] at h
        rw [← h, if_neg (by simp [hex])]
        exact hroot
    · rw [if_neg hnf] at h
      simp only [Option.some.injEq] at h
      rw [← h, if_neg (by simp at hnf; simp [hnf])]
      exact hroot
  · rw [if_neg hg] at h
    simp only [Option.some.injEq] at h
    rw [← h, if_neg]
    · exact hroot
    · intro hc
      simp only [Bool.and_eq_true, Option.isSome_iff_ne_none] at hc
      exact hg ⟨hc.1.1.1, by simpa using hc.1.1.2⟩

/-- The drag section of `handleMouseMove`, with a root present: it returns, makes
no enter or leave call, leaves the tooltip members and the cursor alone, and
releases the capture exactly when a drag is armed or fired. -/
theorem moveDragStep_hover (env : Env) (s : System) (root : base_window)
    (hroot : s.m_rootWindow = some root) :
    ∃ s1, moveDragStep env s = some s1 ∧
      Prelude (fun c => Call.isEnterLeave c = false) s s1 ∧ s1.m_cursor = s.m_cursor ∧
      TooltipSame s s1 ∧
      s1.m_captureWindow
        = (if s.m_dragging = true ∧ s.m_dragWindow ≠ none then none else s.m_captureWindow) := by
  obtain ⟨s1, hs1, hp, hcur⟩ := moveDragStep_step (fun c => Call.isEnterLeave c = false) env s
    root hroot (fun _ => rfl) (fun _ _ _ => rfl) (fun _ _ => rfl) (fun _ _ => rfl)
    (fun _ _ _ => rfl)
  refine ⟨s1, hs1, hp, hcur, ?_⟩
  unfold moveDragStep at hs1
  by_cases hg : s.m_dragging = true ∧ s.m_dragWindow ≠ none
  · rw [if_pos hg] at hs1 ⊢
    dsimp only at hs1
    by_cases hnf : (!s.m_dragfired) = true
    · rw [if_pos hnf] at hs1
      by_cases hex : sqrtExceeds (squaredLength (s.m_cursor.sub s.m_dragOffset))
          s.m_dragThreshold = true
      · rw [if_pos hex] at hs1
        split at hs1
        · cases hs1
        · rename_i started s2 hsd
          obtain ⟨hT, hC⟩ := startDrag_tooltipSame env _ _ { s with m_captureWindow := none } root
            hroot started s2 hsd
          split_ifs at hs1
          · simp only [Option.some.injEq] at hs1
            rw [← hs1]
            exact ⟨hT, hC⟩
          · simp only [Option.some.injEq] at hs1
            rw [← hs1]
            exact ⟨hT, hC⟩
      · rw [if_neg hex] at hs1
        simp only [Option.some.injEq] at hs1
        rw [← hs1]
        exact ⟨⟨rfl, rfl, rfl, rfl, rfl, rfl, rfl⟩, rfl⟩
    · rw [if_neg hnf] at hs1
      simp only [Option.some.injEq] at hs1
      rw [← hs1]
      exact ⟨⟨rfl, rfl, rfl, rfl, rfl, rfl, rfl⟩, rfl⟩
  · rw [if_neg hg] at hs1 ⊢
    simp only [Option.some.injEq] at hs1
    rw [← hs1]
    exact ⟨⟨rfl, rfl, rfl, rfl, rfl, rfl, rfl⟩, rfl⟩

/-- The part of `handleMouseMove` after the drag section, up to the containment
section: hit test and drag-ghost update make no enter or leave call and leave
the tooltip members and the capture holder alone. -/
theorem moveDeliver_contain (env : Env) (root root1 : base_window) (s1 : System)
    (hroot : s1.m_rootWindow = some root1) :
    ∃ t pre, t.log = s1.log ++ pre ∧ (∀ c ∈ pre, Call.isEnterLeave c = false) ∧
      TooltipSame s1 t ∧ t.m_captureWindow = s1.m_captureWindow ∧
      ∀ fuel, moveDeliver env fuel root s1
        = bubble env.getParent env.onMouseMove Call.onMouseMove fuel
            (some (mouseTarget (moveContainStep env
              ((GetTargetWindow env.hitTest s1.m_cursor root1.getChildren).1.map base_window.id)
              t) root))
            (moveContainStep env
              ((GetTargetWindow env.hitTest s1.m_cursor root1.getChildren).1.map base_window.id)
              t) := by
  have hg : getTargetWindow env s1.m_cursor s1
      = some ((GetTargetWindow env.hitTest s1.m_cursor root1.getChildren).1.map base_window.id,
          s1.calls ((GetTargetWindow env.hitTest s1.m_cursor root1.getChildren).2.map
            (fun w => Call.hitTest w s1.m_cursor))) := by
    unfold getTargetWindow
    rw [hroot]
  have hhit : ∀ c ∈ (GetTargetWindow env.hitTest s1.m_cursor root1.getChildren).2.map
      (fun w => Call.hitTest w s1.m_cursor), Call.isEnterLeave c = false := by
    intro c hc
    obtain ⟨w, _, rfl⟩ := List.mem_map.mp hc
    rfl
  by_cases hf : s1.m_dragfired = true
  · refine ⟨(s1.calls ((GetTargetWindow env.hitTest s1.m_cursor root1.getChildren).2.map
          (fun w => Call.hitTest w s1.m_cursor))).call (Call.dragUpdate s1.m_dragContainer
          ((GetTargetWindow env.hitTest s1.m_cursor root1.getChildren).1.map base_window.id)
          s1.m_cursor),
        (GetTargetWindow env.hitTest s1.m_cursor root1.getChildren).2.map
        (fun w => Call.hitTest w s1.m_cursor) ++ [Call.dragUpdate s1.m_dragContainer
          ((GetTargetWindow env.hitTest s1.m_cursor root1.getChildren).1.map base_window.id)
          s1.m_cursor], ?_, ?_, ?_, ?_, ?_⟩
    rotate_left 4
    · intro fuel
      unfold moveDeliver
      rw [hg]
      dsimp only
      rw [if_pos (show (s1.calls _).m_dragfired = true from hf)]
      rfl
    · simp [System.call, System.calls]
    · intro c hc
      rcases List.mem_append.mp hc with hc | hc
      · exact hhit c hc
      · simp only [List.mem_singleton] at hc
        rw [hc]; rfl
    · exact ⟨rfl, rfl, rfl, rfl, rfl, rfl, rfl⟩
    · rfl
  · refine ⟨s1.calls ((GetTargetWindow env.hitTest s1.m_cursor root1.getChildren).2.map
          (fun w => Call.hitTest w s1.m_cursor)),
        (GetTargetWindow env.hitTest s1.m_cursor root1.getChildren).2.map
        (fun w => Call.hitTest w s1.m_cursor), ?_, hhit, ?_, ?_, ?_⟩
    rotate_left 3
    · intro fuel
      unfold moveDeliver
      rw [hg]
      dsimp only
      rw [if_neg (show ¬ (s1.calls _).m_dragfired = true from hf)]
    · rfl
    · exact ⟨rfl, rfl, rfl, rfl, rfl, rfl, rfl⟩
    · rfl

/-- `handleMouseMove` outside exclusive mode with a root: the containment
section runs on a state `t` reached without enter or leave calls, with the
tooltip members of the entry state and the capture holder the drag section
leaves; the delivery starts from its result. -/
theorem handleMouseMove_contain (env : Env) (x y : Int) (s : System) (root : base_window)
    (hE : s.m_exclusiveInputWindow = none) (hroot : s.m_rootWindow = some root) :
    ∃ t pre, t.log = s.log ++ pre ∧ (∀ c ∈ pre, Call.isEnterLeave c = false) ∧
      TooltipSame s t ∧ t.m_captureWindow = captureAfterDrag s ∧
      ∀ fuel, handleMouseMove env fuel x y s
        = bubble env.getParent env.onMouseMove Call.onMouseMove fuel
            (some (mouseTarget (moveContainStep env (hitWidget env x y s root) t) root))
            (moveContainStep env (hitWidget env x y s root) t) := by
  obtain ⟨s1, hs1, hp, hcur, hT, hcap⟩ :=
    moveDragStep_hover env { s with m_cursor := ⟨castFloat x, castFloat y⟩ } root hroot
  have hr1 : s1.m_rootWindow = some (treeAfterDrag s x y root) := by
    rw [moveDragStep_tree env { s with m_cursor := ⟨castFloat x, castFloat y⟩ } s1 root hroot hs1]
    rfl
  obtain ⟨pre1, hl1, hx1⟩ := hp.2.2.2.2
  obtain ⟨t, pre, hl, hx, hT2, hcap2, hrun⟩ := moveDeliver_contain env root _ s1 hr1
  refine ⟨t, pre1 ++ pre, ?_, ?_, ?_, ?_, ?_⟩
  · rw [hl, hl1]
    exact List.append_assoc _ _ _
  · intro c hc
    rcases List.mem_append.mp hc with hc | hc
    · exact hx1 c hc
    · exact hx c hc
  · exact ⟨hT2.1.trans hT.1, hT2.2.1.trans hT.2.1, hT2.2.2.1.trans hT.2.2.1,
      hT2.2.2.2.1.trans hT.2.2.2.1, hT2.2.2.2.2.1.trans hT.2.2.2.2.1,
      hT2.2.2.2.2.2.1.trans hT.2.2.2.2.2.1, hT2.2.2.2.2.2.2.trans hT.2.2.2.2.2.2⟩
  · rw [hcap2, hcap]
    rfl
  · intro fuel
    rw [handleMouseMove_unfold env fuel x y s root hE hroot, hs1]
    dsimp only
    rw [hrun fuel, hcur]
    unfold hitWidget
    rfl

theorem filter_eq_nil_of_all_false (p : Call → Bool) (l : List Call)
    (h : ∀ c ∈ l, p c = false) : l.filter p = [] := by
  induction l with
  | nil => rfl
  | cons a rest ih =>
    rw [List.filter_cons, h a (List.mem_cons_self _ _)]
    exact ih (fun c hc => h c (List.mem_cons_of_mem _ hc))

theorem mouseTarget_eq (s : System) (root : base_window) :
    mouseTarget s root = s.m_captureWindow.getD (s.m_containsMouse.getD root.id) := by
  unfold mouseTarget
  cases s.m_captureWindow <;> cases s.m_containsMouse <;> rfl

/-- The widget the move is first offered to, after the containment section. -/
theorem mouseTarget_moveContainStep (env : Env) (n : Option Wid) (t : System)
    (root : base_window) :
    mouseTarget (moveContainStep env n t) root
      = t.m_captureWindow.getD (n.getD root.id) := by
  by_cases hc : n ≠ t.m_containsMouse ∧ t.m_captureWindow = none
  · rw [moveContainStep_change env n t hc.1 hc.2, mouseTarget_eq]
  · have hsame : n = t.m_containsMouse ∨ t.m_captureWindow ≠ none := by
      by_cases h1 : n = t.m_containsMouse
      · exact Or.inl h1
      · exact Or.inr (fun h2 => hc ⟨h1, h2⟩)
    rw [moveContainStep_same env n t hsame, mouseTarget_eq]
    rcases hsame with h | h
    · rw [h]
    · obtain ⟨c, hc2⟩ := Option.ne_none_iff_exists'.mp h
      rw [hc2]
      rfl

/-- C17, as the code has it: the guard of the containment section also asks that
nobody holds the capture.  Widget 7 holds the capture, the mouse is recorded
over widget 5 and the move goes to a point over no widget: the hit target
(null) differs from the contained-mouse widget, yet widget 5 receives no
`onMouseLeave` and stays the contained-mouse widget. -/
theorem mouse_move_capture_counterexample :
    System.capturedHover.m_exclusiveInputWindow = none ∧
    System.capturedHover.m_containsMouse = some 5 ∧
    hitWidget Env.quiet 0 0 System.capturedHover (.mk 0 [.mk 1 [], .mk 2 [], .mk 3 []]) = none ∧
    (handleMouseMove Env.quiet 1 0 0 System.capturedHover).map
        (fun r => (r.2.m_containsMouse, r.2.log.filter Call.isEnterLeave))
      = some (some 5, []) := by
  have hG : ∀ pt : point, GetTargetWindow (fun _ _ => false) pt
      [base_window.mk 1 [], base_window.mk 2 [], base_window.mk 3 []] = (none, [3, 2, 1]) := by
    intro pt
    rw [GetTargetWindow_no_hit _ _ _ (fun _ _ => rfl)]
    rfl
  refine ⟨rfl, rfl, ?_, ?_⟩
  · have ht : treeAfterDrag System.capturedHover 0 0 (.mk 0 [.mk 1 [], .mk 2 [], .mk 3 []])
        = .mk 0 [.mk 1 [], .mk 2 [], .mk 3 []] := rfl
    unfold hitWidget
    rw [ht, show (base_window.mk 0 [.mk 1 [], .mk 2 [], .mk 3 []]).getChildren
      = [.mk 1 [], .mk 2 [], .mk 3 []] from rfl, show Env.quiet.hitTest = fun _ _ => false from rfl,
      hG]
    rfl
  · simp [handleMouseMove, moveDragStep, moveDeliver, moveContainStep, getTargetWindow, hG,
      mouseTarget, bubble, System.call, System.calls, System.capturedHover, System.afterReset,
      Env.quiet, base_window.id, base_window.getChildren, Call.isEnterLeave, List.filter_cons]

/-- C17, amended: a mouse move handled outside exclusive-input mode (a root
exists), with hit target `n` (`hitWidget`: what the hit resolver finds at the
cursor position `((float)x, (float)y)` in the tree the drag section leaves, in
which a drag attempt has raised the drag container), contained-mouse widget
`o`, and `c` the capture holder left by the drag section (none once a drag is
armed or fired).  If `n`
differs from `o` and `c` is null: `o` (if not null) receives `onMouseLeave`
before `n` (if not null) receives `onMouseEnter`, these being the only enter and
leave calls; `n` becomes the contained-mouse widget; afterwards the tooltip timer
is armed exactly when `n` is not null and has a tooltip, and then with elapsed
time 0.  If `n` equals `o` or `c` is not null: no enter or leave call is made,
and the contained-mouse widget and the armed flag are unchanged.  The move
returns once the fuel covers the parent chain of the widget it is offered to. -/
theorem mouse_move_containment (env : Env) (x y : Int) (s : System) (root : base_window)
    (hE : s.m_exclusiveInputWindow = none) (hroot : s.m_rootWindow = some root) :
    (∀ fuel r, handleMouseMove env fuel x y s = some r →
      (hitWidget env x y s root ≠ s.m_containsMouse → captureAfterDrag s = none →
        r.2.m_containsMouse = hitWidget env x y s root ∧
        (r.2.log.drop s.log.length).filter Call.isEnterLeave
          = s.m_containsMouse.toList.map Call.onMouseLeave
            ++ (hitWidget env x y s root).toList.map Call.onMouseEnter ∧
        (r.2.m_activateTooltip = true ↔
          ∃ w, hitWidget env x y s root = some w ∧ env.hasTooltip w = true) ∧
        (r.2.m_activateTooltip = true → r.2.m_tttime = 0)) ∧
      ((hitWidget env x y s root = s.m_containsMouse ∨ captureAfterDrag s ≠ none) →
        r.2.m_containsMouse = s.m_containsMouse ∧
        (r.2.log.drop s.log.length).filter Call.isEnterLeave = [] ∧
        r.2.m_activateTooltip = s.m_activateTooltip)) ∧
    (∀ chain fuel,
      parentChain env.getParent
        (some ((captureAfterDrag s).getD ((hitWidget env x y s root).getD root.id))) chain →
      chain.length ≤ fuel → ∃ r, handleMouseMove env fuel x y s = some r) := by
  obtain ⟨t, pre, hl, hx, hT, hcap, hrun⟩ := handleMouseMove_contain env x y s root hE hroot
  obtain ⟨hTa, _, _, _, _, hTc, _⟩ := hT
  have hmoves : ∀ ws : List Wid, (ws.map Call.onMouseMove).filter Call.isEnterLeave = [] :=
    fun ws => filter_eq_nil_of_all_false _ _ (fun c hc => by
      obtain ⟨w, _, rfl⟩ := List.mem_map.mp hc
      rfl)
  have hpre : pre.filter Call.isEnterLeave = [] := filter_eq_nil_of_all_false _ _ hx
  refine ⟨?_, ?_⟩
  · intro fuel r h
    rw [hrun fuel] at h
    obtain ⟨ws, hr⟩ := bubble_frame _ _ _ fuel _ _ r h
    refine ⟨?_, ?_⟩
    · intro hn hc
      rw [moveContainStep_change env _ t (by rw [hTc]; exact hn) (by rw [hcap]; exact hc)] at hr
      have hlog : r.2.log.drop s.log.length
          = pre ++ (containCalls env s.m_containsMouse (hitWidget env x y s root) t.m_tooltipWindow
            ++ ws.map Call.onMouseMove) := by
        rw [hr]
        show List.drop s.log.length ((t.log ++ containCalls env t.m_containsMouse _ _) ++ _) = _
        rw [hl, hTc, List.append_assoc, List.append_assoc, List.drop_left]
      refine ⟨by rw [hr]; rfl, ?_, ?_, ?_⟩
      · rw [hlog, List.filter_append, List.filter_append, hpre, hmoves, containCalls_filter,
          List.nil_append, List.append_nil]
      · rw [hr]
        show ((hitWidget env x y s root).map env.hasTooltip).getD false = true ↔ _
        cases hitWidget env x y s root with
        | none => simp
        | some c => simp
      · rw [hr]
        show ((hitWidget env x y s root).map env.hasTooltip).getD false = true →
          (if ((hitWidget env x y s root).map env.hasTooltip).getD false = true then 0
            else t.m_tttime) = 0
        intro hw
        rw [if_pos hw]
    · intro hsame
      rw [moveContainStep_same env _ t (by rw [hTc, hcap]; exact hsame)] at hr
      have hlog : r.2.log.drop s.log.length = pre ++ ws.map Call.onMouseMove := by
        rw [hr]
        show List.drop s.log.length (t.log ++ _) = _
        rw [hl, List.append_assoc, List.drop_left]
      refine ⟨by rw [hr]; exact hTc, ?_, by rw [hr]; exact hTa⟩
      rw [hlog, List.filter_append, hpre, hmoves, List.append_nil]
  · intro chain fuel hc hf
    rw [hrun fuel, mouseTarget_moveContainStep, hcap]
    exact ⟨_, bubble_chain env.getParent _ _ chain _ fuel _ hc hf⟩

theorem mouse_move_containment_witness :
    System.hovering.m_exclusiveInputWindow = none ∧
    System.hovering.m_rootWindow = some (.mk 0 [.mk 1 [], .mk 2 [], .mk 3 []]) ∧
    System.hovering.m_containsMouse = some 5 ∧
    captureAfterDrag System.hovering = none ∧
    hitWidget Env.quiet 0 0 System.hovering (.mk 0 [.mk 1 [], .mk 2 [], .mk 3 []]) = none ∧
    (∀ fuel r, handleMouseMove Env.quiet fuel 0 0 System.hovering = some r →
      r.2.m_containsMouse = hitWidget Env.quiet 0 0 System.hovering (.mk 0 [.mk 1 [], .mk 2 [], .mk 3 []]) ∧
      (r.2.log.drop System.hovering.log.length).filter Call.isEnterLeave
        = System.hovering.m_containsMouse.toList.map Call.onMouseLeave
          ++ (hitWidget Env.quiet 0 0 System.hovering (.mk 0 [.mk 1 [], .mk 2 [], .mk 3 []])).toList.map
              Call.onMouseEnter) ∧
    (∃ r, handleMouseMove Env.quiet 1 0 0 System.hovering = some r) := by
  have hn : hitWidget Env.quiet 0 0 System.hovering (.mk 0 [.mk 1 [], .mk 2 [], .mk 3 []]) = none := by
    have ht : treeAfterDrag System.hovering 0 0 (.mk 0 [.mk 1 [], .mk 2 [], .mk 3 []])
        = .mk 0 [.mk 1 [], .mk 2 [], .mk 3 []] := rfl
    unfold hitWidget
    rw [ht, show (base_window.mk 0 [.mk 1 [], .mk 2 [], .mk 3 []]).getChildren
      = [.mk 1 [], .mk 2 [], .mk 3 []] from rfl,
      GetTargetWindow_no_hit _ _ _ (fun _ _ => rfl)]
    rfl
  have hc : captureAfterDrag System.hovering = none := by decide
  refine ⟨rfl, rfl, rfl, hc, hn, ?_, ?_⟩
  · intro fuel r h
    have h1 := ((mouse_move_containment Env.quiet 0 0 System.hovering
      (.mk 0 [.mk 1 [], .mk 2 [], .mk 3 []]) rfl rfl).1 fuel r h).1
      (by rw [hn]; exact fun h => Option.noConfusion h) hc
    exact ⟨h1.1, h1.2.1⟩
  · exact (mouse_move_containment Env.quiet 0 0 System.hovering
      (.mk 0 [.mk 1 [], .mk 2 [], .mk 3 []]) rfl rfl).2 [0] 1
      (by rw [hc, hn]; exact ⟨rfl, rfl⟩) (by decide)

/-- The sibling search along a duplicate-free walk that is linked by `step` and
ends at the focus holder: with one unit of fuel per widget of the walk it
returns the first tab stop of the walk, or the focus holder. -/
theorem tabSearch_chain (step : Wid → Option Wid) (isTabStop : Wid → Bool) (f : Wid) :
    ∀ (l : List Wid) (fuel : Nat), l.Nodup → l.get? (l.length - 1) = some f →
      (∀ k a b, l.get? k = some a → l.get? (k + 1) = some b → step a = some b) →
      l.length ≤ fuel →
      tabSearch step isTabStop f fuel l.head? = some ((l.find? isTabStop).getD f) := by
  intro l
  induction l with
  | nil => intro fuel _ hlast; simp at hlast
  | cons a rest ih =>
    intro fuel hnd hlast hchain hfuel
    obtain ⟨fuel1, rfl⟩ : ∃ fuel1, fuel = fuel1 + 1 :=
      ⟨fuel - 1, by simp only [List.length_cons] at hfuel; omega⟩
    show tabSearch step isTabStop f (fuel1 + 1) (some a) = _
    by_cases hts : isTabStop a = true
    · simp [tabSearch, hts, List.find?_cons]
    · have hts2 : isTabStop a = false := by simpa using hts
      cases rest with
      | nil =>
        simp only [List.length_singleton, Nat.sub_self, List.get?_cons_zero,
          Option.some.injEq] at hlast
        subst hlast
        simp [tabSearch, hts2, List.find?_cons]
      | cons b rest2 =>
        have hlast2 : (b :: rest2).get? ((b :: rest2).length - 1) = some f := by
          simpa using hlast
        have hfmem : f ∈ b :: rest2 := List.get?_mem hlast2
        have haf : a ≠ f := by
          intro h
          subst h
          exact (List.nodup_cons.mp hnd).1 hfmem
        have hstep : step a = some b := hchain 0 a b rfl rfl
        have hrec := ih fuel1 (List.nodup_cons.mp hnd).2 hlast2
          (fun k x y hx hy => hchain (k + 1) x y hx hy)
          (by simp only [List.length_cons] at hfuel ⊢; omega)
        simp only [tabSearch, hts2, Bool.not_false, if_true, haf, if_false, hstep]
        rw [show some b = (b :: rest2).head? from rfl, hrec]
        conv_rhs => rw [List.find?_cons, hts2]

theorem get?_indexOf_of_nodup (sibs : List Wid) (hnd : sibs.Nodup) (j : Nat) (a : Wid)
    (h : sibs.get? j = some a) : a ∈ sibs ∧ sibs.indexOf a = j := by
  obtain ⟨hj, rfl⟩ := List.get?_eq_some.mp h
  exact ⟨List.get_mem _ _ _, List.get_indexOf hnd ⟨j, hj⟩⟩

/-- The forward search over cyclic sibling links returns the target of the
specification once the fuel covers the siblings. -/
theorem tabSearch_next (sibs : List Wid) (f : Wid) (isTabStop : Wid → Bool)
    (hnd : sibs.Nodup) (hmem : f ∈ sibs) (fuel : Nat) (hfuel : sibs.length ≤ fuel) :
    tabSearch (cyclicNext sibs) isTabStop f fuel (cyclicNext sibs f)
      = some (tabTarget isTabStop sibs f false) := by
  have hi : sibs.indexOf f < sibs.length := List.indexOf_lt_length.2 hmem
  have hfi : sibs.get? (sibs.indexOf f) = some f := List.indexOf_get? hmem
  have hget : ∀ k, k < sibs.length →
      (sibs.rotate (sibs.indexOf f + 1)).get? k
        = sibs.get? ((k + (sibs.indexOf f + 1)) % sibs.length) :=
    fun k hk => List.get?_rotate hk
  have hhead : cyclicNext sibs f = (sibs.rotate (sibs.indexOf f + 1)).head? := by
    rw [← List.get?_zero, hget 0 (by omega), Nat.zero_add]
    unfold cyclicNext
    rw [if_pos hmem]
  have hlast : (sibs.rotate (sibs.indexOf f + 1)).get?
      ((sibs.rotate (sibs.indexOf f + 1)).length - 1) = some f := by
    rw [List.length_rotate, hget _ (by omega),
      show sibs.length - 1 + (sibs.indexOf f + 1) = sibs.indexOf f + sibs.length from by omega,
      Nat.add_mod_right, Nat.mod_eq_of_lt hi]
    exact hfi
  have hchain : ∀ k a b, (sibs.rotate (sibs.indexOf f + 1)).get? k = some a →
      (sibs.rotate (sibs.indexOf f + 1)).get? (k + 1) = some b →
      cyclicNext sibs a = some b := by
    intro k a b ha hb
    have hk : k + 1 < sibs.length := by
      obtain ⟨h, _⟩ := List.get?_eq_some.mp hb
      rwa [List.length_rotate] at h
    rw [hget k (by omega)] at ha
    rw [hget (k + 1) hk] at hb
    obtain ⟨hma, hia⟩ := get?_indexOf_of_nodup sibs hnd _ a ha
    unfold cyclicNext
    rw [if_pos hma, hia, Nat.mod_add_mod, ← hb]
    congr 2
    omega
  rw [hhead, tabSearch_chain (cyclicNext sibs) isTabStop f _ fuel (List.nodup_rotate.mpr hnd)
    hlast hchain (by rw [List.length_rotate]; exact hfuel)]
  rfl

theorem prevWalk_get? (sibs : List Wid) (i k : Nat) (hk : k < sibs.length) :
    ((sibs.rotate i).reverse).get? k = sibs.get? ((sibs.length - 1 - k + i) % sibs.length) := by
  rw [List.get?_eq_getElem?, List.getElem?_reverse (by rw [List.length_rotate]; exact hk),
    List.length_rotate, ← List.get?_eq_getElem?, List.get?_rotate (by omega)]

/-- The backward search over cyclic sibling links returns the target of the
specification once the fuel covers the siblings. -/
theorem tabSearch_prev (sibs : List Wid) (f : Wid) (isTabStop : Wid → Bool)
    (hnd : sibs.Nodup) (hmem : f ∈ sibs) (fuel : Nat) (hfuel : sibs.length ≤ fuel) :
    tabSearch (cyclicPrev sibs) isTabStop f fuel (cyclicPrev sibs f)
      = some (tabTarget isTabStop sibs f true) := by
  have hi : sibs.indexOf f < sibs.length := List.indexOf_lt_length.2 hmem
  have hfi : sibs.get? (sibs.indexOf f) = some f := List.indexOf_get? hmem
  have hhead : cyclicPrev sibs f = ((sibs.rotate (sibs.indexOf f)).reverse).head? := by
    rw [← List.get?_zero, prevWalk_get? sibs _ 0 (by omega)]
    unfold cyclicPrev
    rw [if_pos hmem]
    congr 2
    omega
  have hlast : ((sibs.rotate (sibs.indexOf f)).reverse).get?
      (((sibs.rotate (sibs.indexOf f)).reverse).length - 1) = some f := by
    rw [List.length_reverse, List.length_rotate, prevWalk_get? sibs _ _ (by omega),
      show sibs.length - 1 - (sibs.length - 1) + sibs.indexOf f = sibs.indexOf f from by omega,
      Nat.mod_eq_of_lt hi]
    exact hfi
  have hchain : ∀ k a b, ((sibs.rotate (sibs.indexOf f)).reverse).get? k = some a →
      ((sibs.rotate (sibs.indexOf f)).reverse).get? (k + 1) = some b →
      cyclicPrev sibs a = some b := by
    intro k a b ha hb
    have hk : k + 1 < sibs.length := by
      obtain ⟨h, _⟩ := List.get?_eq_some.mp hb
      rwa [List.length_reverse, List.length_rotate] at h
    rw [prevWalk_get? sibs _ k (by omega)] at ha
    rw [prevWalk_get? sibs _ (k + 1) hk] at hb
    obtain ⟨hma, hia⟩ := get?_indexOf_of_nodup sibs hnd _ a ha
    unfold cyclicPrev
    rw [if_pos hma, hia, Nat.add_sub_assoc (by omega : 1 ≤ sibs.length), Nat.mod_add_mod, ← hb,
      show sibs.length - 1 - k + sibs.indexOf f + (sibs.length - 1)
        = sibs.length - 1 - (k + 1) + sibs.indexOf f + sibs.length from by omega,
      Nat.add_mod_right]
  rw [hhead, tabSearch_chain (cyclicPrev sibs) isTabStop f _ fuel
    (List.nodup_reverse.mpr (List.nodup_rotate.mpr hnd)) hlast hchain
    (by rw [List.length_reverse, List.length_rotate]; exact hfuel)]
  rfl

/-- C18: a Tab key-down with focus holder `f`, the sibling links being the
cyclic successor and predecessor in the duplicate-free child sequence `sibs` of
the parent of `f`.  The sibling search of `proceedSystemKey` terminates whatever
the tab stops are (one unit of fuel per sibling is enough, also when no sibling
is a tab stop), the key is reported as a system key, and the focus holder
afterwards is the first tab stop met on the walk from the neighbour of `f` in
the chosen direction (previous when Shift is held, next otherwise), or `f`
itself when the walk comes back to `f` without meeting one. -/
theorem tab_search_terminates (env : Env) (s : System) (f : Wid) (sibs : List Wid)
    (hf : s.m_focusWindow = some f) (hnd : sibs.Nodup) (hmem : f ∈ sibs)
    (hnext : env.nextSibling = cyclicNext sibs) (hprev : env.prevSibling = cyclicPrev sibs)
    (fuel : Nat) (hfuel : sibs.length ≤ fuel) :
    proceedSystemKey env fuel Keys.K_TAB ButtonState.Down s
      = some (true, (queryInputFocus
          (some (tabTarget env.isTabStop sibs f (decide (s.m_sytemkeys &&& env.SHIFT ≠ 0))))
          s).2) ∧
    (queryInputFocus
        (some (tabTarget env.isTabStop sibs f (decide (s.m_sytemkeys &&& env.SHIFT ≠ 0))))
        s).2.m_focusWindow
      = some (tabTarget env.isTabStop sibs f (decide (s.m_sytemkeys &&& env.SHIFT ≠ 0))) := by
  refine ⟨?_, by rw [queryInputFocus_eq]⟩
  simp only [proceedSystemKey]
  rw [hf]
  dsimp only
  rw [if_pos trivial]
  by_cases hs : s.m_sytemkeys &&& env.SHIFT ≠ 0
  · rw [if_pos hs, hprev, tabSearch_prev sibs f env.isTabStop hnd hmem fuel hfuel]
    simp [hs]
  · rw [if_neg hs, hnext, tabSearch_next sibs f env.isTabStop hnd hmem fuel hfuel]
    simp [hs]

theorem tab_search_terminates_witness :
    System.focused.m_focusWindow = some 5 ∧ [5, 6, 7].Nodup ∧
    tabTarget Env.ring.isTabStop [5, 6, 7] 5 false = 7 ∧
    (proceedSystemKey Env.ring 3 Keys.K_TAB ButtonState.Down System.focused).map
        (fun r => (r.1, r.2.m_focusWindow))
      = some (true, some 7) := by
  have h := tab_search_terminates Env.ring System.focused 5 [5, 6, 7] rfl (by decide)
    (by decide) rfl rfl 3 (by decide)
  refine ⟨rfl, by decide, by decide, ?_⟩
  rw [h.1, Option.map_some', h.2]
  decide

/-- The containment section of `handleMouseMove` arms the tooltip timer on
entering a widget with a tooltip, and leaves the tooltip hidden if it was hidden
or if the mouse was over a widget before: the state the tooltip delay is counted
from. -/
theorem moveContainStep_arms (env : Env) (w : Wid) (t : System)
    (hn : some w ≠ t.m_containsMouse) (hc : t.m_captureWindow = none)
    (hw : env.hasTooltip w = true)
    (hv : t.m_containsMouse ≠ none ∨ t.tooltipVisible = false) :
    (moveContainStep env (some w) t).m_activateTooltip = true ∧
    (moveContainStep env (some w) t).m_tttime = 0 ∧
    (moveContainStep env (some w) t).tooltipVisible = false := by
  rw [moveContainStep_change env (some w) t hn hc]
  refine ⟨by simp [hw], by simp [hw], ?_⟩
  rcases hv with hv | hv
  · obtain ⟨c, hc2⟩ := Option.ne_none_iff_exists'.mp hv
    simp [hc2]
  · simp [hv]

/-- C3, amended. With an exclusive-input widget `E` set and a different focus
holder `F`: for every key and button state other than a Tab key-down,
`handleKeyboard` makes exactly one call, `E.onKeyboardButton`, returns its
result, `F` receives no call and is still the focus holder.  On a Tab key-down
the Tab cycling of `proceedSystemKey` runs before the exclusive check: when the
sibling search (backward when Shift is held, forward otherwise) ends at `t`, `F`
is sent `resetInputFocus`, `onFocusLost(t)` and `invalidate`, `t` is sent
`setInputFocus`, `onFocusGained` and `invalidate`, then `E` receives the key, its
result is returned, and `t` is the focus holder; with cyclic sibling links over
the duplicate-free child sequence `sibs` the search does end, at the first tab
stop of the walk or at `F` itself, once the fuel covers the siblings. -/
theorem exclusive_keyboard_amended (env : Env) (fuel : Nat) (key : Keys)
    (state : ButtonState) (s : System) (E F : Wid)
    (hE : s.m_exclusiveInputWindow = some E) (hF : s.m_focusWindow = some F)
    (hEF : E ≠ F) :
    ((key ≠ Keys.K_TAB ∨ state ≠ ButtonState.Down) →
      ∃ s', handleKeyboard env fuel key state s
              = some (env.onKeyboardButton E key state, s') ∧
        s'.log = s.log ++ [Call.onKeyboardButton E key state] ∧
        (∀ c ∈ s'.log.drop s.log.length, c.receiver ≠ F) ∧
        s'.m_focusWindow = some F ∧
        s'.m_captureWindow = s.m_captureWindow ∧
        s'.m_exclusiveInputWindow = some E) ∧
    (∀ t,
      tabSearch (if s.m_sytemkeys &&& env.SHIFT ≠ 0 then env.prevSibling else env.nextSibling)
          env.isTabStop F fuel
          ((if s.m_sytemkeys &&& env.SHIFT ≠ 0 then env.prevSibling else env.nextSibling) F)
        = some t →
      ∃ s', handleKeyboard env fuel Keys.K_TAB ButtonState.Down s
              = some (env.onKeyboardButton E Keys.K_TAB ButtonState.Down, s') ∧
        s'.log = s.log ++
          [Call.resetInputFocus F, Call.onFocusLost F (some t), Call.invalidate F,
           Call.setInputFocus t false, Call.onFocusGained t, Call.invalidate t,
           Call.onKeyboardButton E Keys.K_TAB ButtonState.Down] ∧
        s'.m_focusWindow = some t ∧
        s'.m_exclusiveInputWindow = some E) ∧
    (∀ sibs : List Wid, sibs.Nodup → F ∈ sibs → env.nextSibling = cyclicNext sibs →
      env.prevSibling = cyclicPrev sibs → sibs.length ≤ fuel →
      tabSearch (if s.m_sytemkeys &&& env.SHIFT ≠ 0 then env.prevSibling else env.nextSibling)
          env.isTabStop F fuel
          ((if s.m_sytemkeys &&& env.SHIFT ≠ 0 then env.prevSibling else env.nextSibling) F)
        = some (tabTarget env.isTabStop sibs F (decide (s.m_sytemkeys &&& env.SHIFT ≠ 0)))) := by
  refine ⟨?_, ?_, ?_⟩
  · intro h
    obtain ⟨r, keys, hp⟩ := proceedSystemKey_not_tab_down env fuel key state s h
    refine ⟨({ s with m_sytemkeys := keys } : System).call
      (Call.onKeyboardButton E key state), ?_, ?_, ?_, ?_, ?_, ?_⟩
    · simp only [handleKeyboard, hp, hE]
    · simp [System.call]
    · simp [System.call, Call.receiver, hEF]
    · simp [System.call, hF]
    · simp [System.call]
    · simp [System.call, hE]
  · intro t ht
    have hp : proceedSystemKey env fuel Keys.K_TAB ButtonState.Down s
        = some (true, (queryInputFocus (some t) s).2) := by
      simp only [proceedSystemKey]
      rw [hF]
      dsimp only
      rw [if_pos trivial]
      by_cases hs : s.m_sytemkeys &&& env.SHIFT ≠ 0
      · rw [if_pos hs] at ht ⊢
        rw [ht]
      · rw [if_neg hs] at ht ⊢
        rw [ht]
    have hx : (queryInputFocus (some t) s).2.m_exclusiveInputWindow = some E := by
      rw [queryInputFocus_eq]
      exact hE
    refine ⟨(queryInputFocus (some t) s).2.call
      (Call.onKeyboardButton E Keys.K_TAB ButtonState.Down), ?_, ?_, ?_, ?_⟩
    · simp only [handleKeyboard, hp, hx]
    · rw [queryInputFocus_eq]
      simp [System.call, focusCalls, hF]
    · rw [queryInputFocus_eq]
      rfl
    · rw [queryInputFocus_eq]
      exact hE
  · intro sibs hnd hmem hnext hprev hfuel
    by_cases hs : s.m_sytemkeys &&& env.SHIFT ≠ 0
    · rw [if_pos hs, hprev, tabSearch_prev sibs F env.isTabStop hnd hmem fuel hfuel]
      simp [hs]
    · rw [if_neg hs, hnext, tabSearch_next sibs F env.isTabStop hnd hmem fuel hfuel]
      simp [hs]

theorem exclusive_keyboard_amended_witness :
    System.exclusiveWithFocus.m_exclusiveInputWindow = some 7 ∧
    System.exclusiveWithFocus.m_focusWindow = some 5 ∧ (7 : Wid) ≠ 5 ∧
    ((Keys.K_RETURN ≠ Keys.K_TAB ∨ ButtonState.Down ≠ ButtonState.Down) →
      ∃ s', handleKeyboard Env.tabRing 0 Keys.K_RETURN ButtonState.Down
                System.exclusiveWithFocus
              = some (Env.tabRing.onKeyboardButton 7 Keys.K_RETURN ButtonState.Down, s') ∧
        s'.log = System.exclusiveWithFocus.log
                  ++ [Call.onKeyboardButton 7 Keys.K_RETURN ButtonState.Down] ∧
        (∀ c ∈ s'.log.drop System.exclusiveWithFocus.log.length, c.receiver ≠ 5) ∧
        s'.m_focusWindow = some 5 ∧
        s'.m_captureWindow = System.exclusiveWithFocus.m_captureWindow ∧
        s'.m_exclusiveInputWindow = some 7) ∧
    (∃ s', handleKeyboard Env.tabRing 2 Keys.K_TAB ButtonState.Down System.exclusiveWithFocus
              = some (Env.tabRing.onKeyboardButton 7 Keys.K_TAB ButtonState.Down, s') ∧
        s'.log = System.exclusiveWithFocus.log ++
          [Call.resetInputFocus 5, Call.onFocusLost 5 (some 6), Call.invalidate 5,
           Call.setInputFocus 6 false, Call.onFocusGained 6, Call.invalidate 6,
           Call.onKeyboardButton 7 Keys.K_TAB ButtonState.Down] ∧
        s'.m_focusWindow = some 6 ∧
        s'.m_exclusiveInputWindow = some 7) :=
  ⟨rfl, rfl, by decide,
    (exclusive_keyboard_amended Env.tabRing 0 Keys.K_RETURN ButtonState.Down
      System.exclusiveWithFocus 7 5 rfl rfl (by decide)).1,
    (exclusive_keyboard_amended Env.tabRing 2 Keys.K_TAB ButtonState.Down
      System.exclusiveWithFocus 7 5 rfl rfl (by decide)).2.1 6 (by decide)⟩

/-- The capture holder after the drag section is null while a drag is armed. -/
theorem captureAfterDrag_armed (s : System) (dw : Wid) (hdrag : s.m_dragging = true)
    (hdw : s.m_dragWindow = some dw) : captureAfterDrag s = none := by
  unfold captureAfterDrag
  rw [if_pos ⟨hdrag, by rw [hdw]; exact fun h => Option.noConfusion h⟩]

/-- With enough fuel for the parent chain of the widget the move is offered to,
`handleMouseMove` outside exclusive mode returns. -/
theorem handleMouseMove_returns (env : Env) (x y : Int) (s : System) (root : base_window)
    (hE : s.m_exclusiveInputWindow = none) (hroot : s.m_rootWindow = some root)
    (chain : List Wid) (fuel : Nat)
    (hc : parentChain env.getParent
      (some ((captureAfterDrag s).getD ((hitWidget env x y s root).getD root.id))) chain)
    (hf : chain.length ≤ fuel) :
    ∃ r, handleMouseMove env fuel x y s = some r := by
  obtain ⟨t, pre, _, _, _, hcap, hrun⟩ := handleMouseMove_contain env x y s root hE hroot
  rw [hrun fuel, mouseTarget_moveContainStep, hcap]
  exact ⟨_, bubble_chain env.getParent _ _ chain _ fuel _ hc hf⟩

/-- Comparison of a natural threshold with the real square root of an integer. -/
theorem lt_sqrt_int (T : ℕ) (N : ℤ) :
    (T : ℝ) < Real.sqrt (N : ℝ) ↔ (T : ℤ) * T < N := by
  rw [Real.lt_sqrt (Nat.cast_nonneg T)]
  constructor
  · intro h
    have h2 : (((T : ℤ) * T : ℤ) : ℝ) < (N : ℝ) := by
      push_cast
      nlinarith [h]
    exact_mod_cast h2
  · intro h
    have h2 : (((T : ℤ) * T : ℤ) : ℝ) < (N : ℝ) := by exact_mod_cast h
    push_cast at h2
    nlinarith [h2]

/-- `handleMouseMove` outside exclusive mode with a root, once the result of its
drag section is known. -/
theorem handleMouseMove_of_drag (env : Env) (fuel : Nat) (x y : Int) (s s1 : System)
    (root : base_window) (hE : s.m_exclusiveInputWindow = none)
    (hroot : s.m_rootWindow = some root)
    (h : moveDragStep env { s with m_cursor := ⟨castFloat x, castFloat y⟩ } = some s1) :
    handleMouseMove env fuel x y s = moveDeliver env fuel root s1 := by
  rw [handleMouseMove_unfold env fuel x y s root hE hroot, h]

/-- The drag section of `handleMouseMove` when a drag is armed and not fired, the
cursor is beyond the threshold and `startDrag` succeeds. -/
theorem moveDragStep_started (env : Env) (s s1 : System) (dw : Wid)
    (hdw : s.m_dragWindow = some dw) (hdrag : s.m_dragging = true)
    (hnf : s.m_dragfired = false)
    (habove : sqrtExceeds (squaredLength (s.m_cursor.sub s.m_dragOffset)) s.m_dragThreshold
      = true)
    (h : startDrag env (some dw) (dragStartOffset env { s with m_captureWindow := none })
      { s with m_captureWindow := none } = some (true, s1)) :
    moveDragStep env s = some s1 := by
  rw [moveDragStep_above env s dw hdw hdrag hnf habove]
  have h2 : startDrag env ({ s with m_captureWindow := none } : System).m_dragWindow
      (dragStartOffset env { s with m_captureWindow := none })
      { s with m_captureWindow := none } = some (true, s1) :=
    (congrArg (fun w => startDrag env w (dragStartOffset env { s with m_captureWindow := none })
        { s with m_captureWindow := none })
      (show ({ s with m_captureWindow := none } : System).m_dragWindow = some dw from hdw)).trans h
  rw [h2]
  rfl

theorem castFloat_zero : castFloat 0 = 0 := by
  simpa using castFloat_exact 0 (by norm_num)

theorem point_sub_int (a b c d : ℤ) (h1 : |a - c| ≤ 2 ^ 24) (h2 : |b - d| ≤ 2 ^ 24) :
    (⟨(a : ℚ), (b : ℚ)⟩ : point).sub ⟨(c : ℚ), (d : ℚ)⟩ = ⟨((a - c : ℤ) : ℚ), ((b - d : ℤ) : ℚ)⟩ := by
  simp only [point.sub, fsub_intCast a c h1, fsub_intCast b d h2]

theorem squaredLength_int (a b : ℤ) (h1 : |a * a| ≤ 2 ^ 24) (h2 : |b * b| ≤ 2 ^ 24)
    (h3 : |a * a + b * b| ≤ 2 ^ 24) :
    squaredLength ⟨(a : ℚ), (b : ℚ)⟩ = ((a * a + b * b : ℤ) : ℚ) := by
  simp only [squaredLength, fmul_intCast a a h1, fmul_intCast b b h2, fadd_intCast _ _ h3]

/-- The drag test on a squared distance `v < 2^24` and a threshold `T ≤ 2047`, both
whole numbers. -/
theorem sqrtExceeds_nat (v T : ℕ) (hv : v < 2 ^ 24) (hT : T ≤ 2047) :
    sqrtExceeds (v : ℚ) (T : ℚ) = decide (T * T < v) := by
  unfold sqrtExceeds
  exact decide_eq_decide.mpr (fsqrt_gt_iff v T hv hT)

theorem sqrtExceeds_64_8 : sqrtExceeds 64 8 = false := by
  have h := sqrtExceeds_nat 64 8 (by norm_num) (by norm_num)
  simpa using h

theorem sqrtExceeds_81_8 : sqrtExceeds 81 8 = true := by
  have h := sqrtExceeds_nat 81 8 (by norm_num) (by norm_num)
  simpa using h

/-- C10, as the code has it: the cursor is stored as `float`, and `(float)16777217`
is 16777216.  A drag is armed on widget 5 at grab point (16777208, 0) with the
threshold 8; the move to (16777217, 0) is at distance 9 from the grab point,
more than the threshold, yet the distance the code computes is 8 and it makes
no drag attempt: `m_dragfired` stays false. -/
theorem drag_threshold_float_counterexample :
    System.armedFar.m_exclusiveInputWindow = none ∧
    System.armedFar.m_dragging = true ∧ System.armedFar.m_dragWindow = some 5 ∧
    System.armedFar.m_dragfired = false ∧ System.armedFar.m_dragThreshold = 8 ∧
    System.armedFar.m_dragOffset = ⟨16777208, 0⟩ ∧
    (8 : ℝ) < Real.sqrt ((((16777217 - 16777208) * (16777217 - 16777208) + (0 - 0) * (0 - 0) : ℤ)
      : ℝ)) ∧
    grabDistanceSq System.armedFar 16777217 0 = 64 ∧
    (handleMouseMove Env.draggable 1 16777217 0 System.armedFar).map
        (fun r => (r.2.m_dragfired, r.2.m_dragging, r.2.m_cursor, r.2.log))
      = some (false, true, ⟨16777216, 0⟩,
          [Call.hitTest 3 ⟨16777216, 0⟩, Call.hitTest 2 ⟨16777216, 0⟩,
           Call.hitTest 1 ⟨16777216, 0⟩, Call.onMouseMove 0]) := by
  have hG : ∀ pt : point, GetTargetWindow (fun _ _ => false) pt
      [base_window.mk 1 [], base_window.mk 2 [], base_window.mk 3 []] = (none, [3, 2, 1]) := by
    intro pt
    rw [GetTargetWindow_no_hit _ _ _ (fun _ _ => rfl)]
    rfl
  have hsub : (⟨16777216, 0⟩ : point).sub ⟨16777208, 0⟩ = ⟨8, 0⟩ := by
    simpa using point_sub_int 16777216 0 16777208 0 (by norm_num) (by norm_num)
  have hsq : squaredLength (⟨8, 0⟩ : point) = 64 := by
    simpa using squaredLength_int 8 0 (by norm_num) (by norm_num) (by norm_num)
  have hgd : grabDistanceSq System.armedFar 16777217 0 = 64 := by
    unfold grabDistanceSq
    rw [castFloat_16777217, castFloat_zero]
    show squaredLength ((⟨16777216, 0⟩ : point).sub ⟨16777208, 0⟩) = 64
    rw [hsub, hsq]
  have hbelow : sqrtExceeds (grabDistanceSq System.armedFar 16777217 0)
      System.armedFar.m_dragThreshold = false := by
    rw [hgd]
    exact sqrtExceeds_64_8
  refine ⟨rfl, rfl, rfl, rfl, rfl, rfl, ?_, hgd, ?_⟩
  · rw [show ((8 : ℝ)) = ((8 : ℕ) : ℝ) by norm_num, lt_sqrt_int]
    norm_num
  · rw [handleMouseMove_of_drag Env.draggable 1 16777217 0 System.armedFar _
      (.mk 0 [.mk 1 [], .mk 2 [], .mk 3 []]) rfl rfl
      (moveDragStep_below Env.draggable
        { System.armedFar with m_cursor := ⟨castFloat 16777217, castFloat 0⟩ } 5 rfl rfl rfl
        hbelow)]
    simp only [castFloat_16777217, castFloat_zero]
    simp [moveDeliver, moveContainStep, getTargetWindow, hG,
      mouseTarget, bubble, System.call, System.calls, System.armedFar, System.afterReset,
      Env.draggable, Env.quiet, base_window.id, base_window.getChildren]

/-- C10, amended: in `handleMouseMove` with a drag armed but not fired, no
exclusive widget and a root, for integer cursor and grab-point coordinates of
magnitude at most `2^23` and a whole-number threshold of at most 2047 (in that
range the `float` arithmetic of the test is exact): a move that puts the cursor
at Euclidean distance exactly the threshold from the grab point makes no drag
attempt and leaves `m_dragfired` false and `m_dragging` true; a move to a
distance greater than the threshold calls `startDrag` on the drag source (the
drag container is raised, and is asked to start when the source is draggable),
and `m_dragfired` becomes true exactly when the source is draggable and the
container accepts, the drag being disarmed otherwise; the test made is
`dx*dx + dy*dy > threshold*threshold`; and the handler returns once the fuel
covers the parent chain of the hit widget, or of the root if there is none. -/
theorem drag_threshold_exclusive_in_range (env : Env) (s : System) (root : base_window)
    (dw : Wid) (x y ox oy : Int) (T : Nat)
    (hE : s.m_exclusiveInputWindow = none) (hroot : s.m_rootWindow = some root)
    (hdrag : s.m_dragging = true) (hdw : s.m_dragWindow = some dw)
    (hnf : s.m_dragfired = false)
    (hoff : s.m_dragOffset = ⟨(ox : ℚ), (oy : ℚ)⟩) (hthr : s.m_dragThreshold = (T : ℚ))
    (hx : |x| ≤ 2 ^ 23) (hy : |y| ≤ 2 ^ 23) (hox : |ox| ≤ 2 ^ 23) (hoy : |oy| ≤ 2 ^ 23)
    (hT : T ≤ 2047) :
    (Real.sqrt (((x - ox) * (x - ox) + (y - oy) * (y - oy) : ℤ) : ℝ) = (T : ℝ) →
      ∀ fuel r, handleMouseMove env fuel x y s = some r →
        r.2.m_dragfired = false ∧ r.2.m_dragging = true ∧ r.2.m_dragWindow = some dw ∧
        ∀ c ∈ r.2.log.drop s.log.length, Call.isDragAttempt c = false) ∧
    ((T : ℝ) < Real.sqrt (((x - ox) * (x - ox) + (y - oy) * (y - oy) : ℤ) : ℝ) →
      ∀ fuel r, handleMouseMove env fuel x y s = some r →
        (∃ rest, r.2.log = s.log ++ Call.rise s.m_dragContainer :: rest ∧
          (env.isDragable dw = true →
            Call.dragStart s.m_dragContainer dw
              ((env.transformToWndCoord dw s.m_dragOffset).sub (env.getPosition dw)) ∈ rest)) ∧
        r.2.m_dragfired = (env.isDragable dw &&
          env.dragStartDrag dw
            ((env.transformToWndCoord dw s.m_dragOffset).sub (env.getPosition dw))) ∧
        r.2.m_dragging = (env.isDragable dw &&
          env.dragStartDrag dw
            ((env.transformToWndCoord dw s.m_dragOffset).sub (env.getPosition dw)))) ∧
    (sqrtExceeds (grabDistanceSq s x y) s.m_dragThreshold = true ↔
      (T : ℤ) * T < (x - ox) * (x - ox) + (y - oy) * (y - oy)) ∧
    (∀ chain fuel,
      parentChain env.getParent (some ((hitWidget env x y s root).getD root.id)) chain →
      chain.length ≤ fuel → ∃ r, handleMouseMove env fuel x y s = some r) := by
  have hiff : sqrtExceeds (grabDistanceSq s x y) s.m_dragThreshold = true ↔
      (T : ℤ) * T < (x - ox) * (x - ox) + (y - oy) * (y - oy) := by
    unfold grabDistanceSq
    rw [hoff, hthr]
    exact sqrtExceeds_int x y ox oy T hx hy hox hoy hT
  refine ⟨?_, ?_, hiff, ?_⟩
  · intro heq fuel r hr
    have hbelow : sqrtExceeds (grabDistanceSq s x y) s.m_dragThreshold = false := by
      apply Bool.eq_false_iff.mpr
      intro h
      have h2 := (lt_sqrt_int T _).mpr (hiff.mp h)
      rw [heq] at h2
      exact lt_irrefl _ h2
    exact handleMouseMove_armed_below env s root dw x y hE hroot hdrag hdw hnf hbelow fuel r hr
  · intro hgt fuel r hr
    exact handleMouseMove_armed_above env s root dw x y hE hroot hdrag hdw hnf
      (hiff.mpr ((lt_sqrt_int T _).mp hgt)) fuel r hr
  · intro chain fuel hc hf
    refine handleMouseMove_returns env x y s root hE hroot chain fuel ?_ hf
    rw [captureAfterDrag_armed s dw hdrag hdw]
    exact hc

theorem drag_threshold_exclusive_in_range_witness :
    System.armed.m_exclusiveInputWindow = none ∧
    System.armed.m_rootWindow = some (.mk 0 [.mk 1 [], .mk 2 [], .mk 3 []]) ∧
    System.armed.m_dragging = true ∧ System.armed.m_dragWindow = some 5 ∧
    System.armed.m_dragfired = false ∧
    System.armed.m_dragOffset = ⟨((0 : ℤ) : ℚ), ((0 : ℤ) : ℚ)⟩ ∧
    System.armed.m_dragThreshold = ((8 : ℕ) : ℚ) ∧
    (Real.sqrt ((((8 : ℤ) - 0) * (8 - 0) + ((0 : ℤ) - 0) * (0 - 0) : ℤ) : ℝ) = ((8 : ℕ) : ℝ) →
      ∀ fuel r, handleMouseMove Env.draggable fuel 8 0 System.armed = some r →
        r.2.m_dragfired = false ∧ r.2.m_dragging = true ∧ r.2.m_dragWindow = some 5 ∧
        ∀ c ∈ r.2.log.drop System.armed.log.length, Call.isDragAttempt c = false) ∧
    (sqrtExceeds (grabDistanceSq System.armed 9 0) System.armed.m_dragThreshold = true ↔
      ((8 : ℕ) : ℤ) * (8 : ℕ) < ((9 : ℤ) - 0) * (9 - 0) + ((0 : ℤ) - 0) * (0 - 0)) :=
  ⟨rfl, rfl, rfl, rfl, rfl, by simp [System.armed], by simp [System.armed, System.afterReset],
    (drag_threshold_exclusive_in_range Env.draggable System.armed
      (.mk 0 [.mk 1 [], .mk 2 [], .mk 3 []]) 5 8 0 0 0 8 rfl rfl rfl rfl rfl
      (by simp [System.armed]) (by simp [System.armed, System.afterReset])
      (by norm_num) (by norm_num) (by norm_num) (by norm_num) (by norm_num)).1,
    (drag_threshold_exclusive_in_range Env.draggable System.armed
      (.mk 0 [.mk 1 [], .mk 2 [], .mk 3 []]) 5 9 0 0 0 8 rfl rfl rfl rfl rfl
      (by simp [System.armed]) (by simp [System.armed, System.afterReset])
      (by norm_num) (by norm_num) (by norm_num) (by norm_num) (by norm_num)).2.2.1⟩

/-- The boundary at work, threshold 8 and grab point (0, 0): a move to (8, 0)
leaves the drag armed and unfired; a move to (9, 0) fires it, the drag
container (widget 1) being raised above its siblings before the hit test. -/
theorem drag_threshold_example :
    (handleMouseMove Env.draggable 1 8 0 System.armed).map
        (fun r => (r.2.m_dragfired, r.2.m_dragging, r.2.m_rootWindow, r.2.log))
      = some (false, true, some (.mk 0 [.mk 1 [], .mk 2 [], .mk 3 []]),
          [Call.hitTest 3 ⟨8, 0⟩, Call.hitTest 2 ⟨8, 0⟩, Call.hitTest 1 ⟨8, 0⟩,
           Call.onMouseMove 0]) ∧
    (handleMouseMove Env.draggable 1 9 0 System.armed).map
        (fun r => (r.2.m_dragfired, r.2.m_dragging, r.2.m_rootWindow, r.2.log.take 6))
      = some (true, true, some (.mk 0 [.mk 2 [], .mk 3 [], .mk 1 []]),
          [Call.rise 1, Call.dragStart 1 5 ⟨0, 0⟩, Call.dragSetPosition 1 ⟨9, 0⟩,
           Call.hitTest 1 ⟨9, 0⟩, Call.hitTest 3 ⟨9, 0⟩, Call.hitTest 2 ⟨9, 0⟩]) := by
  have hG : ∀ pt : point, GetTargetWindow (fun _ _ => false) pt
      [base_window.mk 1 [], base_window.mk 2 [], base_window.mk 3 []] = (none, [3, 2, 1]) := by
    intro pt
    rw [GetTargetWindow_no_hit _ _ _ (fun _ _ => rfl)]
    rfl
  have hG2 : ∀ pt : point, GetTargetWindow (fun _ _ => false) pt
      [base_window.mk 2 [], base_window.mk 3 [], base_window.mk 1 []] = (none, [1, 3, 2]) := by
    intro pt
    rw [GetTargetWindow_no_hit _ _ _ (fun _ _ => rfl)]
    rfl
  have hrise : base_window.rise 1 (.mk 0 [.mk 1 [], .mk 2 [], .mk 3 []])
      = .mk 0 [.mk 2 [], .mk 3 [], .mk 1 []] := by
    simp [base_window.rise, base_window.id]
  have hc8 : castFloat 8 = 8 := by simpa using castFloat_exact 8 (by norm_num)
  have hc9 : castFloat 9 = 9 := by simpa using castFloat_exact 9 (by norm_num)
  have hs8 : (⟨8, 0⟩ : point).sub ⟨0, 0⟩ = ⟨8, 0⟩ := by
    simpa using point_sub_int 8 0 0 0 (by norm_num) (by norm_num)
  have hs9 : (⟨9, 0⟩ : point).sub ⟨0, 0⟩ = ⟨9, 0⟩ := by
    simpa using point_sub_int 9 0 0 0 (by norm_num) (by norm_num)
  have hq8 : squaredLength (⟨8, 0⟩ : point) = 64 := by
    simpa using squaredLength_int 8 0 (by norm_num) (by norm_num) (by norm_num)
  have hq9 : squaredLength (⟨9, 0⟩ : point) = 81 := by
    simpa using squaredLength_int 9 0 (by norm_num) (by norm_num) (by norm_num)
  have hb8 : sqrtExceeds (grabDistanceSq System.armed 8 0) System.armed.m_dragThreshold
      = false := by
    unfold grabDistanceSq
    rw [hc8, castFloat_zero]
    show sqrtExceeds (squaredLength ((⟨8, 0⟩ : point).sub ⟨0, 0⟩)) 8 = false
    rw [hs8, hq8]
    exact sqrtExceeds_64_8
  have hb9 : sqrtExceeds (grabDistanceSq System.armed 9 0) System.armed.m_dragThreshold
      = true := by
    unfold grabDistanceSq
    rw [hc9, castFloat_zero]
    show sqrtExceeds (squaredLength ((⟨9, 0⟩ : point).sub ⟨0, 0⟩)) 8 = true
    rw [hs9, hq9]
    exact sqrtExceeds_81_8
  have hs0 : (⟨0, 0⟩ : point).sub ⟨0, 0⟩ = ⟨0, 0⟩ := by
    simpa using point_sub_int 0 0 0 0 (by norm_num) (by norm_num)
  constructor
  · rw [handleMouseMove_of_drag Env.draggable 1 8 0 System.armed _
      (.mk 0 [.mk 1 [], .mk 2 [], .mk 3 []]) rfl rfl
      (moveDragStep_below Env.draggable
        { System.armed with m_cursor := ⟨castFloat 8, castFloat 0⟩ } 5 rfl rfl rfl hb8)]
    simp only [hc8, castFloat_zero]
    simp [moveDeliver, moveContainStep, getTargetWindow, hG,
      mouseTarget, bubble, System.call, System.calls, System.armed, System.afterReset,
      Env.draggable, Env.quiet, base_window.id, base_window.getChildren]
  · have hstart : startDrag Env.draggable (some 5)
        (dragStartOffset Env.draggable
          { ({ System.armed with m_cursor := ⟨castFloat 9, castFloat 0⟩ } : System) with
            m_captureWindow := none })
        { ({ System.armed with m_cursor := ⟨castFloat 9, castFloat 0⟩ } : System) with
            m_captureWindow := none }
        = some (true,
            { System.armed with
              m_cursor := ⟨9, 0⟩,
              m_rootWindow := some (.mk 0 [.mk 2 [], .mk 3 [], .mk 1 []]),
              m_dragfired := true,
              log := [Call.rise 1, Call.dragStart 1 5 ⟨0, 0⟩, Call.dragSetPosition 1 ⟨9, 0⟩,
                Call.hitTest 1 ⟨9, 0⟩, Call.hitTest 3 ⟨9, 0⟩, Call.hitTest 2 ⟨9, 0⟩,
                Call.dragUpdate 1 none ⟨9, 0⟩] }) := by
      rw [startDrag_eq Env.draggable (some 5) 5 rfl _ _ (.mk 0 [.mk 1 [], .mk 2 [], .mk 3 []]) rfl]
      simp only [hc9, castFloat_zero]
      simp [dragStartOffset, hG2, hs9, hs0, hrise, System.armed, System.afterReset,
        Env.draggable, Env.quiet, base_window.id, base_window.getChildren]
    rw [handleMouseMove_of_drag Env.draggable 1 9 0 System.armed _
      (.mk 0 [.mk 1 [], .mk 2 [], .mk 3 []]) rfl rfl
      (moveDragStep_started Env.draggable
        { System.armed with m_cursor := ⟨castFloat 9, castFloat 0⟩ } _ 5 rfl rfl rfl hb9 hstart)]
    simp [moveDeliver, moveContainStep, getTargetWindow, hG2,
      mouseTarget, bubble, System.call, System.calls, System.armed, System.afterReset,
      Env.draggable, Env.quiet, base_window.id, base_window.getChildren]

/-- Where every partial sum is a `float` value, the accumulated timer is the
exact sum. -/
theorem timerAfter_exact : ∀ (ds : List ℚ) (t0 : ℚ),
    (∀ j, 1 ≤ j → j ≤ ds.length → round32 (t0 + (ds.take j).sum) = t0 + (ds.take j).sum) →
    timerAfter t0 ds = t0 + ds.sum := by
  intro ds
  induction ds with
  | nil => intro t0 _; simp [timerAfter]
  | cons d rest ih =>
    intro t0 h
    have h1 : fadd t0 d = t0 + d := by
      have := h 1 (le_refl 1) (by simp)
      simpa [fadd] using this
    have hstep : timerAfter t0 (d :: rest) = timerAfter (fadd t0 d) rest := rfl
    rw [hstep, h1, ih (t0 + d), List.sum_cons, add_assoc]
    intro j hj1 hj2
    have := h (j + 1) (by omega) (by simpa using hj2)
    rw [List.take_succ_cons, List.sum_cons, ← add_assoc] at this
    exact this

theorem round32_stall_step : round32 (1 / 33554432) = 1 / 33554432 := by
  apply round32_eq_self _ 8388608
  rw [ulp32_eq _ (-25) (by norm_num) (by norm_num [abs_of_pos]) (by norm_num [abs_of_pos])]
  norm_num

/-- C12, as the code has it.  First, the timer is a `float` accumulator: with
hover delay 2 and the tick deltas `2 - 2^-23, 2^-25, 2^-25, 2^-25, 2^-25` (each
a `float` value, none negative), the exact sum reaches 2 in tick 5, but every
`m_tttime += delta` after the first rounds back to `2 - 2^-23`, and no tick
shows the tooltip.  Second, while the tooltip widget is visible and the
lifetime cap exceeds 1 the second tooltip block adds `delta` to the same timer:
with hover delay 4, lifetime cap 100 and ticks of 1 the tooltip is shown in
tick 3, when the deltas sum to 3. -/
theorem tooltip_timer_counterexample :
    (System.tooltipArmed.m_activateTooltip = true ∧ System.tooltipArmed.m_tttime = 0 ∧
      System.tooltipArmed.m_ttdelay = 2 ∧
      (∀ d ∈ stallDeltas, 0 ≤ d ∧ round32 d = d) ∧
      stallDeltas.sum = 2 ∧ (stallDeltas.take 4).sum < 2 ∧
      (ticksAfter Env.tooltipped stallDeltas System.tooltipArmed).map
          (fun r => (r.log, r.m_tttime, r.m_activateTooltip))
        = some ([], 16777215 / 8388608, true)) ∧
    (System.tooltipArmedVisible.m_activateTooltip = true ∧
      System.tooltipArmedVisible.m_tttime = 0 ∧ System.tooltipArmedVisible.m_ttdelay = 4 ∧
      ([1, 1, 1] : List ℚ).sum < 4 ∧
      (ticksAfter Env.tooltipped [1, 1] System.tooltipArmedVisible).map (fun r => r.log)
        = some [] ∧
      (ticksAfter Env.tooltipped [1, 1, 1] System.tooltipArmedVisible).map (fun r => r.log)
        = some [Call.onTooltipShow 5, Call.tooltipShow 2]) := by
  have h01 : fadd 0 1 = 1 := by simpa using fadd_intCast 0 1 (by norm_num)
  have h11 : fadd 1 1 = 2 := by simpa using fadd_intCast 1 1 (by norm_num)
  have h21 : fadd 2 1 = 3 := by simpa using fadd_intCast 2 1 (by norm_num)
  have h31 : fadd 3 1 = 4 := by simpa using fadd_intCast 3 1 (by norm_num)
  have h41 : fadd 4 1 = 5 := by simpa using fadd_intCast 4 1 (by norm_num)
  have ha : round32 (16777215 / 8388608) = 16777215 / 8388608 := by
    have := fadd_stall.1
    simpa [fadd] using this
  refine ⟨⟨rfl, rfl, rfl, ?_, ?_, ?_, ?_⟩, ⟨rfl, rfl, rfl, ?_, ?_, ?_⟩⟩
  · intro d hd
    simp only [stallDeltas, List.mem_cons, List.mem_singleton, List.not_mem_nil, or_false] at hd
    rcases hd with rfl | rfl | rfl | rfl | rfl
    · exact ⟨by norm_num, ha⟩
    · exact ⟨by norm_num, round32_stall_step⟩
    · exact ⟨by norm_num, round32_stall_step⟩
    · exact ⟨by norm_num, round32_stall_step⟩
    · exact ⟨by norm_num, round32_stall_step⟩
  · norm_num [stallDeltas]
  · norm_num [stallDeltas]
  · norm_num [stallDeltas, ticksAfter, tick, tickLoop, tickSweep, tickAppend, tickTooltip,
      tickTooltipShow, tickTooltipExpire, showTooltip, hideTooltip, System.call,
      System.tooltipArmed, System.afterReset, Env.tooltipped, Env.quiet, fadd_stall.1,
      fadd_stall.2]
  · norm_num
  · norm_num [ticksAfter, tick, tickLoop, tickSweep, tickAppend, tickTooltip,
      tickTooltipShow, tickTooltipExpire, showTooltip, hideTooltip, System.call,
      System.tooltipArmedVisible, System.tooltipArmed, System.afterReset, Env.tooltipped,
      Env.quiet, h01, h11, h21, h31, h41]
  · norm_num [ticksAfter, tick, tickLoop, tickSweep, tickAppend, tickTooltip,
      tickTooltipShow, tickTooltipExpire, showTooltip, hideTooltip, System.call,
      System.tooltipArmedVisible, System.tooltipArmed, System.afterReset, Env.tooltipped,
      Env.quiet, h01, h11, h21, h31, h41]

/-- C12, amended: from the state in which the tooltip has just been armed (armed
flag set, elapsed time 0) with the tooltip widget hidden or the lifetime cap
at most 1, with hover delay `D = m_ttdelay`, and for every run of ticks
`d1, d2, ...` with non-negative deltas and no input in between:
`Tooltip::show()`, which `showTooltip` always calls, is called during tick `k`
exactly when `k` is the least index at which the `float` accumulator
`(...((0 + d1) + d2)... + dk)`, rounded after each addition, is at least `D`;
so it is called in no earlier tick and in no later one.  Where the partial
sums `d1 + ... + dj`, `j ≤ k`, are `float` values the accumulator is the sum,
and tick `k` shows the tooltip exactly when `k` is the least index with
`d1 + ... + dk ≥ D`.  The run returns whenever the ticked widgets leave the
registry alone.  (The proof uses neither the sign of the deltas nor the bound
on `D`, a finite `float`: with them the accumulator, which does not decrease,
cannot overflow before it has reached `D`.) -/
theorem tooltip_shown_at_least_timer_index (env : Env) (ds : List ℚ) (s : System)
    (harm : s.m_activateTooltip = true) (h0 : s.m_tttime = 0)
    (hhid : s.tooltipVisible = false ∨ s.m_ttlifetime ≤ 1)
    (_hnn : ∀ d ∈ ds, 0 ≤ d) (_hD : s.m_ttdelay < 2 ^ 128) :
    (∀ (k : Nat) (sk1 sk : System), 1 ≤ k → k ≤ ds.length →
      ticksAfter env (ds.take (k - 1)) s = some sk1 →
      ticksAfter env (ds.take k) s = some sk →
      ((∃ c ∈ sk.log.drop sk1.log.length, Call.isTooltipShow c = true) ↔
        (s.m_ttdelay ≤ timerAfter 0 (ds.take k) ∧
          ∀ j, 1 ≤ j → j < k → timerAfter 0 (ds.take j) < s.m_ttdelay))) ∧
    (∀ (k : Nat) (sk1 sk : System), 1 ≤ k → k ≤ ds.length →
      (∀ j, 1 ≤ j → j ≤ k → round32 ((ds.take j).sum) = (ds.take j).sum) →
      ticksAfter env (ds.take (k - 1)) s = some sk1 →
      ticksAfter env (ds.take k) s = some sk →
      ((∃ c ∈ sk.log.drop sk1.log.length, Call.isTooltipShow c = true) ↔
        (s.m_ttdelay ≤ (ds.take k).sum ∧
          ∀ j, 1 ≤ j → j < k → (ds.take j).sum < s.m_ttdelay))) ∧
    ((∀ w d t, env.onTick w d t = []) → s.m_tickedWnd.all Option.isSome = true →
      s.m_subscribeTickWnd = [] → ∀ k, ∃ sk, ticksAfter env (ds.take k) s = some sk) := by
  have hmain : ∀ (k : Nat) (sk1 sk : System), 1 ≤ k → k ≤ ds.length →
      ticksAfter env (ds.take (k - 1)) s = some sk1 →
      ticksAfter env (ds.take k) s = some sk →
      ((∃ c ∈ sk.log.drop sk1.log.length, Call.isTooltipShow c = true) ↔
        (s.m_ttdelay ≤ timerAfter 0 (ds.take k) ∧
          ∀ j, 1 ≤ j → j < k → timerAfter 0 (ds.take j) < s.m_ttdelay)) := by
    intro k sk1 sk h1 hk e1 e2
    have h := ticksAfter_armed env ds s harm hhid k sk1 sk h1 hk e1 e2
    rw [h0] at h
    exact h
  have hexact : ∀ k j : Nat, j ≤ k → k ≤ ds.length →
      (∀ i, 1 ≤ i → i ≤ k → round32 ((ds.take i).sum) = (ds.take i).sum) →
      timerAfter 0 (ds.take j) = (ds.take j).sum := by
    intro k j hjk hk hr
    rw [timerAfter_exact (ds.take j) 0, zero_add]
    intro i hi1 hi2
    have hij : i ≤ j := by
      rw [List.length_take] at hi2
      omega
    rw [List.take_take, min_eq_left hij, zero_add]
    exact hr i hi1 (le_trans hij hjk)
  refine ⟨hmain, ?_, fun hq hall hbuf k => ticksAfter_quiet env hq (ds.take k) s hall hbuf⟩
  intro k sk1 sk h1 hk hr e1 e2
  rw [hmain k sk1 sk h1 hk e1 e2, hexact k k (le_refl k) hk hr]
  constructor
  · rintro ⟨ha, hb⟩
    refine ⟨ha, fun j hj1 hj2 => ?_⟩
    rw [← hexact k j (le_of_lt hj2) hk hr]
    exact hb j hj1 hj2
  · rintro ⟨ha, hb⟩
    refine ⟨ha, fun j hj1 hj2 => ?_⟩
    rw [hexact k j (le_of_lt hj2) hk hr]
    exact hb j hj1 hj2

theorem tooltip_shown_at_least_timer_index_witness :
    System.tooltipArmed.m_activateTooltip = true ∧ System.tooltipArmed.m_tttime = 0 ∧
    System.tooltipArmed.tooltipVisible = false ∧ System.tooltipArmed.m_ttdelay = 2 ∧
    (∀ d ∈ ([1, 1, 1] : List ℚ), 0 ≤ d) ∧
    (∀ sk1 sk, ticksAfter Env.tooltipped [1] System.tooltipArmed = some sk1 →
      ticksAfter Env.tooltipped [1, 1] System.tooltipArmed = some sk →
      ∃ c ∈ sk.log.drop sk1.log.length, Call.isTooltipShow c = true) ∧
    (∃ sk, ticksAfter Env.tooltipped [1, 1] System.tooltipArmed = some sk) := by
  have h01 : fadd 0 1 = 1 := by simpa using fadd_intCast 0 1 (by norm_num)
  have h11 : fadd 1 1 = 2 := by simpa using fadd_intCast 1 1 (by norm_num)
  have hnn : ∀ d ∈ ([1, 1, 1] : List ℚ), 0 ≤ d := by
    intro d hd
    simp only [List.mem_cons, List.mem_singleton, List.not_mem_nil, or_false, or_self] at hd
    rw [hd]
    norm_num
  have hD : System.tooltipArmed.m_ttdelay < 2 ^ 128 := by
    norm_num [System.tooltipArmed, System.afterReset]
  exact ⟨rfl, rfl, rfl, rfl, hnn,
    fun sk1 sk e1 e2 =>
      ((tooltip_shown_at_least_timer_index Env.tooltipped [1, 1, 1] System.tooltipArmed rfl rfl
        (Or.inl rfl) hnn hD).1 2 sk1 sk (by decide) (by decide) e1 e2).2
        ⟨by norm_num [System.tooltipArmed, System.afterReset, timerAfter, h01, h11],
         by
          intro j hj1 hj2
          have hj : j = 1 := by omega
          subst hj
          norm_num [System.tooltipArmed, System.afterReset, timerAfter, h01]⟩,
    (tooltip_shown_at_least_timer_index Env.tooltipped [1, 1, 1] System.tooltipArmed rfl rfl
      (Or.inl rfl) hnn hD).2.2 (fun _ _ _ => rfl) rfl rfl 2⟩

/-- The hit target of a move is resolved on the tree the drag section leaves.
Every widget contains the point; a drag is armed at (0, 0) with threshold 8.
The move to (8, 0) attempts no drag and hits the menu (3), the topmost child
of the root; the move to (9, 0) attempts one, `startDrag` raises the drag
container (1) above its siblings, and the hit target is the drag container. -/
theorem hitWidget_after_rise_example :
    hitWidget { Env.draggable with hitTest := fun _ _ => true } 8 0 System.armed
        (.mk 0 [.mk 1 [], .mk 2 [], .mk 3 []]) = some 3 ∧
    dragAttempted System.armed 9 0 = true ∧
    hitWidget { Env.draggable with hitTest := fun _ _ => true } 9 0 System.armed
        (.mk 0 [.mk 1 [], .mk 2 [], .mk 3 []]) = some 1 := by
  have hc8 : castFloat 8 = 8 := by simpa using castFloat_exact 8 (by norm_num)
  have hc9 : castFloat 9 = 9 := by simpa using castFloat_exact 9 (by norm_num)
  have hs8 : (⟨8, 0⟩ : point).sub ⟨0, 0⟩ = ⟨8, 0⟩ := by
    simpa using point_sub_int 8 0 0 0 (by norm_num) (by norm_num)
  have hs9 : (⟨9, 0⟩ : point).sub ⟨0, 0⟩ = ⟨9, 0⟩ := by
    simpa using point_sub_int 9 0 0 0 (by norm_num) (by norm_num)
  have hq8 : squaredLength (⟨8, 0⟩ : point) = 64 := by
    simpa using squaredLength_int 8 0 (by norm_num) (by norm_num) (by norm_num)
  have hq9 : squaredLength (⟨9, 0⟩ : point) = 81 := by
    simpa using squaredLength_int 9 0 (by norm_num) (by norm_num) (by norm_num)
  have hb8 : sqrtExceeds (grabDistanceSq System.armed 8 0) System.armed.m_dragThreshold
      = false := by
    unfold grabDistanceSq
    rw [hc8, castFloat_zero]
    show sqrtExceeds (squaredLength ((⟨8, 0⟩ : point).sub ⟨0, 0⟩)) 8 = false
    rw [hs8, hq8]
    exact sqrtExceeds_64_8
  have hb9 : sqrtExceeds (grabDistanceSq System.armed 9 0) System.armed.m_dragThreshold
      = true := by
    unfold grabDistanceSq
    rw [hc9, castFloat_zero]
    show sqrtExceeds (squaredLength ((⟨9, 0⟩ : point).sub ⟨0, 0⟩)) 8 = true
    rw [hs9, hq9]
    exact sqrtExceeds_81_8
  have hd8 : dragAttempted System.armed 8 0 = false := by
    unfold dragAttempted
    rw [hb8]
    rfl
  have hd9 : dragAttempted System.armed 9 0 = true := by
    unfold dragAttempted
    rw [hb9]
    rfl
  have hrise : base_window.rise 1 (.mk 0 [.mk 1 [], .mk 2 [], .mk 3 []])
      = .mk 0 [.mk 2 [], .mk 3 [], .mk 1 []] := by
    simp [base_window.rise, base_window.id]
  have hres : ∀ (pt : point) (a b c : Wid),
      (GetTargetWindow (fun _ _ => true) pt [.mk a [], .mk b [], .mk c []]).1
        = some (.mk c []) := by
    intro pt a b c
    rw [GetTargetWindow_eq_resolve _ _ _ _ (Nat.lt_succ_self _),
      resolveTarget_some _ _ _ (.mk c []) (by simp),
      resolveTarget_none _ _ _ (by simp [base_window.getChildren])]
  refine ⟨?_, hd9, ?_⟩
  · unfold hitWidget treeAfterDrag
    rw [hd8]
    exact congrArg (Option.map base_window.id) (hres _ 1 2 3)
  · unfold hitWidget treeAfterDrag
    rw [hd9, System.armed]
    show Option.map base_window.id (GetTargetWindow (fun _ _ => true) _
      (base_window.rise 1 (.mk 0 [.mk 1 [], .mk 2 [], .mk 3 []])).getChildren).1 = some 1
    rw [hrise]
    exact congrArg (Option.map base_window.id) (hres _ 2 3 1)

end gui
